import Mathlib

/-!
# XHTMLReader: markup-to-document-model conversion engine

A shallow embedding of `jni/NativeFormats/fbreader/src/formats/xhtml/XHTMLReader.cpp`.

Conventions of the embedding.

* `std::string` is `Str = List Char` (one `Char` per byte).
* Every C++ stack (`std::vector` used with `push_back` / `back` / `pop_back`,
  `std::stack`) is a list whose HEAD is the most recently pushed element.
  Iterating a vector from `begin()` to `end()` is iterating the reversed list.
* Calls on the sink `myModelReader` (a `BookReader`) are recorded, in call order,
  in an event log; the two queries the engine makes on the sink are answered by
  the environment as functions of that log.
* Operations whose behaviour is undefined in C++ (`back()` / `pop_back()` /
  `top()` on an empty container, reading `*text` of an empty buffer, an iterator
  before `begin()`) make the handler return `none`.
* Functions of the repository that live outside this file (URL decoding, path
  normalisation, lower-casing, the style sheet parsers, the file system) are
  fields of `Env`.
-/

namespace XHTML

/-- A byte string (`std::string`, or a `const char *` buffer with its length). -/
abbrev Str := List Char

/-- The text kinds of `FBTextKind.h` that the reader uses. -/
inductive FBTextKind where
  | REGULAR | TITLE | H1 | H2 | H3 | H4 | H5 | H6
  | STRONG | BOLD | EMPHASIS | ITALIC | CODE | CITE | SUB | SUP
  | DEFINITION_DESCRIPTION | DEFINITION | STRIKETHROUGH
  | IMAGE | PREFORMATTED | INTERNAL_HYPERLINK | EXTERNAL_HYPERLINK
  | OTHER (n : Nat)
  deriving DecidableEq

/-- The features of `ZLTextStyleEntry::Feature` that the reader asks about. -/
inductive Feature where
  | LENGTH_SPACE_BEFORE | LENGTH_SPACE_AFTER | OTHER (n : Nat)
  deriving DecidableEq

/-- Modelled from the spec: the declaration of `ZLTextStyleEntry` is not part of
this file. A style entry is an opaque directive (`payload`) of some entry kind
that carries the set of style features it supports. -/
structure ZLTextStyleEntry where
  entryKind : Nat
  supported : List Feature
  payload : Nat
  deriving DecidableEq

/-- The constant `ZLTextStyleEntry::STYLE_OTHER_ENTRY`. -/
def STYLE_OTHER_ENTRY : Nat := 0

/-- The query `ZLTextStyleEntry::isFeatureSupported`. -/
def ZLTextStyleEntry.isFeatureSupported (e : ZLTextStyleEntry) (f : Feature) : Bool :=
  decide (f ∈ e.supported)

/-- The local `blockingEntry` of `beginParagraph` / `endParagraph`:
`ZLTextStyleEntry(STYLE_OTHER_ENTRY)` with `setLength(f, 0, SIZE_UNIT_PIXEL)`. -/
def blockingEntry (f : Feature) : ZLTextStyleEntry :=
  { entryKind := STYLE_OTHER_ENTRY, supported := [f], payload := 0 }

/-- One call on the sink `myModelReader`. -/
inductive SinkEvent where
  | beginParagraph
  | endParagraph
  | addData (data : Str)
  | addFixedHSpace (length : Nat)
  | addControl (kind : FBTextKind) (start : Bool)
  | addHyperlinkControl (kind : FBTextKind) (label : Str)
  | addHyperlinkLabel (label : Str)
  | addStyleEntry (entry : ZLTextStyleEntry)
  | addStyleCloseEntry
  | insertEndOfSectionParagraph
  | addImageReference (id : Str) (vOffset : Nat) (isCover : Bool)
  | addImage (id : Str)
  | pushKind (kind : FBTextKind)
  | popKind
  deriving DecidableEq

/-- The style sheet table `myStyleSheetTable`, seen through its three queries. -/
structure StyleSheetTable where
  control : Str → Str → Option ZLTextStyleEntry
  doBreakBefore : Str → Str → Bool
  doBreakAfter : Str → Str → Bool

/-- The table after `StyleSheetTable::clear()`. -/
def StyleSheetTable.clear : StyleSheetTable :=
  { control := fun _ _ => none, doBreakBefore := fun _ _ => false,
    doBreakAfter := fun _ _ => false }

/-- The collaborators of the reader that are defined outside this file. -/
structure Env where
  /-- `ZLUnicodeUtil::toLower` -/
  toLower : Str → Str
  /-- `MiscUtil::decodeHtmlURL` -/
  decodeHtmlURL : Str → Str
  /-- `ZLFileUtil::normalizeUnixPath` -/
  normalizeUnixPath : Str → Str
  /-- `MiscUtil::referenceType` -/
  referenceType : Str → FBTextKind
  /-- `MiscUtil::htmlDirectoryPrefix` -/
  htmlDirectoryPrefix : Str → Str
  /-- `ZLFile(path).exists()` -/
  fileExists : Str → Bool
  /-- `ZLFile(path).name(false)` -/
  fileName : Str → Str
  /-- `ZLFile(path).inputStream(myEncryptionMap)`: the content, when the stream opens -/
  inputStream : Str → Option Str
  /-- `StyleSheetTableParser::parse`: pending parser input, table, new text -/
  tableParse : Str → StyleSheetTable → Str → Str × StyleSheetTable
  /-- `StyleSheetSingleStyleParser::parseString` -/
  parseString : Str → ZLTextStyleEntry
  /-- `BookReader::paragraphIsOpen`, as a function of the calls made so far -/
  paragraphIsOpen : List SinkEvent → Bool
  /-- `model().bookTextModel()->paragraphsNumber()`, as a function of the calls so far -/
  paragraphsNumber : List SinkEvent → Nat
  /-- `FullNamePredicate(ZLXMLNamespace::Svg, "svg").accepts` -/
  acceptsSvgSvg : Str → Bool
  /-- `FullNamePredicate(ZLXMLNamespace::Svg, "image").accepts` -/
  acceptsSvgImage : Str → Bool
  /-- `FullNamePredicate(ZLXMLNamespace::XLink, "href").accepts` -/
  acceptsXLinkHref : Str → Bool

/-! ## File aliases -/

/-- The character `'0' + d`. -/
def digitChar (d : Nat) : Char := Char.ofNat (48 + d)

/-- The digit loop of `ZLStringUtil::appendNumber`: digits are produced from the
least significant one and written right to left. -/
def appendNumberAux : Nat → Nat → Str → Str
  | 0, _, acc => acc
  | fuel + 1, n, acc =>
    if n / 10 = 0 then digitChar (n % 10) :: acc
    else appendNumberAux fuel (n / 10) (digitChar (n % 10) :: acc)

/-- Modelled from the spec: `ZLStringUtil::appendNumber` is not part of this file;
it appends the decimal representation of `n` ("integer-as-string") to `str`. -/
def appendNumber (str : Str) (n : Nat) : Str := str ++ appendNumberAux (n + 1) n []

/-- The call `std::map::find`, on a map kept as an association list. -/
def mapFind (m : List (Str × Str)) (key : Str) : Option Str := m.lookup key

/-- The call `std::map::insert`: nothing happens when the key is present. -/
def mapInsert (m : List (Str × Str)) (key value : Str) : List (Str × Str) :=
  match mapFind m key with
  | some _ => m
  | none => m ++ [(key, value)]

/-- The method `XHTMLReader::fileAlias`, on the (mutable) map `myFileNumbers`:
returns the alias and the map after the call. -/
def fileAlias (env : Env) (myFileNumbers : List (Str × Str)) (fileName : Str) :
    Str × List (Str × Str) :=
  match mapFind myFileNumbers fileName with
  | some num => (num, myFileNumbers)
  | none =>
    let correctedFileName := env.normalizeUnixPath (env.decodeHtmlURL fileName)
    match mapFind myFileNumbers correctedFileName with
    | some num => (num, myFileNumbers)
    | none =>
      let num := appendNumber [] myFileNumbers.length
      let inserted := mapInsert myFileNumbers correctedFileName num
      ((mapFind inserted correctedFileName).getD [], inserted)

/-- The call `std::string::find(c)`: the first index of `c`, `none` for `npos`. -/
def strFind : Str → Char → Option Nat
  | [], _ => none
  | x :: xs, c => if x = c then some 0 else (strFind xs c).map (· + 1)

/-- The method `XHTMLReader::normalizedReference`. -/
def normalizedReference (env : Env) (myFileNumbers : List (Str × Str)) (reference : Str) :
    Str × List (Str × Str) :=
  match strFind reference '#' with
  | none => fileAlias env myFileNumbers reference
  | some index =>
    let r := fileAlias env myFileNumbers (reference.take index)
    (r.1 ++ reference.drop index, r.2)

/-! ## Engine state -/

/-- The enumeration `XHTMLReader::ReadState`. -/
inductive ReadState where
  | READ_NOTHING | READ_STYLE | READ_BODY
  deriving DecidableEq

/-- The attribute array of an element: name / value pairs in document order. -/
abbrev Attributes := List (Str × Str)

/-- The members of `XHTMLReader`, together with the state held by the shared tag
actions (`XHTMLTagHyperlinkAction::myHyperlinkStack` and
`XHTMLSvgImageNamePredicate::myIsEnabled`). -/
structure XHTMLReader where
  /-- the calls made so far on the sink `myModelReader` -/
  myModelReader : List SinkEvent
  myPathPrefix : Str
  myReferenceAlias : Str
  myReferenceDirName : Str
  myPreformatted : Bool
  myNewParagraphInProgress : Bool
  myReadState : ReadState
  myBodyCounter : Int
  myCurrentParagraphIsEmpty : Bool
  myStyleSheetTable : StyleSheetTable
  myCSSStack : List Nat
  myStyleEntryStack : List ZLTextStyleEntry
  myStylesToRemove : Nat
  myDoPageBreakAfterStack : List Bool
  /-- the table parser (its pending input); `none` is the null pointer -/
  myTableParser : Option Str
  myFileNumbers : List (Str × Str)
  myMarkNextImageAsCover : Bool
  myHyperlinkStack : List FBTextKind
  myIsEnabled : Bool

/-- Records one call on the sink. -/
def XHTMLReader.emit (r : XHTMLReader) (e : SinkEvent) : XHTMLReader :=
  { r with myModelReader := r.myModelReader ++ [e] }

/-- Modelled from the spec: `ZLXMLReader::attributeValue(attributes, name)` is not
part of this file; the value of the first attribute with exactly that name. -/
def attributeValue (attributes : Attributes) (name : Str) : Option Str :=
  attributes.lookup name

/-- Modelled from the spec: `ZLXMLReader::attributeValue(attributes, predicate)`;
the value of the first attribute whose name the predicate accepts. -/
def attributeValueBy (attributes : Attributes) (accepts : Str → Bool) : Option Str :=
  (attributes.find? (fun a => accepts a.1)).map (·.2)

/-! ## Paragraph controller -/

/-- The loop of `XHTMLReader::beginParagraph` over `myStyleEntryStack`, from
`begin()` to `end()`: every entry is sent to the sink and `doBlockSpaceBefore`
accumulated. -/
def beginParagraphLoop : List ZLTextStyleEntry → List SinkEvent × Bool → List SinkEvent × Bool
  | [], acc => acc
  | e :: rest, (log, doBlockSpaceBefore) =>
    beginParagraphLoop rest
      (log ++ [SinkEvent.addStyleEntry e],
       doBlockSpaceBefore || e.isFeatureSupported Feature.LENGTH_SPACE_BEFORE)

/-- The method `XHTMLReader::beginParagraph`. -/
def XHTMLReader.beginParagraph (r : XHTMLReader) : XHTMLReader :=
  let r1 := { r with myCurrentParagraphIsEmpty := true }
  let r2 := r1.emit SinkEvent.beginParagraph
  let res := beginParagraphLoop r2.myStyleEntryStack.reverse (r2.myModelReader, false)
  let r3 := { r2 with myModelReader := res.1 }
  if res.2 then r3.emit (SinkEvent.addStyleEntry (blockingEntry Feature.LENGTH_SPACE_BEFORE))
  else r3

/-- The first loop of `XHTMLReader::endParagraph`, over the entries from `begin()`
up to `end() - myStylesToRemove`. -/
def endParagraphScan : List ZLTextStyleEntry → Bool → Bool
  | [], doBlockSpaceAfter => doBlockSpaceAfter
  | e :: rest, doBlockSpaceAfter =>
    endParagraphScan rest
      (doBlockSpaceAfter || e.isFeatureSupported Feature.LENGTH_SPACE_AFTER)

/-- The second loop of `XHTMLReader::endParagraph`:
`for (; myStylesToRemove > 0; --myStylesToRemove)` sends `back()` to the sink and
pops it. The first argument is the value of `myStylesToRemove`. -/
def endParagraphPop : Nat → XHTMLReader → Option XHTMLReader
  | 0, r => some { r with myStylesToRemove := 0 }
  | n + 1, r =>
    match r.myStyleEntryStack with
    | [] => none
    | e :: rest =>
      endParagraphPop n
        { (r.emit (SinkEvent.addStyleEntry e)) with
          myStyleEntryStack := rest, myStylesToRemove := n }

/-- The method `XHTMLReader::endParagraph`. -/
def XHTMLReader.endParagraph (r : XHTMLReader) : Option XHTMLReader :=
  if r.myStyleEntryStack.length < r.myStylesToRemove then none
  else
    let doBlockSpaceAfter :=
      endParagraphScan (r.myStyleEntryStack.drop r.myStylesToRemove).reverse false
    let r1 :=
      if doBlockSpaceAfter then
        r.emit (SinkEvent.addStyleEntry (blockingEntry Feature.LENGTH_SPACE_AFTER))
      else r
    (endParagraphPop r1.myStylesToRemove r1).map (fun r2 => r2.emit SinkEvent.endParagraph)

/-! ## Tag actions -/

/-- The predicate an image action reads its file name with: a
`SimpleNamePredicate(attributeName)` or the shared `XHTMLSvgImageNamePredicate`. -/
inductive ImagePredicate where
  | simple (attributeName : Str)
  | svgImage
  deriving DecidableEq

/-- The subclasses of `XHTMLTagAction`, with their constructor arguments. -/
inductive XHTMLTagAction where
  | Style | Link | Paragraph | Body | RestartParagraph
  | Image (predicate : ImagePredicate)
  | Svg | Item | Hyperlink
  | Control (myControl : FBTextKind)
  | ParagraphWithControl (myControl : FBTextKind)
  | Pre
  deriving DecidableEq

/-- The constant `TYPE` of the style and link actions. -/
def TYPE : Str := "text/css".toList

/-- The constant `REL` of the link action. -/
def REL : Str := "stylesheet".toList

/-- The constant `HASH`. -/
def HASH : Str := ['#']

/-- The bytes of `bullet` in the list item action. -/
def bullet : Str :=
  [Char.ofNat 0xE2, Char.ofNat 0x80, Char.ofNat 0xA2, Char.ofNat 0xC0, Char.ofNat 0xA0]

/-- The method `XHTMLTagStyleAction::doAtStart`. -/
def styleDoAtStart (r : XHTMLReader) (xmlattributes : Attributes) : XHTMLReader :=
  match attributeValue xmlattributes "type".toList with
  | none => r
  | some type =>
    if TYPE ≠ type then r
    else if r.myReadState = ReadState.READ_NOTHING then
      { r with myReadState := ReadState.READ_STYLE, myTableParser := some [] }
    else r

/-- The method `XHTMLTagStyleAction::doAtEnd`. -/
def styleDoAtEnd (r : XHTMLReader) : XHTMLReader :=
  if r.myReadState = ReadState.READ_STYLE then
    { r with myReadState := ReadState.READ_NOTHING, myTableParser := none }
  else r

/-- The method `XHTMLTagLinkAction::doAtStart`. -/
def linkDoAtStart (env : Env) (r : XHTMLReader) (xmlattributes : Attributes) : XHTMLReader :=
  match attributeValue xmlattributes "rel".toList with
  | none => r
  | some rel =>
    if REL ≠ rel then r
    else
      match attributeValue xmlattributes "type".toList with
      | none => r
      | some type =>
        if TYPE ≠ type then r
        else
          match attributeValue xmlattributes "href".toList with
          | none => r
          | some href =>
            let cssFilePath := r.myPathPrefix ++ env.decodeHtmlURL href
            match env.inputStream cssFilePath with
            | none => r
            | some cssStream =>
              { r with myStyleSheetTable :=
                  (env.tableParse [] r.myStyleSheetTable cssStream).2 }

/-- The method `XHTMLTagParagraphAction::doAtStart`. -/
def paragraphDoAtStart (r : XHTMLReader) : XHTMLReader :=
  if !r.myNewParagraphInProgress then
    { r.beginParagraph with myNewParagraphInProgress := true }
  else r

/-- The method `XHTMLTagBodyAction::doAtStart`. -/
def bodyDoAtStart (r : XHTMLReader) : XHTMLReader :=
  let r1 := { r with myBodyCounter := r.myBodyCounter + 1 }
  if r1.myBodyCounter > 0 then { r1 with myReadState := ReadState.READ_BODY } else r1

/-- The method `XHTMLTagBodyAction::doAtEnd`. -/
def bodyDoAtEnd (r : XHTMLReader) : Option XHTMLReader :=
  r.endParagraph.map (fun r1 =>
    let r2 := { r1 with myBodyCounter := r1.myBodyCounter - 1 }
    if r2.myBodyCounter ≤ 0 then { r2 with myReadState := ReadState.READ_NOTHING } else r2)

/-- The method `XHTMLTagRestartParagraphAction::doAtStart`. -/
def restartParagraphDoAtStart (r : XHTMLReader) : Option XHTMLReader :=
  let r1 := if r.myCurrentParagraphIsEmpty then r.emit (SinkEvent.addData [' ']) else r
  r1.endParagraph.map (fun r2 => r2.beginParagraph)

/-- The method `XHTMLTagItemAction::doAtStart`. -/
def itemDoAtStart (r : XHTMLReader) : Option XHTMLReader :=
  r.endParagraph.map (fun r1 => r1.beginParagraph.emit (SinkEvent.addData bullet))

/-- The call `reader.attributeValue(xmlattributes, *myPredicate)` of the image action. -/
def imageFileName (env : Env) (r : XHTMLReader) (p : ImagePredicate)
    (xmlattributes : Attributes) : Option Str :=
  match p with
  | ImagePredicate.simple attributeName => attributeValue xmlattributes attributeName
  | ImagePredicate.svgImage =>
    attributeValueBy xmlattributes (fun name => r.myIsEnabled && env.acceptsXLinkHref name)

/-- The method `XHTMLTagImageAction::doAtStart`. -/
def imageDoAtStart (env : Env) (r : XHTMLReader) (p : ImagePredicate)
    (xmlattributes : Attributes) : Option XHTMLReader :=
  match imageFileName env r p xmlattributes with
  | none => some r
  | some fileName =>
    let fullfileName := r.myPathPrefix ++ env.decodeHtmlURL fileName
    if !env.fileExists fullfileName then some r
    else
      let flagParagraphIsOpen := env.paragraphIsOpen r.myModelReader
      let afterOpen : Option XHTMLReader :=
        if flagParagraphIsOpen then
          if r.myCurrentParagraphIsEmpty then
            some (r.emit (SinkEvent.addControl FBTextKind.IMAGE true))
          else r.endParagraph
        else some r
      afterOpen.bind (fun r1 =>
        let imageName := env.fileName fullfileName
        let r2 := r1.emit (SinkEvent.addImageReference imageName 0 r1.myMarkNextImageAsCover)
        let r3 := r2.emit (SinkEvent.addImage imageName)
        let r4 := { r3 with myMarkNextImageAsCover := false }
        if flagParagraphIsOpen && r4.myCurrentParagraphIsEmpty then
          (r4.emit (SinkEvent.addControl FBTextKind.IMAGE false)).endParagraph
        else some r4)

/-- The method `XHTMLTagControlAction::doAtStart`. -/
def controlDoAtStart (myControl : FBTextKind) (r : XHTMLReader) : XHTMLReader :=
  (r.emit (SinkEvent.pushKind myControl)).emit (SinkEvent.addControl myControl true)

/-- The method `XHTMLTagControlAction::doAtEnd`. -/
def controlDoAtEnd (myControl : FBTextKind) (r : XHTMLReader) : XHTMLReader :=
  (r.emit (SinkEvent.addControl myControl false)).emit SinkEvent.popKind

/-- The method `XHTMLTagHyperlinkAction::doAtStart`. -/
def hyperlinkDoAtStart (env : Env) (r : XHTMLReader) (xmlattributes : Attributes) :
    XHTMLReader :=
  let r1 :=
    match attributeValue xmlattributes "href".toList with
    | some (c :: cs) =>
      let href := c :: cs
      let hyperlinkType := env.referenceType href
      let link := env.decodeHtmlURL href
      let resolved : Str × List (Str × Str) :=
        if hyperlinkType = FBTextKind.INTERNAL_HYPERLINK then
          if link.head? = some '#' then (r.myReferenceAlias ++ link, r.myFileNumbers)
          else normalizedReference env r.myFileNumbers (r.myReferenceDirName ++ link)
        else (link, r.myFileNumbers)
      { r with
        myFileNumbers := resolved.2,
        myHyperlinkStack := hyperlinkType :: r.myHyperlinkStack,
        myModelReader :=
          r.myModelReader ++ [SinkEvent.addHyperlinkControl hyperlinkType resolved.1] }
    | _ => { r with myHyperlinkStack := FBTextKind.REGULAR :: r.myHyperlinkStack }
  match attributeValue xmlattributes "name".toList with
  | some name =>
    r1.emit (SinkEvent.addHyperlinkLabel
      (r1.myReferenceAlias ++ HASH ++ env.decodeHtmlURL name))
  | none => r1

/-- The method `XHTMLTagHyperlinkAction::doAtEnd`. -/
def hyperlinkDoAtEnd (r : XHTMLReader) : Option XHTMLReader :=
  match r.myHyperlinkStack with
  | [] => none
  | kind :: rest =>
    let r1 := if kind ≠ FBTextKind.REGULAR then r.emit (SinkEvent.addControl kind false) else r
    some { r1 with myHyperlinkStack := rest }

/-- The method `XHTMLTagParagraphWithControlAction::doAtStart`. -/
def paragraphWithControlDoAtStart (env : Env) (myControl : FBTextKind) (r : XHTMLReader) :
    XHTMLReader :=
  let r1 :=
    if myControl = FBTextKind.TITLE ∧ env.paragraphsNumber r.myModelReader > 1 then
      r.emit SinkEvent.insertEndOfSectionParagraph
    else r
  (r1.emit (SinkEvent.pushKind myControl)).beginParagraph

/-- The method `XHTMLTagParagraphWithControlAction::doAtEnd`. -/
def paragraphWithControlDoAtEnd (r : XHTMLReader) : Option XHTMLReader :=
  r.endParagraph.map (fun r1 => r1.emit SinkEvent.popKind)

/-- The method `XHTMLTagPreAction::doAtStart`. -/
def preDoAtStart (r : XHTMLReader) : XHTMLReader :=
  ({ r with myPreformatted := true }).beginParagraph.emit
    (SinkEvent.addControl FBTextKind.PREFORMATTED true)

/-- The method `XHTMLTagPreAction::doAtEnd`. -/
def preDoAtEnd (r : XHTMLReader) : Option XHTMLReader :=
  r.endParagraph.map (fun r1 => { r1 with myPreformatted := false })

/-- The virtual call `action->doAtStart(reader, xmlattributes)`. -/
def XHTMLTagAction.doAtStart (env : Env) (action : XHTMLTagAction) (r : XHTMLReader)
    (xmlattributes : Attributes) : Option XHTMLReader :=
  match action with
  | XHTMLTagAction.Style => some (styleDoAtStart r xmlattributes)
  | XHTMLTagAction.Link => some (linkDoAtStart env r xmlattributes)
  | XHTMLTagAction.Paragraph => some (paragraphDoAtStart r)
  | XHTMLTagAction.Body => some (bodyDoAtStart r)
  | XHTMLTagAction.RestartParagraph => restartParagraphDoAtStart r
  | XHTMLTagAction.Image p => imageDoAtStart env r p xmlattributes
  | XHTMLTagAction.Svg => some { r with myIsEnabled := true }
  | XHTMLTagAction.Item => itemDoAtStart r
  | XHTMLTagAction.Hyperlink => some (hyperlinkDoAtStart env r xmlattributes)
  | XHTMLTagAction.Control k => some (controlDoAtStart k r)
  | XHTMLTagAction.ParagraphWithControl k => some (paragraphWithControlDoAtStart env k r)
  | XHTMLTagAction.Pre => some (preDoAtStart r)

/-- The virtual call `action->doAtEnd(reader)`. -/
def XHTMLTagAction.doAtEnd (action : XHTMLTagAction) (r : XHTMLReader) : Option XHTMLReader :=
  match action with
  | XHTMLTagAction.Style => some (styleDoAtEnd r)
  | XHTMLTagAction.Link => some r
  | XHTMLTagAction.Paragraph => r.endParagraph
  | XHTMLTagAction.Body => bodyDoAtEnd r
  | XHTMLTagAction.RestartParagraph => some r
  | XHTMLTagAction.Image _ => some r
  | XHTMLTagAction.Svg => some { r with myIsEnabled := false }
  | XHTMLTagAction.Item => r.endParagraph
  | XHTMLTagAction.Hyperlink => hyperlinkDoAtEnd r
  | XHTMLTagAction.Control k => some (controlDoAtEnd k r)
  | XHTMLTagAction.ParagraphWithControl _ => paragraphWithControlDoAtEnd r
  | XHTMLTagAction.Pre => preDoAtEnd r

/-- The table `ourTagActions` as `XHTMLReader::fillTagTable` fills it. -/
def ourTagActions : List (Str × XHTMLTagAction) :=
  [ ("body".toList, XHTMLTagAction.Body),
    ("style".toList, XHTMLTagAction.Style),
    ("p".toList, XHTMLTagAction.Paragraph),
    ("h1".toList, XHTMLTagAction.ParagraphWithControl FBTextKind.H1),
    ("h2".toList, XHTMLTagAction.ParagraphWithControl FBTextKind.H2),
    ("h3".toList, XHTMLTagAction.ParagraphWithControl FBTextKind.H3),
    ("h4".toList, XHTMLTagAction.ParagraphWithControl FBTextKind.H4),
    ("h5".toList, XHTMLTagAction.ParagraphWithControl FBTextKind.H5),
    ("h6".toList, XHTMLTagAction.ParagraphWithControl FBTextKind.H6),
    ("li".toList, XHTMLTagAction.Item),
    ("strong".toList, XHTMLTagAction.Control FBTextKind.STRONG),
    ("b".toList, XHTMLTagAction.Control FBTextKind.BOLD),
    ("em".toList, XHTMLTagAction.Control FBTextKind.EMPHASIS),
    ("i".toList, XHTMLTagAction.Control FBTextKind.ITALIC),
    ("code".toList, XHTMLTagAction.Control FBTextKind.CODE),
    ("tt".toList, XHTMLTagAction.Control FBTextKind.CODE),
    ("kbd".toList, XHTMLTagAction.Control FBTextKind.CODE),
    ("var".toList, XHTMLTagAction.Control FBTextKind.CODE),
    ("samp".toList, XHTMLTagAction.Control FBTextKind.CODE),
    ("cite".toList, XHTMLTagAction.Control FBTextKind.CITE),
    ("sub".toList, XHTMLTagAction.Control FBTextKind.SUB),
    ("sup".toList, XHTMLTagAction.Control FBTextKind.SUP),
    ("dd".toList, XHTMLTagAction.Control FBTextKind.DEFINITION_DESCRIPTION),
    ("dfn".toList, XHTMLTagAction.Control FBTextKind.DEFINITION),
    ("strike".toList, XHTMLTagAction.Control FBTextKind.STRIKETHROUGH),
    ("a".toList, XHTMLTagAction.Hyperlink),
    ("img".toList, XHTMLTagAction.Image (ImagePredicate.simple "src".toList)),
    ("object".toList, XHTMLTagAction.Image (ImagePredicate.simple "data".toList)),
    ("svg".toList, XHTMLTagAction.Svg),
    ("image".toList, XHTMLTagAction.Image ImagePredicate.svgImage),
    ("br".toList, XHTMLTagAction.RestartParagraph),
    ("div".toList, XHTMLTagAction.Paragraph),
    ("dt".toList, XHTMLTagAction.Paragraph),
    ("link".toList, XHTMLTagAction.Link),
    ("pre".toList, XHTMLTagAction.Pre),
    ("td".toList, XHTMLTagAction.Paragraph),
    ("th".toList, XHTMLTagAction.Paragraph) ]

/-- The method `XHTMLReader::getAction`: the exact name first, then the two
namespace predicates of `ourNsTagActions`. The map is ordered by the address of
its keys; the two predicates name different elements, so at most one accepts and
the order of the scan does not matter. The namespace bindings the predicates read
are those of the element, the same at its start and at its end. -/
def getAction (env : Env) (tag : Str) : Option XHTMLTagAction :=
  let lTag := env.toLower tag
  match ourTagActions.lookup lTag with
  | some action => some action
  | none =>
    if env.acceptsSvgSvg lTag then some XHTMLTagAction.Svg
    else if env.acceptsSvgImage lTag then some (XHTMLTagAction.Image ImagePredicate.svgImage)
    else none

/-! ## Element and character-data handlers -/

/-- The method `XHTMLReader::addStyleEntry`. -/
def XHTMLReader.addStyleEntry (r : XHTMLReader) (tag aClass : Str) : Bool × XHTMLReader :=
  match r.myStyleSheetTable.control tag aClass with
  | some entry =>
    (true, { (r.emit (SinkEvent.addStyleEntry entry)) with
             myStyleEntryStack := entry :: r.myStyleEntryStack })
  | none => (false, r)

/-- The statements of `XHTMLReader::startElementHandler` before the tag action is
looked up (lines 574-587): the `id` label, the break before the element, and the
push on `myDoPageBreakAfterStack`. -/
def startElementOpening (r : XHTMLReader) (sTag sClass : Str) (attributes : Attributes) :
    XHTMLReader :=
  let r1 :=
    match attributeValue attributes "id".toList with
    | some id => r.emit (SinkEvent.addHyperlinkLabel (r.myReferenceAlias ++ HASH ++ id))
    | none => r
  let r2 :=
    if r1.myStyleSheetTable.doBreakBefore sTag sClass then
      r1.emit SinkEvent.insertEndOfSectionParagraph
    else r1
  { r2 with myDoPageBreakAfterStack :=
      r2.myStyleSheetTable.doBreakAfter sTag sClass :: r2.myDoPageBreakAfterStack }

/-- The inline `style` attribute of `XHTMLReader::startElementHandler` (lines 598-604). -/
def addInlineStyle (env : Env) (r : XHTMLReader) (attributes : Attributes) : XHTMLReader :=
  match attributeValue attributes "style".toList with
  | some style =>
    let entry := env.parseString style
    { (r.emit (SinkEvent.addStyleEntry entry)) with
      myStyleEntryStack := entry :: r.myStyleEntryStack }
  | none => r

/-- The style pushes of `XHTMLReader::startElementHandler` (lines 595-604). -/
def pushStyleEntries (env : Env) (r : XHTMLReader) (sTag sClass : Str)
    (attributes : Attributes) : XHTMLReader :=
  let r5 := (r.addStyleEntry sTag []).2
  let r6 := (r5.addStyleEntry [] sClass).2
  let r7 := (r6.addStyleEntry sTag sClass).2
  addInlineStyle env r7 attributes

/-- The statement `if (action != 0) { action->doAtStart(*this, attributes); }`. -/
def invokeAtStart (env : Env) (action : Option XHTMLTagAction) (r : XHTMLReader)
    (attributes : Attributes) : Option XHTMLReader :=
  match action with
  | some a => a.doAtStart env r attributes
  | none => some r

/-- The statement
`if (action != 0) { action->doAtEnd(*this); myNewParagraphInProgress = false; }`. -/
def invokeAtEnd (action : Option XHTMLTagAction) (r : XHTMLReader) : Option XHTMLReader :=
  match action with
  | some a => (a.doAtEnd r).map (fun r1 => { r1 with myNewParagraphInProgress := false })
  | none => some r

/-- The last statements of `XHTMLReader::endElementHandler` (lines 625-628): the
break after the element and the pop of `myDoPageBreakAfterStack`. -/
def endElementClosing (r : XHTMLReader) : Option XHTMLReader :=
  match r.myDoPageBreakAfterStack with
  | [] => none
  | doBreak :: others =>
    let r1 := if doBreak then r.emit SinkEvent.insertEndOfSectionParagraph else r
    some { r1 with myDoPageBreakAfterStack := others }

/-- The method `XHTMLReader::startElementHandler`. -/
def startElementHandler (env : Env) (r : XHTMLReader) (tag : Str) (attributes : Attributes) :
    Option XHTMLReader :=
  let sTag := env.toLower tag
  let sClass := (attributeValue attributes "class".toList).getD []
  let r3 := startElementOpening r sTag sClass attributes
  (invokeAtStart env (getAction env sTag) r3 attributes).map (fun r4 =>
    let sizeBefore := r4.myStyleEntryStack.length
    let r8 := pushStyleEntries env r4 sTag sClass attributes
    { r8 with myCSSStack := (r8.myStyleEntryStack.length - sizeBefore) :: r8.myCSSStack })

/-- The first loop of `XHTMLReader::endElementHandler`:
`for (int i = myCSSStack.back(); i > 0; --i) addStyleCloseEntry()`. -/
def closeEntriesLoop : Nat → XHTMLReader → XHTMLReader
  | 0, r => r
  | i + 1, r => closeEntriesLoop i (r.emit SinkEvent.addStyleCloseEntry)

/-- The second loop of `XHTMLReader::endElementHandler`:
`for (; myStylesToRemove > 0; --myStylesToRemove) myStyleEntryStack.pop_back()`.
The first argument is the value of `myStylesToRemove`. -/
def removeStylesLoop : Nat → XHTMLReader → Option XHTMLReader
  | 0, r => some { r with myStylesToRemove := 0 }
  | n + 1, r =>
    match r.myStyleEntryStack with
    | [] => none
    | _ :: rest => removeStylesLoop n { r with myStyleEntryStack := rest, myStylesToRemove := n }

/-- The method `XHTMLReader::endElementHandler`. -/
def endElementHandler (env : Env) (r : XHTMLReader) (tag : Str) : Option XHTMLReader :=
  match r.myCSSStack with
  | [] => none
  | back :: rest =>
    let r1 := closeEntriesLoop back r
    let r2 := { r1 with myStylesToRemove := back, myCSSStack := rest }
    (invokeAtEnd (getAction env tag) r2).bind (fun r3 =>
      (removeStylesLoop r3.myStylesToRemove r3).bind endElementClosing)

/-- The function `std::isspace` (in the "C" locale) on an unsigned char. -/
def isspace (c : Char) : Bool :=
  c.toNat = 32 || (9 ≤ c.toNat && c.toNat ≤ 13)

/-- The loop `while (spaceCounter < len && isspace(text[spaceCounter])) ++spaceCounter`
of the preformatted branch; the first argument is the text from `text + spaceCounter`. -/
def spaceCounterLoop : Str → Nat → Nat
  | [], spaceCounter => spaceCounter
  | c :: rest, spaceCounter =>
    if isspace c then spaceCounterLoop rest (spaceCounter + 1) else spaceCounter

/-- The loop `while (isspace(*text)) { ++text; if (--len == 0) break; }` of the
non-preformatted branch, on a non-empty text. Reading `*text` when `len` is
already 0 is outside the buffer. -/
def skipSpaceLoop : Str → Option Str
  | [] => none
  | [c] => if isspace c then some [] else some [c]
  | c :: d :: rest => if isspace c then skipSpaceLoop (d :: rest) else some (c :: d :: rest)

/-- The tail of `XHTMLReader::characterDataHandler` in `READ_BODY`: `if (len > 0) ...`. -/
def appendCharacterData (env : Env) (r : XHTMLReader) (text : Str) : XHTMLReader :=
  if text.length > 0 then
    let r1 := { r with myCurrentParagraphIsEmpty := false }
    let r2 :=
      if !env.paragraphIsOpen r1.myModelReader then r1.emit SinkEvent.beginParagraph else r1
    { (r2.emit (SinkEvent.addData text)) with myNewParagraphInProgress := false }
  else r

/-- The method `XHTMLReader::characterDataHandler`. -/
def characterDataHandler (env : Env) (r : XHTMLReader) (text : Str) : Option XHTMLReader :=
  match r.myReadState with
  | ReadState.READ_NOTHING => some r
  | ReadState.READ_STYLE =>
    match r.myTableParser with
    | some pending =>
      let res := env.tableParse pending r.myStyleSheetTable text
      some { r with myTableParser := some res.1, myStyleSheetTable := res.2 }
    | none => some r
  | ReadState.READ_BODY =>
    if r.myPreformatted then
      match text with
      | [] => none
      | c :: rest =>
        let split : Option (XHTMLReader × Str) :=
          if c = '\r' ∨ c = '\n' then
            r.endParagraph.map (fun r1 =>
              (r1.beginParagraph.emit (SinkEvent.addControl FBTextKind.PREFORMATTED true), rest))
          else some (r, c :: rest)
        split.map (fun p =>
          let spaceCounter := spaceCounterLoop p.2 0
          let r2 := p.1.emit (SinkEvent.addFixedHSpace spaceCounter)
          appendCharacterData env r2 (p.2.drop spaceCounter))
    else if r.myNewParagraphInProgress || !env.paragraphIsOpen r.myModelReader then
      (skipSpaceLoop text).map (fun rest => appendCharacterData env r rest)
    else some (appendCharacterData env r text)

/-! ## Document level -/

/-- The value `std::string::npos` of a 64-bit `size_t`. -/
def npos : Nat := 2 ^ 64 - 1

/-- The last index of `c` in `s`, if any. -/
def lastIndexOf : Str → Char → Option Nat
  | [], _ => none
  | x :: xs, c =>
    match lastIndexOf xs c with
    | some i => some (i + 1)
    | none => if x = c then some 0 else none

/-- The call `std::string::rfind(c, pos)`: the last index `<= pos` holding `c`,
or `npos`. -/
def strRfind (s : Str) (c : Char) (pos : Nat) : Nat :=
  match lastIndexOf (s.take (pos + 1)) c with
  | some i => i
  | none => npos

/-- The conversion of a `size_t` to a 32-bit `int`. -/
def toInt32 (n : Nat) : Int :=
  if n % 2 ^ 32 < 2 ^ 31 then ((n % 2 ^ 32 : Nat) : Int) else ((n % 2 ^ 32 : Nat) : Int) - 2 ^ 32

/-- The conversion of an `int` to a 64-bit `size_t`. -/
def toSizeT (i : Int) : Nat := (i % 2 ^ 64).toNat

/-- The two lines of `XHTMLReader::readFile` computing `myReferenceDirName`. -/
def referenceDirName (referenceName : Str) : Str :=
  let index : Int :=
    toInt32 (strRfind referenceName '/' ((referenceName.length + 2 ^ 64 - 1) % 2 ^ 64))
  referenceName.take (toSizeT (index + 1))

/-- The method `XHTMLReader::readFile`, up to the call of `readDocument`. -/
def readFileReset (env : Env) (r : XHTMLReader) (filePath referenceName : Str) : XHTMLReader :=
  let num := fileAlias env r.myFileNumbers referenceName
  { r with
    myPathPrefix := env.htmlDirectoryPrefix filePath,
    myReferenceAlias := num.1,
    myFileNumbers := num.2,
    myModelReader := r.myModelReader ++ [SinkEvent.addHyperlinkLabel num.1],
    myReferenceDirName := referenceDirName referenceName,
    myPreformatted := false,
    myNewParagraphInProgress := false,
    myReadState := ReadState.READ_NOTHING,
    myBodyCounter := 0,
    myCurrentParagraphIsEmpty := true,
    myStyleSheetTable := StyleSheetTable.clear,
    myCSSStack := [],
    myStyleEntryStack := [],
    myStylesToRemove := 0,
    myDoPageBreakAfterStack := [],
    myTableParser := none }

/-- One callback of the XML tokenizer. -/
inductive XMLEvent where
  | startElement (tag : Str) (attributes : Attributes)
  | characterData (text : Str)
  | endElement (tag : Str)
  deriving DecidableEq

/-- Dispatches one tokenizer callback to its handler. -/
def handleEvent (env : Env) (r : XHTMLReader) : XMLEvent → Option XHTMLReader
  | XMLEvent.startElement tag attributes => startElementHandler env r tag attributes
  | XMLEvent.characterData text => characterDataHandler env r text
  | XMLEvent.endElement tag => endElementHandler env r tag

/-- Runs the handlers over a sequence of tokenizer callbacks. -/
def runEvents (env : Env) : XHTMLReader → List XMLEvent → Option XHTMLReader
  | r, [] => some r
  | r, e :: es => (handleEvent env r e).bind (fun r1 => runEvents env r1 es)

/-- The tags that are open after a sequence of callbacks, starting from the open
tags `opened`; `none` when an end tag does not match the innermost open tag or a
character-data callback carries no text. -/
def openTags : List Str → List XMLEvent → Option (List Str)
  | opened, [] => some opened
  | opened, XMLEvent.startElement tag _ :: es => openTags (tag :: opened) es
  | opened, XMLEvent.characterData text :: es =>
    if text = [] then none else openTags opened es
  | [], XMLEvent.endElement _ :: _ => none
  | top :: opened, XMLEvent.endElement tag :: es =>
    if tag = top then openTags opened es else none

/-- A well-nested callback sequence: every end tag closes the innermost open
element and nothing stays open. -/
@[reducible] def WellNested (es : List XMLEvent) : Prop := openTags [] es = some []

/-- The number of `addStyleCloseEntry` calls in a run of sink calls. -/
def closeCount (log : List SinkEvent) : Nat := log.count SinkEvent.addStyleCloseEntry

/-- A start or end of the body action or of the style action, applied directly
(without the element handlers around it). -/
inductive BodyStyleStep where
  | bodyStart | bodyEnd
  | styleStart (xmlattributes : Attributes) | styleEnd

/-- Applies one body / style action. -/
def BodyStyleStep.apply (r : XHTMLReader) : BodyStyleStep → Option XHTMLReader
  | BodyStyleStep.bodyStart => some (bodyDoAtStart r)
  | BodyStyleStep.bodyEnd => bodyDoAtEnd r
  | BodyStyleStep.styleStart xmlattributes => some (styleDoAtStart r xmlattributes)
  | BodyStyleStep.styleEnd => some (styleDoAtEnd r)

/-- Applies a sequence of body / style actions. -/
def runSteps : XHTMLReader → List BodyStyleStep → Option XHTMLReader
  | r, [] => some r
  | r, a :: rest => (BodyStyleStep.apply r a).bind (fun r1 => runSteps r1 rest)

/-! ## Quantities used in the statements -/

/-- The sink calls made by `beginParagraph` on a given style stack. -/
def beginCalls (stack : List ZLTextStyleEntry) : List SinkEvent :=
  SinkEvent.beginParagraph :: stack.reverse.map SinkEvent.addStyleEntry ++
    (if stack.any (fun e => e.isFeatureSupported Feature.LENGTH_SPACE_BEFORE) then
      [SinkEvent.addStyleEntry (blockingEntry Feature.LENGTH_SPACE_BEFORE)] else [])

/-- The sink calls made by `endParagraph` on a given style stack of which the top
`n` entries are slated for removal. -/
def endCalls (stack : List ZLTextStyleEntry) (n : Nat) : List SinkEvent :=
  (if (stack.drop n).any (fun e => e.isFeatureSupported Feature.LENGTH_SPACE_AFTER) then
      [SinkEvent.addStyleEntry (blockingEntry Feature.LENGTH_SPACE_AFTER)] else []) ++
    (stack.take n).map SinkEvent.addStyleEntry ++ [SinkEvent.endParagraph]

/-- The number of open elements whose tag resolves to the hyperlink action. -/
def hyperlinkDepth (env : Env) (opened : List Str) : Nat :=
  opened.countP (fun t => decide (getAction env t = some XHTMLTagAction.Hyperlink))

/-- The stacks of `r` extend those of `base` by what the open elements `opened`
pushed: one count and one page-break flag per open element, as many style entries
as the counts add up to, one hyperlink kind per open anchor; and nothing is slated
for removal. -/
def Frame (env : Env) (base r : XHTMLReader) (opened : List Str) : Prop :=
  (∃ counts entries, r.myCSSStack = counts ++ base.myCSSStack ∧
      r.myStyleEntryStack = entries ++ base.myStyleEntryStack ∧
      counts.sum = entries.length ∧ counts.length = opened.length) ∧
  r.myStylesToRemove = 0 ∧
  (∃ flags, r.myDoPageBreakAfterStack = flags ++ base.myDoPageBreakAfterStack ∧
      flags.length = opened.length) ∧
  (∃ kinds, r.myHyperlinkStack = kinds ++ base.myHyperlinkStack ∧
      kinds.length = hyperlinkDepth env opened)

/-- The alias map reached from the empty map by calling `fileAlias` on each path
of a list, in order. -/
def aliasRun (env : Env) : List (Str × Str) → List Str → List (Str × Str)
  | m, [] => m
  | m, p :: ps => aliasRun env (fileAlias env m p).2 ps

/-- The number a string of decimal digits denotes. -/
def decimalValue (s : Str) : Nat := s.foldl (fun a c => 10 * a + (c.toNat - 48)) 0

/-- The normalized form of a path: `normalizeUnixPath(decodeHtmlURL(path))`. -/
def normalizedPath (env : Env) (path : Str) : Str :=
  env.normalizeUnixPath (env.decodeHtmlURL path)

/-! ## A concrete environment -/

/-- Modelled from the spec: `ZLUnicodeUtil::toLower` is not part of this file;
lower-casing, here of the ASCII letters. -/
def asciiToLower (s : Str) : Str := s.map Char.toLower

/-- The value of a hexadecimal digit. -/
def hexValue (c : Char) : Option Nat :=
  if 48 ≤ c.toNat ∧ c.toNat ≤ 57 then some (c.toNat - 48)
  else if 97 ≤ c.toNat ∧ c.toNat ≤ 102 then some (c.toNat - 87)
  else if 65 ≤ c.toNat ∧ c.toNat ≤ 70 then some (c.toNat - 55)
  else none

/-- Modelled from the spec: `MiscUtil::decodeHtmlURL` is not part of this file;
URL-decoding, every `%XY` with two hexadecimal digits becomes the byte `0xXY`. -/
def percentDecode : Str → Str
  | [] => []
  | [c] => [c]
  | [c, d] => [c, d]
  | c :: x :: y :: rest =>
    if c = '%' then
      match hexValue x, hexValue y with
      | some a, some b => Char.ofNat (16 * a + b) :: percentDecode rest
      | _, _ => c :: percentDecode (x :: y :: rest)
    else c :: percentDecode (x :: y :: rest)

/-- Splits a path at every `/`. -/
def splitPath : Str → List Str
  | [] => [[]]
  | c :: rest =>
    match splitPath rest with
    | [] => [[c]]
    | seg :: segs => if c = '/' then [] :: seg :: segs else (c :: seg) :: segs

/-- Drops `.` and empty segments and resolves `..` against the segment before it;
`done` holds the segments kept so far, last first. -/
def normalizeSegments : List Str → List Str → List Str
  | done, [] => done.reverse
  | done, seg :: rest =>
    if seg = ['.'] then normalizeSegments done rest
    else if seg = [] ∧ done ≠ [] then normalizeSegments done rest
    else if seg = ['.', '.'] ∧ done ≠ [] ∧ done ≠ [[]] then normalizeSegments done.tail rest
    else normalizeSegments (seg :: done) rest

/-- Modelled from the spec: `ZLFileUtil::normalizeUnixPath` is not part of this
file; path normalization (`.`, `..` and doubled separators are resolved). -/
def unixNormalize (path : Str) : Str :=
  List.intercalate ['/'] (normalizeSegments [] (splitPath path))

/-- Modelled from the spec: `BookReader::paragraphIsOpen`; a paragraph exists only
between a begin call and the next end call on the sink. -/
def sinkParagraphIsOpen (log : List SinkEvent) : Bool :=
  log.foldl (fun isOpen e =>
    match e with
    | SinkEvent.beginParagraph => true
    | SinkEvent.endParagraph => false
    | _ => isOpen) false

/-- Modelled from the spec: the number of paragraphs of the text model; every
begin call and every section break adds one paragraph. -/
def sinkParagraphsNumber (log : List SinkEvent) : Nat :=
  log.countP (fun e =>
    match e with
    | SinkEvent.beginParagraph => true
    | SinkEvent.insertEndOfSectionParagraph => true
    | _ => false)

/-- Modelled from the spec: `MiscUtil::referenceType`; a reference with a URL
scheme (`name:`) is external, every other one is internal. -/
def schemeReferenceType (ref : Str) : FBTextKind :=
  if (ref.takeWhile (fun c => c ≠ '/' ∧ c ≠ '#')).contains ':' then
    FBTextKind.EXTERNAL_HYPERLINK
  else FBTextKind.INTERNAL_HYPERLINK

/-- A concrete environment: no file exists, the style sheet parser only buffers
its input, and an inline style yields an entry without spacing features. -/
def stdEnv : Env :=
  { toLower := asciiToLower
    decodeHtmlURL := percentDecode
    normalizeUnixPath := unixNormalize
    referenceType := schemeReferenceType
    htmlDirectoryPrefix := fun path => referenceDirName path
    fileExists := fun _ => false
    fileName := fun path => path
    inputStream := fun _ => none
    tableParse := fun pending table text => (pending ++ text, table)
    parseString := fun style => { entryKind := 1, supported := [], payload := style.length }
    paragraphIsOpen := sinkParagraphIsOpen
    paragraphsNumber := sinkParagraphsNumber
    acceptsSvgSvg := fun _ => false
    acceptsSvgImage := fun _ => false
    acceptsXLinkHref := fun _ => false }

/-- An engine before its first `readFile`: every container empty. -/
def freshReader : XHTMLReader :=
  { myModelReader := []
    myPathPrefix := []
    myReferenceAlias := []
    myReferenceDirName := []
    myPreformatted := false
    myNewParagraphInProgress := false
    myReadState := ReadState.READ_NOTHING
    myBodyCounter := 0
    myCurrentParagraphIsEmpty := true
    myStyleSheetTable := StyleSheetTable.clear
    myCSSStack := []
    myStyleEntryStack := []
    myStylesToRemove := 0
    myDoPageBreakAfterStack := []
    myTableParser := none
    myFileNumbers := []
    myMarkNextImageAsCover := false
    myHyperlinkStack := []
    myIsEnabled := false }

/-- A reader right after the start of `body`: reading the body, no paragraph open. -/
def bodyReader : XHTMLReader :=
  bodyDoAtStart (readFileReset stdEnv freshReader "OPS/ch1.html".toList "ch1.html".toList)

/-- A reader right after the start of `pre` inside `body`. -/
def preReader : XHTMLReader := preDoAtStart bodyReader

/-- The tokenizer callbacks of `<p>Hello <b>world</b></p>`. -/
def helloWorldEvents : List XMLEvent :=
  [XMLEvent.startElement "p".toList [], XMLEvent.characterData "Hello ".toList,
   XMLEvent.startElement "b".toList [], XMLEvent.characterData "world".toList,
   XMLEvent.endElement "b".toList, XMLEvent.endElement "p".toList]

/-- The sink calls that put something into the text model: every call except the
bookkeeping of the kind stack (`pushKind` / `popKind`). -/
def contentCalls (log : List SinkEvent) : List SinkEvent :=
  log.filter (fun e =>
    match e with
    | SinkEvent.pushKind _ => false
    | SinkEvent.popKind => false
    | _ => true)

/-- The `isCover` arguments of the image registrations (`addImageReference`) in a
run of sink calls, in call order. -/
def coverFlags : List SinkEvent → List Bool
  | [] => []
  | SinkEvent.addImageReference _ _ isCover :: rest => isCover :: coverFlags rest
  | _ :: rest => coverFlags rest

/-- The kind `XHTMLTagHyperlinkAction::doAtStart` pushes for an attribute list:
the reference type of a present, non-empty `href`, else `REGULAR`. -/
def pushedHyperlinkKind (env : Env) (xmlattributes : Attributes) : FBTextKind :=
  match attributeValue xmlattributes "href".toList with
  | some (c :: cs) => env.referenceType (c :: cs)
  | _ => FBTextKind.REGULAR

/-- Whether an attribute list has a present, non-empty `href`. -/
def hasHref (xmlattributes : Attributes) : Bool :=
  match attributeValue xmlattributes "href".toList with
  | some (_ :: _) => true
  | _ => false

/-- The style directives `startElementHandler` looks up for an element, in the
order of the lookups: `(tag, "")`, `("", class)`, `(tag, class)`, then the inline
`style` attribute. -/
def elementDirectives (env : Env) (table : StyleSheetTable) (sTag sClass : Str)
    (attributes : Attributes) : List ZLTextStyleEntry :=
  (table.control sTag []).toList ++ (table.control [] sClass).toList ++
    (table.control sTag sClass).toList ++
    ((attributeValue attributes "style".toList).map env.parseString).toList

/-- The tokenizer callbacks of `<h1>A</h1><h1>B</h1>`. -/
def twoHeadingsEvents : List XMLEvent :=
  [XMLEvent.startElement "h1".toList [], XMLEvent.characterData "A".toList,
   XMLEvent.endElement "h1".toList,
   XMLEvent.startElement "h1".toList [], XMLEvent.characterData "B".toList,
   XMLEvent.endElement "h1".toList]

/-- The tokenizer callbacks of `<p>x</p>`. -/
def oneParagraphEvents : List XMLEvent :=
  [XMLEvent.startElement "p".toList [], XMLEvent.characterData "x".toList,
   XMLEvent.endElement "p".toList]

/-- The sink calls a start handler makes before it invokes the tag action: the
label of an `id` attribute and the section break of a break-before rule. -/
def openingCalls (r : XHTMLReader) (sTag sClass : Str) (attributes : Attributes) :
    List SinkEvent :=
  ((attributeValue attributes "id".toList).map (fun id =>
      SinkEvent.addHyperlinkLabel (r.myReferenceAlias ++ HASH ++ id))).toList ++
    (if r.myStyleSheetTable.doBreakBefore sTag sClass then
      [SinkEvent.insertEndOfSectionParagraph] else [])

/-- The environment `stdEnv` in which exactly one file exists, `OPS/b.png`. -/
def coverEnv : Env :=
  { stdEnv with fileExists := fun path => decide (path = "OPS/b.png".toList) }

/-- The reader `bodyReader` after `setMarkFirstImageAsCover`. -/
def coverReader : XHTMLReader := { bodyReader with myMarkNextImageAsCover := true }

/-- The sink calls between `r` and `r'` register no image and the cover flag is
the same in both. -/
def Quiet (r r' : XHTMLReader) : Prop :=
  ∃ out, r'.myModelReader = r.myModelReader ++ out ∧ coverFlags out = [] ∧
    r'.myMarkNextImageAsCover = r.myMarkNextImageAsCover

/-- The sink calls between `r` and `r'` either register no image and keep the cover
flag, or register images of which the first carries the cover flag of `r` and
every later one `false`, and the cover flag of `r'` is clear. -/
def CoverStep (r r' : XHTMLReader) : Prop :=
  ∃ out, r'.myModelReader = r.myModelReader ++ out ∧
    ((coverFlags out = [] ∧ r'.myMarkNextImageAsCover = r.myMarkNextImageAsCover) ∨
     (∃ n, coverFlags out = r.myMarkNextImageAsCover :: List.replicate n false ∧
        r'.myMarkNextImageAsCover = false))

/-- A style table with one rule, for the tag selector `p`. -/
def tagRuleTable : StyleSheetTable :=
  { control := fun tag aClass =>
      if tag = "p".toList ∧ aClass = [] then
        some { entryKind := 1, supported := [], payload := 5 }
      else none
    doBreakBefore := fun _ _ => false
    doBreakAfter := fun _ _ => false }

/-- The reader `bodyReader` with the style table `tagRuleTable`. -/
def tagRuleReader : XHTMLReader := { bodyReader with myStyleSheetTable := tagRuleTable }


/-! ## Theorems -/

theorem beginParagraphLoop_eq (l : List ZLTextStyleEntry) (log : List SinkEvent) (b : Bool) :
    beginParagraphLoop l (log, b) =
      (log ++ l.map SinkEvent.addStyleEntry,
       b || l.any (fun e => e.isFeatureSupported Feature.LENGTH_SPACE_BEFORE)) := by
  induction l generalizing log b with
  | nil => simp [beginParagraphLoop]
  | cons e rest ih => simp [beginParagraphLoop, ih, Bool.or_assoc]

theorem endParagraphScan_eq (l : List ZLTextStyleEntry) (b : Bool) :
    endParagraphScan l b =
      (b || l.any (fun e => e.isFeatureSupported Feature.LENGTH_SPACE_AFTER)) := by
  induction l generalizing b with
  | nil => simp [endParagraphScan]
  | cons e rest ih => simp [endParagraphScan, ih, Bool.or_assoc]

theorem beginParagraph_eq (r : XHTMLReader) :
    r.beginParagraph =
      { r with myCurrentParagraphIsEmpty := true,
               myModelReader := r.myModelReader ++ beginCalls r.myStyleEntryStack } := by
  simp only [XHTMLReader.beginParagraph, XHTMLReader.emit, beginParagraphLoop_eq, beginCalls]
  by_cases h : r.myStyleEntryStack.any (fun e => e.isFeatureSupported Feature.LENGTH_SPACE_BEFORE) = true
  · simp [h]
  · simp [h]

theorem endParagraphPop_eq (n : Nat) (r : XHTMLReader) (h : n ≤ r.myStyleEntryStack.length) :
    endParagraphPop n r =
      some { r with
        myModelReader := r.myModelReader ++ (r.myStyleEntryStack.take n).map SinkEvent.addStyleEntry,
        myStyleEntryStack := r.myStyleEntryStack.drop n,
        myStylesToRemove := 0 } := by
  induction n generalizing r with
  | zero => simp [endParagraphPop]
  | succ n ih =>
    cases hs : r.myStyleEntryStack with
    | nil => simp [hs] at h
    | cons e rest =>
      simp only [endParagraphPop, hs]
      rw [ih]
      · simp [XHTMLReader.emit]
      · simp [hs] at h; simpa using h

theorem endParagraph_eq (r : XHTMLReader) (h : r.myStylesToRemove ≤ r.myStyleEntryStack.length) :
    r.endParagraph =
      some { r with
        myModelReader := r.myModelReader ++ endCalls r.myStyleEntryStack r.myStylesToRemove,
        myStyleEntryStack := r.myStyleEntryStack.drop r.myStylesToRemove,
        myStylesToRemove := 0 } := by
  unfold XHTMLReader.endParagraph
  rw [if_neg (by omega)]
  simp only [endParagraphScan_eq, List.any_reverse, Bool.false_or]
  by_cases hb : (r.myStyleEntryStack.drop r.myStylesToRemove).any
      (fun e => e.isFeatureSupported Feature.LENGTH_SPACE_AFTER) = true
  · simp only [hb, if_true]
    rw [endParagraphPop_eq _ _ (by simpa [XHTMLReader.emit] using h)]
    simp [XHTMLReader.emit, endCalls, hb]
  · have hb2 : (r.myStyleEntryStack.drop r.myStylesToRemove).any
        (fun e => e.isFeatureSupported Feature.LENGTH_SPACE_AFTER) = false := by simpa using hb
    simp only [hb2, Bool.false_eq_true, if_false]
    rw [endParagraphPop_eq _ _ h]
    simp [XHTMLReader.emit, endCalls, hb2]

theorem closeEntriesLoop_eq (n : Nat) (r : XHTMLReader) :
    closeEntriesLoop n r =
      { r with myModelReader := r.myModelReader ++ List.replicate n SinkEvent.addStyleCloseEntry } := by
  induction n generalizing r with
  | zero => simp [closeEntriesLoop]
  | succ n ih =>
    simp only [closeEntriesLoop, ih, XHTMLReader.emit, List.replicate_succ]
    simp

theorem removeStylesLoop_eq (n : Nat) (r : XHTMLReader) (h : n ≤ r.myStyleEntryStack.length) :
    removeStylesLoop n r =
      some { r with myStyleEntryStack := r.myStyleEntryStack.drop n, myStylesToRemove := 0 } := by
  induction n generalizing r with
  | zero => simp [removeStylesLoop]
  | succ n ih =>
    cases hs : r.myStyleEntryStack with
    | nil => simp [hs] at h
    | cons e rest =>
      simp only [removeStylesLoop, hs]
      rw [ih]
      · simp
      · simp [hs] at h; simpa using h

theorem imageDoAtStart_frame (env : Env) (r : XHTMLReader) (p : ImagePredicate)
    (attrs : Attributes) (h0 : r.myStylesToRemove = 0) :
    ∃ r', imageDoAtStart env r p attrs = some r' ∧
      r'.myCSSStack = r.myCSSStack ∧ r'.myStyleEntryStack = r.myStyleEntryStack ∧
      r'.myStylesToRemove = 0 ∧ r'.myDoPageBreakAfterStack = r.myDoPageBreakAfterStack ∧
      r'.myHyperlinkStack = r.myHyperlinkStack := by
  have hle : r.myStylesToRemove ≤ r.myStyleEntryStack.length := by omega
  unfold imageDoAtStart
  cases imageFileName env r p attrs with
  | none => simp [h0]
  | some fileName =>
    simp only []
    by_cases hex : env.fileExists (r.myPathPrefix ++ env.decodeHtmlURL fileName) = true
    · by_cases hop : env.paragraphIsOpen r.myModelReader = true
      · by_cases hem : r.myCurrentParagraphIsEmpty = true
        · simp only [hex, hop, hem, if_true, Bool.not_true, Bool.false_eq_true, if_false,
            Option.some_bind, XHTMLReader.emit, Bool.and_self]
          rw [endParagraph_eq _ (by simpa using hle)]
          simp [h0]
        · simp only [hex, hop, hem, if_true, Bool.not_true, Bool.false_eq_true, if_false]
          rw [endParagraph_eq _ hle]
          simp [XHTMLReader.emit, hem, h0]
      · simp [hex, hop, XHTMLReader.emit, h0]
    · simp [hex, h0]

theorem doAtStart_frame (env : Env) (a : XHTMLTagAction) (r : XHTMLReader)
    (attrs : Attributes) (h0 : r.myStylesToRemove = 0) :
    ∃ r', a.doAtStart env r attrs = some r' ∧
      r'.myCSSStack = r.myCSSStack ∧ r'.myStyleEntryStack = r.myStyleEntryStack ∧
      r'.myStylesToRemove = 0 ∧ r'.myDoPageBreakAfterStack = r.myDoPageBreakAfterStack ∧
      ((a ≠ XHTMLTagAction.Hyperlink ∧ r'.myHyperlinkStack = r.myHyperlinkStack) ∨
       (a = XHTMLTagAction.Hyperlink ∧ ∃ k, r'.myHyperlinkStack = k :: r.myHyperlinkStack)) := by
  have hle : r.myStylesToRemove ≤ r.myStyleEntryStack.length := by omega
  cases a with
  | Style =>
    simp only [XHTMLTagAction.doAtStart, styleDoAtStart]
    split <;> [skip; split_ifs] <;> simp [h0]
  | Link =>
    simp only [XHTMLTagAction.doAtStart, linkDoAtStart]
    repeat' split
    all_goals simp [h0]
  | Paragraph =>
    simp only [XHTMLTagAction.doAtStart, paragraphDoAtStart, beginParagraph_eq]
    split_ifs <;> simp [h0]
  | Body =>
    simp only [XHTMLTagAction.doAtStart, bodyDoAtStart]
    split_ifs <;> simp [h0]
  | RestartParagraph =>
    simp only [XHTMLTagAction.doAtStart, restartParagraphDoAtStart]
    split_ifs
    · rw [endParagraph_eq _ (by simpa [XHTMLReader.emit] using hle)]
      simp [beginParagraph_eq, XHTMLReader.emit, h0]
    · rw [endParagraph_eq _ hle]
      simp [beginParagraph_eq, XHTMLReader.emit, h0]
  | Image p =>
    obtain ⟨r', h1, h2, h3, h4, h5, h6⟩ := imageDoAtStart_frame env r p attrs h0
    exact ⟨r', h1, h2, h3, h4, h5, Or.inl ⟨by simp, h6⟩⟩
  | Svg => simp [XHTMLTagAction.doAtStart, h0]
  | Item =>
    simp only [XHTMLTagAction.doAtStart, itemDoAtStart]
    rw [endParagraph_eq _ hle]
    simp [beginParagraph_eq, XHTMLReader.emit, h0]
  | Hyperlink =>
    simp only [XHTMLTagAction.doAtStart, hyperlinkDoAtStart]
    repeat' split
    all_goals simp [XHTMLReader.emit, h0]
  | Control k => simp [XHTMLTagAction.doAtStart, controlDoAtStart, XHTMLReader.emit, h0]
  | ParagraphWithControl k =>
    simp only [XHTMLTagAction.doAtStart, paragraphWithControlDoAtStart, beginParagraph_eq]
    split_ifs <;> simp [XHTMLReader.emit, h0]
  | Pre => simp [XHTMLTagAction.doAtStart, preDoAtStart, beginParagraph_eq, XHTMLReader.emit, h0]

theorem closeCount_append (a b : List SinkEvent) :
    closeCount (a ++ b) = closeCount a + closeCount b := by
  simp [closeCount]

theorem closeCount_nil : closeCount [] = 0 := rfl

theorem closeCount_styleEntries (l : List ZLTextStyleEntry) :
    closeCount (l.map SinkEvent.addStyleEntry) = 0 := by
  unfold closeCount
  rw [List.count_eq_zero]
  simp

theorem closeCount_endCalls (stack : List ZLTextStyleEntry) (n : Nat) :
    closeCount (endCalls stack n) = 0 := by
  unfold endCalls
  rw [closeCount_append, closeCount_append, closeCount_styleEntries]
  split_ifs <;> simp [closeCount]

theorem closeCount_beginCalls (stack : List ZLTextStyleEntry) :
    closeCount (beginCalls stack) = 0 := by
  unfold closeCount
  rw [List.count_eq_zero]
  unfold beginCalls
  split_ifs <;> simp

theorem closeCount_replicate (n : Nat) :
    closeCount (List.replicate n SinkEvent.addStyleCloseEntry) = n := by
  simp [closeCount]

theorem doAtEnd_frame (a : XHTMLTagAction) (r : XHTMLReader)
    (hle : r.myStylesToRemove ≤ r.myStyleEntryStack.length)
    (hhl : a = XHTMLTagAction.Hyperlink → r.myHyperlinkStack ≠ []) :
    ∃ r', a.doAtEnd r = some r' ∧
      r'.myCSSStack = r.myCSSStack ∧
      r'.myDoPageBreakAfterStack = r.myDoPageBreakAfterStack ∧
      r'.myStylesToRemove ≤ r'.myStyleEntryStack.length ∧
      r'.myStyleEntryStack.drop r'.myStylesToRemove =
        r.myStyleEntryStack.drop r.myStylesToRemove ∧
      (∃ out, r'.myModelReader = r.myModelReader ++ out ∧ closeCount out = 0) ∧
      ((a ≠ XHTMLTagAction.Hyperlink ∧ r'.myHyperlinkStack = r.myHyperlinkStack) ∨
       (a = XHTMLTagAction.Hyperlink ∧ ∃ k, r.myHyperlinkStack = k :: r'.myHyperlinkStack)) := by
  have hnil : ∃ out, r.myModelReader = r.myModelReader ++ out ∧ closeCount out = 0 :=
    ⟨[], by simp, rfl⟩
  have hend : ∃ out, r.myModelReader ++ endCalls r.myStyleEntryStack r.myStylesToRemove =
      r.myModelReader ++ out ∧ closeCount out = 0 :=
    ⟨_, rfl, closeCount_endCalls _ _⟩
  cases a with
  | Style =>
    simp only [XHTMLTagAction.doAtEnd, styleDoAtEnd]
    split_ifs <;> simp [hle, closeCount_nil]
  | Link => simp [XHTMLTagAction.doAtEnd, hle, closeCount_nil]
  | Paragraph =>
    simp only [XHTMLTagAction.doAtEnd]
    rw [endParagraph_eq _ hle]
    simp [closeCount_endCalls]
  | Body =>
    simp only [XHTMLTagAction.doAtEnd, bodyDoAtEnd]
    rw [endParagraph_eq _ hle]
    simp only [Option.map_some']
    split_ifs <;> simp [closeCount_endCalls]
  | RestartParagraph => simp [XHTMLTagAction.doAtEnd, hle, closeCount_nil]
  | Image p => simp [XHTMLTagAction.doAtEnd, hle, closeCount_nil]
  | Svg => simp [XHTMLTagAction.doAtEnd, hle, closeCount_nil]
  | Item =>
    simp only [XHTMLTagAction.doAtEnd]
    rw [endParagraph_eq _ hle]
    simp [closeCount_endCalls]
  | Hyperlink =>
    simp only [XHTMLTagAction.doAtEnd, hyperlinkDoAtEnd]
    cases hs : r.myHyperlinkStack with
    | nil => exact absurd hs (hhl rfl)
    | cons k rest =>
      simp only []
      split_ifs
      · refine ⟨_, rfl, rfl, rfl, hle, rfl, ⟨[SinkEvent.addControl k false], rfl, ?_⟩, ?_⟩
        · simp [closeCount]
        · simp
      · simp [hle, closeCount_nil]
  | Control k =>
    simp only [XHTMLTagAction.doAtEnd, controlDoAtEnd, XHTMLReader.emit]
    refine ⟨_, rfl, rfl, rfl, hle, rfl,
      ⟨[SinkEvent.addControl k false, SinkEvent.popKind], by simp, by simp [closeCount]⟩, ?_⟩
    simp
  | ParagraphWithControl k =>
    simp only [XHTMLTagAction.doAtEnd, paragraphWithControlDoAtEnd]
    rw [endParagraph_eq _ hle]
    simp only [Option.map_some', XHTMLReader.emit]
    refine ⟨_, rfl, rfl, rfl, by simp, by simp,
      ⟨endCalls r.myStyleEntryStack r.myStylesToRemove ++ [SinkEvent.popKind], by simp, ?_⟩, ?_⟩
    · rw [closeCount_append, closeCount_endCalls]; simp [closeCount]
    · simp
  | Pre =>
    simp only [XHTMLTagAction.doAtEnd, preDoAtEnd]
    rw [endParagraph_eq _ hle]
    simp [closeCount_endCalls]

theorem addStyleEntry_frame (r : XHTMLReader) (tag aClass : Str) :
    ∃ p, (r.addStyleEntry tag aClass).2.myStyleEntryStack = p ++ r.myStyleEntryStack ∧
      (r.addStyleEntry tag aClass).2.myCSSStack = r.myCSSStack ∧
      (r.addStyleEntry tag aClass).2.myStylesToRemove = r.myStylesToRemove ∧
      (r.addStyleEntry tag aClass).2.myDoPageBreakAfterStack = r.myDoPageBreakAfterStack ∧
      (r.addStyleEntry tag aClass).2.myHyperlinkStack = r.myHyperlinkStack := by
  unfold XHTMLReader.addStyleEntry
  cases r.myStyleSheetTable.control tag aClass with
  | none => exact ⟨[], by simp⟩
  | some e => exact ⟨[e], by simp [XHTMLReader.emit]⟩

theorem addInlineStyle_frame (env : Env) (r : XHTMLReader) (attrs : Attributes) :
    ∃ p, (addInlineStyle env r attrs).myStyleEntryStack = p ++ r.myStyleEntryStack ∧
      (addInlineStyle env r attrs).myCSSStack = r.myCSSStack ∧
      (addInlineStyle env r attrs).myStylesToRemove = r.myStylesToRemove ∧
      (addInlineStyle env r attrs).myDoPageBreakAfterStack = r.myDoPageBreakAfterStack ∧
      (addInlineStyle env r attrs).myHyperlinkStack = r.myHyperlinkStack := by
  unfold addInlineStyle
  cases attributeValue attrs "style".toList with
  | none => exact ⟨[], by simp⟩
  | some style => exact ⟨[env.parseString style], by simp [XHTMLReader.emit]⟩

theorem pushStyleEntries_frame (env : Env) (r : XHTMLReader) (sTag sClass : Str)
    (attrs : Attributes) :
    ∃ p, (pushStyleEntries env r sTag sClass attrs).myStyleEntryStack = p ++ r.myStyleEntryStack ∧
      (pushStyleEntries env r sTag sClass attrs).myCSSStack = r.myCSSStack ∧
      (pushStyleEntries env r sTag sClass attrs).myStylesToRemove = r.myStylesToRemove ∧
      (pushStyleEntries env r sTag sClass attrs).myDoPageBreakAfterStack =
        r.myDoPageBreakAfterStack ∧
      (pushStyleEntries env r sTag sClass attrs).myHyperlinkStack = r.myHyperlinkStack := by
  unfold pushStyleEntries
  simp only []
  obtain ⟨q5, a5, b5, c5, d5, e5⟩ := addStyleEntry_frame r sTag []
  obtain ⟨q6, a6, b6, c6, d6, e6⟩ := addStyleEntry_frame (r.addStyleEntry sTag []).2 [] sClass
  obtain ⟨q7, a7, b7, c7, d7, e7⟩ :=
    addStyleEntry_frame ((r.addStyleEntry sTag []).2.addStyleEntry [] sClass).2 sTag sClass
  obtain ⟨q8, a8, b8, c8, d8, e8⟩ := addInlineStyle_frame env
    (((r.addStyleEntry sTag []).2.addStyleEntry [] sClass).2.addStyleEntry sTag sClass).2 attrs
  refine ⟨q8 ++ q7 ++ q6 ++ q5, ?_, ?_, ?_, ?_, ?_⟩
  · rw [a8, a7, a6, a5]; simp
  · rw [b8, b7, b6, b5]
  · rw [c8, c7, c6, c5]
  · rw [d8, d7, d6, d5]
  · rw [e8, e7, e6, e5]

theorem startElementOpening_frame (r : XHTMLReader) (sTag sClass : Str) (attrs : Attributes) :
    (startElementOpening r sTag sClass attrs).myCSSStack = r.myCSSStack ∧
    (startElementOpening r sTag sClass attrs).myStyleEntryStack = r.myStyleEntryStack ∧
    (startElementOpening r sTag sClass attrs).myStylesToRemove = r.myStylesToRemove ∧
    (∃ b, (startElementOpening r sTag sClass attrs).myDoPageBreakAfterStack =
      b :: r.myDoPageBreakAfterStack) ∧
    (startElementOpening r sTag sClass attrs).myHyperlinkStack = r.myHyperlinkStack := by
  unfold startElementOpening
  cases attributeValue attrs "id".toList <;> simp only [] <;> split_ifs <;>
    simp [XHTMLReader.emit]

theorem startElementHandler_frame (env : Env) (r : XHTMLReader) (tag : Str)
    (attrs : Attributes) (h0 : r.myStylesToRemove = 0) :
    ∃ r', startElementHandler env r tag attrs = some r' ∧
      (∃ pushed, r'.myStyleEntryStack = pushed ++ r.myStyleEntryStack ∧
        r'.myCSSStack = pushed.length :: r.myCSSStack) ∧
      r'.myStylesToRemove = 0 ∧
      (∃ b, r'.myDoPageBreakAfterStack = b :: r.myDoPageBreakAfterStack) ∧
      ((getAction env (env.toLower tag) ≠ some XHTMLTagAction.Hyperlink ∧
          r'.myHyperlinkStack = r.myHyperlinkStack) ∨
       (getAction env (env.toLower tag) = some XHTMLTagAction.Hyperlink ∧
          ∃ k, r'.myHyperlinkStack = k :: r.myHyperlinkStack)) := by
  unfold startElementHandler
  simp only []
  obtain ⟨c3, s3, m3, ⟨b, p3⟩, l3⟩ := startElementOpening_frame r (env.toLower tag)
    ((attributeValue attrs "class".toList).getD []) attrs
  generalize startElementOpening r (env.toLower tag)
    ((attributeValue attrs "class".toList).getD []) attrs = r3 at c3 s3 m3 p3 l3 ⊢
  rw [h0] at m3
  have hact : ∃ r4, invokeAtStart env (getAction env (env.toLower tag)) r3 attrs = some r4 ∧
      r4.myCSSStack = r.myCSSStack ∧ r4.myStyleEntryStack = r.myStyleEntryStack ∧
      r4.myStylesToRemove = 0 ∧ r4.myDoPageBreakAfterStack = b :: r.myDoPageBreakAfterStack ∧
      ((getAction env (env.toLower tag) ≠ some XHTMLTagAction.Hyperlink ∧
          r4.myHyperlinkStack = r.myHyperlinkStack) ∨
       (getAction env (env.toLower tag) = some XHTMLTagAction.Hyperlink ∧
          ∃ k, r4.myHyperlinkStack = k :: r.myHyperlinkStack)) := by
    cases hg : getAction env (env.toLower tag) with
    | none => exact ⟨r3, rfl, c3, s3, m3, p3, Or.inl ⟨by simp, l3⟩⟩
    | some a =>
      obtain ⟨r4, h1, h2, h3, h4, h5, h6⟩ := doAtStart_frame env a r3 attrs m3
      refine ⟨r4, h1, h2.trans c3, h3.trans s3, h4, h5.trans p3, ?_⟩
      rcases h6 with ⟨hne, hl⟩ | ⟨he, k, hl⟩
      · exact Or.inl ⟨by simpa using hne, hl.trans l3⟩
      · exact Or.inr ⟨by simp [he], k, by rw [hl, l3]⟩
  obtain ⟨r4, hr4, c4, s4, m4, p4, l4⟩ := hact
  rw [hr4]
  simp only [Option.map_some']
  obtain ⟨q, a8, b8, c8, d8, e8⟩ := pushStyleEntries_frame env r4 (env.toLower tag)
    ((attributeValue attrs "class".toList).getD []) attrs
  generalize pushStyleEntries env r4 (env.toLower tag)
    ((attributeValue attrs "class".toList).getD []) attrs = r8 at a8 b8 c8 d8 e8 ⊢
  refine ⟨_, rfl, ⟨q, ?_, ?_⟩, ?_, ⟨b, ?_⟩, ?_⟩
  · simp [a8, s4]
  · simp [a8, b8, c4]
  · simp [c8, m4]
  · simp [d8, p4]
  · simpa [e8] using l4

theorem invokeAtEnd_frame (action : Option XHTMLTagAction) (r : XHTMLReader)
    (hle : r.myStylesToRemove ≤ r.myStyleEntryStack.length)
    (hhl : action = some XHTMLTagAction.Hyperlink → r.myHyperlinkStack ≠ []) :
    ∃ r', invokeAtEnd action r = some r' ∧
      r'.myCSSStack = r.myCSSStack ∧
      r'.myDoPageBreakAfterStack = r.myDoPageBreakAfterStack ∧
      r'.myStylesToRemove ≤ r'.myStyleEntryStack.length ∧
      r'.myStyleEntryStack.drop r'.myStylesToRemove =
        r.myStyleEntryStack.drop r.myStylesToRemove ∧
      (∃ out, r'.myModelReader = r.myModelReader ++ out ∧ closeCount out = 0) ∧
      ((action ≠ some XHTMLTagAction.Hyperlink ∧ r'.myHyperlinkStack = r.myHyperlinkStack) ∨
       (action = some XHTMLTagAction.Hyperlink ∧
          ∃ k, r.myHyperlinkStack = k :: r'.myHyperlinkStack)) := by
  cases action with
  | none =>
    exact ⟨r, rfl, rfl, rfl, hle, rfl, ⟨[], by simp, rfl⟩, Or.inl ⟨by simp, rfl⟩⟩
  | some a =>
    obtain ⟨r1, h1, h2, h3, h4, h5, h6, h7⟩ :=
      doAtEnd_frame a r hle (fun h => hhl (by rw [h]))
    refine ⟨{ r1 with myNewParagraphInProgress := false }, ?_, h2, h3, h4, h5, h6, ?_⟩
    · simp [invokeAtEnd, h1]
    · rcases h7 with ⟨hne, hl⟩ | ⟨he, k, hl⟩
      · exact Or.inl ⟨by simpa using hne, hl⟩
      · exact Or.inr ⟨by rw [he], k, hl⟩

theorem endElementHandler_frame (env : Env) (r : XHTMLReader) (tag : Str)
    (n : Nat) (rest : List Nat) (hcss : r.myCSSStack = n :: rest)
    (hle : n ≤ r.myStyleEntryStack.length)
    (hpb : r.myDoPageBreakAfterStack ≠ [])
    (hhl : getAction env tag = some XHTMLTagAction.Hyperlink → r.myHyperlinkStack ≠ []) :
    ∃ r', endElementHandler env r tag = some r' ∧
      r'.myCSSStack = rest ∧
      r'.myStyleEntryStack = r.myStyleEntryStack.drop n ∧
      r'.myStylesToRemove = 0 ∧
      (∃ b, r.myDoPageBreakAfterStack = b :: r'.myDoPageBreakAfterStack) ∧
      (∃ out, r'.myModelReader = r.myModelReader ++ out ∧ closeCount out = n) ∧
      ((getAction env tag ≠ some XHTMLTagAction.Hyperlink ∧
          r'.myHyperlinkStack = r.myHyperlinkStack) ∨
       (getAction env tag = some XHTMLTagAction.Hyperlink ∧
          ∃ k, r.myHyperlinkStack = k :: r'.myHyperlinkStack)) := by
  unfold endElementHandler
  rw [hcss]
  simp only [closeEntriesLoop_eq]
  obtain ⟨r3, h1, h2, h3, h4, h5, ⟨out, h6, hc⟩, h7⟩ := invokeAtEnd_frame (getAction env tag)
    { r with
      myModelReader := r.myModelReader ++ List.replicate n SinkEvent.addStyleCloseEntry,
      myStylesToRemove := n, myCSSStack := rest } (by simpa using hle) (by simpa using hhl)
  simp only [] at h1 h2 h3 h5 h6 h7
  rw [h1]
  simp only [Option.some_bind]
  rw [removeStylesLoop_eq _ _ h4]
  simp only [Option.some_bind, endElementClosing, h3]
  cases hp : r.myDoPageBreakAfterStack with
  | nil => exact absurd hp hpb
  | cons b others =>
    simp only []
    by_cases hb : b = true
    · refine ⟨_, rfl, ?_, ?_, ?_, ⟨b, ?_⟩, ⟨List.replicate n SinkEvent.addStyleCloseEntry ++ out ++
        [SinkEvent.insertEndOfSectionParagraph], ?_, ?_⟩, ?_⟩
      · simp [hb, XHTMLReader.emit, h2]
      · simp [hb, XHTMLReader.emit, h5]
      · simp [hb, XHTMLReader.emit]
      · simp [hb, XHTMLReader.emit]
      · simp [hb, XHTMLReader.emit, h6]
      · rw [closeCount_append, closeCount_append, closeCount_replicate, hc]; simp [closeCount]
      · simpa [hb, XHTMLReader.emit] using h7
    · refine ⟨_, rfl, ?_, ?_, ?_, ⟨b, ?_⟩, ⟨List.replicate n SinkEvent.addStyleCloseEntry ++ out,
        ?_, ?_⟩, ?_⟩
      · simp [hb, h2]
      · simp [hb, h5]
      · simp [hb]
      · simp [hb]
      · simp [hb, h6]
      · rw [closeCount_append, closeCount_replicate, hc]; simp
      · simpa [hb] using h7

theorem appendCharacterData_frame (env : Env) (r : XHTMLReader) (text : Str) :
    (appendCharacterData env r text).myCSSStack = r.myCSSStack ∧
    (appendCharacterData env r text).myStyleEntryStack = r.myStyleEntryStack ∧
    (appendCharacterData env r text).myStylesToRemove = r.myStylesToRemove ∧
    (appendCharacterData env r text).myDoPageBreakAfterStack = r.myDoPageBreakAfterStack ∧
    (appendCharacterData env r text).myHyperlinkStack = r.myHyperlinkStack := by
  unfold appendCharacterData
  by_cases h1 : text.length > 0 <;> by_cases h2 : env.paragraphIsOpen r.myModelReader = true <;>
    simp [h1, h2, XHTMLReader.emit]

theorem skipSpaceLoop_isSome (text : Str) (h : text ≠ []) : ∃ rest, skipSpaceLoop text = some rest := by
  induction text with
  | nil => exact absurd rfl h
  | cons c tl ih =>
    cases tl with
    | nil => simp only [skipSpaceLoop]; split_ifs <;> simp
    | cons d tl2 =>
      simp only [skipSpaceLoop]
      split_ifs
      · exact ih (by simp)
      · simp

theorem characterDataHandler_frame (env : Env) (r : XHTMLReader) (text : Str)
    (ht : text ≠ []) (h0 : r.myStylesToRemove = 0) :
    ∃ r', characterDataHandler env r text = some r' ∧
      r'.myCSSStack = r.myCSSStack ∧ r'.myStyleEntryStack = r.myStyleEntryStack ∧
      r'.myStylesToRemove = 0 ∧ r'.myDoPageBreakAfterStack = r.myDoPageBreakAfterStack ∧
      r'.myHyperlinkStack = r.myHyperlinkStack := by
  have hle : r.myStylesToRemove ≤ r.myStyleEntryStack.length := by omega
  unfold characterDataHandler
  cases hrs : r.myReadState with
  | READ_NOTHING => exact ⟨r, rfl, rfl, rfl, h0, rfl, rfl⟩
  | READ_STYLE =>
    simp only []
    cases r.myTableParser with
    | none => exact ⟨r, rfl, rfl, rfl, h0, rfl, rfl⟩
    | some pending => exact ⟨_, rfl, rfl, rfl, h0, rfl, rfl⟩
  | READ_BODY =>
    simp only []
    by_cases hp : r.myPreformatted = true
    · simp only [hp, if_true]
      cases text with
      | nil => exact absurd rfl ht
      | cons c rest =>
        simp only []
        by_cases hc : c = '\r' ∨ c = '\n'
        · simp only [hc, if_true]
          rw [endParagraph_eq _ hle]
          simp only [Option.map_some']
          refine ⟨_, rfl, ?_⟩
          obtain ⟨a, b, c, d, e⟩ := appendCharacterData_frame env
            (({ r with
                myModelReader := r.myModelReader ++ endCalls r.myStyleEntryStack r.myStylesToRemove,
                myStyleEntryStack := List.drop r.myStylesToRemove r.myStyleEntryStack,
                myStylesToRemove := 0 } : XHTMLReader).beginParagraph.emit
                  (SinkEvent.addControl FBTextKind.PREFORMATTED true) |>.emit
              (SinkEvent.addFixedHSpace (spaceCounterLoop rest 0)))
            (List.drop (spaceCounterLoop rest 0) rest)
          rw [a, b, c, d, e]
          simp [beginParagraph_eq, XHTMLReader.emit, h0]
        · simp only [hc, if_false, Option.map_some']
          refine ⟨_, rfl, ?_⟩
          obtain ⟨a, b, c, d, e⟩ := appendCharacterData_frame env
            (r.emit (SinkEvent.addFixedHSpace (spaceCounterLoop (c :: rest) 0)))
            (List.drop (spaceCounterLoop (c :: rest) 0) (c :: rest))
          rw [a, b, c, d, e]
          simp [XHTMLReader.emit, h0]
    · simp only [hp, Bool.false_eq_true, if_false]
      split_ifs
      · obtain ⟨rest, hrest⟩ := skipSpaceLoop_isSome text ht
        rw [hrest]
        simp only [Option.map_some']
        obtain ⟨a, b, c, d, e⟩ := appendCharacterData_frame env r rest
        exact ⟨_, rfl, a, b, c.trans h0, d, e⟩
      · obtain ⟨a, b, c, d, e⟩ := appendCharacterData_frame env r text
        exact ⟨_, rfl, a, b, c.trans h0, d, e⟩

theorem getAction_toLower (env : Env)
    (hlow : ∀ t, env.toLower (env.toLower t) = env.toLower t) (tag : Str) :
    getAction env (env.toLower tag) = getAction env tag := by
  simp only [getAction, hlow]

theorem hyperlinkDepth_cons (env : Env) (tag : Str) (opened : List Str) :
    hyperlinkDepth env (tag :: opened) =
      hyperlinkDepth env opened +
        (if getAction env tag = some XHTMLTagAction.Hyperlink then 1 else 0) := by
  simp [hyperlinkDepth, List.countP_cons]

theorem frame_refl (env : Env) (base : XHTMLReader) (h0 : base.myStylesToRemove = 0) :
    Frame env base base [] :=
  ⟨⟨[], [], by simp⟩, h0, ⟨[], by simp⟩, ⟨[], by simp [hyperlinkDepth]⟩⟩

theorem frame_start (env : Env) (hlow : ∀ t, env.toLower (env.toLower t) = env.toLower t)
    (base r : XHTMLReader) (opened : List Str) (tag : Str) (attrs : Attributes)
    (hf : Frame env base r opened) :
    ∃ r', startElementHandler env r tag attrs = some r' ∧ Frame env base r' (tag :: opened) := by
  obtain ⟨⟨counts, entries, hc, hs, hsum, hlen⟩, h0, ⟨flags, hp, hfl⟩, ⟨kinds, hk, hkl⟩⟩ := hf
  obtain ⟨r', h1, ⟨pushed, hs', hc'⟩, h0', ⟨b, hp'⟩, hl'⟩ :=
    startElementHandler_frame env r tag attrs h0
  rw [getAction_toLower env hlow] at hl'
  refine ⟨r', h1, ⟨pushed.length :: counts, pushed ++ entries, ?_, ?_, ?_, ?_⟩, h0',
    ⟨b :: flags, ?_, ?_⟩, ?_⟩
  · rw [hc', hc]; rfl
  · rw [hs', hs]; simp
  · simp [hsum]
  · simp [hlen]
  · rw [hp', hp]; rfl
  · simp [hfl]
  · rw [hyperlinkDepth_cons]
    rcases hl' with ⟨hne, hl⟩ | ⟨he, k, hl⟩
    · exact ⟨kinds, by rw [hl, hk], by simp [hne, hkl]⟩
    · exact ⟨k :: kinds, by rw [hl, hk]; rfl, by simp [he, hkl]⟩

theorem frame_end (env : Env) (base r : XHTMLReader) (opened : List Str) (tag : Str)
    (hf : Frame env base r (tag :: opened)) :
    ∃ r', endElementHandler env r tag = some r' ∧ Frame env base r' opened ∧
      ∃ n rest out, r.myCSSStack = n :: rest ∧ r'.myModelReader = r.myModelReader ++ out ∧
        closeCount out = n := by
  obtain ⟨⟨counts, entries, hc, hs, hsum, hlen⟩, _, ⟨flags, hp, hfl⟩, ⟨kinds, hk, hkl⟩⟩ := hf
  cases counts with
  | nil => simp at hlen
  | cons n counts' =>
    cases flags with
    | nil => simp at hfl
    | cons b flags' =>
      have hn : n ≤ entries.length := by rw [← hsum]; simp
      rw [hyperlinkDepth_cons] at hkl
      obtain ⟨r', h1, h2, h3, h4, ⟨b', h5⟩, ⟨out, h6, h7⟩, h8⟩ :=
        endElementHandler_frame env r tag n (counts' ++ base.myCSSStack) (by rw [hc]; rfl)
          (by rw [hs]; simp; omega) (by rw [hp]; simp)
          (by
            intro hg
            rw [hk]
            cases kinds with
            | nil => simp [hg] at hkl
            | cons k ks => simp)
      refine ⟨r', h1, ⟨⟨counts', entries.drop n, h2, ?_, ?_, ?_⟩, h4, ⟨flags', ?_, ?_⟩, ?_⟩,
        n, _, out, by rw [hc]; rfl, h6, h7⟩
      · rw [h3, hs, List.drop_append_of_le_length hn]
      · simp at hsum ⊢; omega
      · simpa using hlen
      · rw [hp] at h5; simp at h5; exact h5.2.symm
      · simpa using hfl
      · rcases h8 with ⟨hne, hl⟩ | ⟨he, k, hl⟩
        · exact ⟨kinds, by rw [hl, hk], by simpa [hne] using hkl⟩
        · cases kinds with
          | nil => simp [he] at hkl
          | cons k' ks =>
            rw [hk] at hl
            simp at hl
            exact ⟨ks, hl.2.symm, by simpa [he] using hkl⟩

theorem frame_text (env : Env) (base r : XHTMLReader) (opened : List Str) (text : Str)
    (ht : text ≠ []) (hf : Frame env base r opened) :
    ∃ r', characterDataHandler env r text = some r' ∧ Frame env base r' opened := by
  obtain ⟨⟨counts, entries, hc, hs, hsum, hlen⟩, h0, ⟨flags, hp, hfl⟩, ⟨kinds, hk, hkl⟩⟩ := hf
  obtain ⟨r', h1, h2, h3, h4, h5, h6⟩ := characterDataHandler_frame env r text ht h0
  exact ⟨r', h1, ⟨counts, entries, by rw [h2, hc], by rw [h3, hs], hsum, hlen⟩, h4,
    ⟨flags, by rw [h5, hp], hfl⟩, ⟨kinds, by rw [h6, hk], hkl⟩⟩

theorem frame_run (env : Env) (hlow : ∀ t, env.toLower (env.toLower t) = env.toLower t)
    (base : XHTMLReader) (es : List XMLEvent) :
    ∀ (r : XHTMLReader) (opened opened' : List Str), Frame env base r opened →
      openTags opened es = some opened' →
      ∃ r', runEvents env r es = some r' ∧ Frame env base r' opened' := by
  induction es with
  | nil =>
    intro r opened opened' hf ho
    simp only [openTags, Option.some.injEq] at ho
    subst ho
    exact ⟨r, rfl, hf⟩
  | cons e es ih =>
    intro r opened opened' hf ho
    cases e with
    | startElement tag attrs =>
      simp only [openTags] at ho
      obtain ⟨r1, h1, hf1⟩ := frame_start env hlow base r opened tag attrs hf
      obtain ⟨r', h2, hf2⟩ := ih r1 _ _ hf1 ho
      exact ⟨r', by simp [runEvents, handleEvent, h1, h2], hf2⟩
    | characterData text =>
      simp only [openTags] at ho
      split_ifs at ho with ht
      obtain ⟨r1, h1, hf1⟩ := frame_text env base r opened text ht hf
      obtain ⟨r', h2, hf2⟩ := ih r1 _ _ hf1 ho
      exact ⟨r', by simp [runEvents, handleEvent, h1, h2], hf2⟩
    | endElement tag =>
      cases opened with
      | nil => simp [openTags] at ho
      | cons top opened1 =>
        simp only [openTags] at ho
        split_ifs at ho with ht
        subst ht
        obtain ⟨r1, h1, hf1, _⟩ := frame_end env base r opened1 tag hf
        obtain ⟨r', h2, hf2⟩ := ih r1 _ _ hf1 ho
        exact ⟨r', by simp [runEvents, handleEvent, h1, h2], hf2⟩

theorem openTags_append (es1 es2 : List XMLEvent) :
    ∀ (opened : List Str),
      openTags opened (es1 ++ es2) = (openTags opened es1).bind (fun o => openTags o es2) := by
  induction es1 with
  | nil => intro opened; simp [openTags]
  | cons e es ih =>
    intro opened
    cases e with
    | startElement tag attrs => simp [openTags, ih]
    | characterData text =>
      simp only [List.cons_append, openTags]
      split_ifs <;> simp [ih]
    | endElement tag =>
      cases opened with
      | nil => simp [openTags]
      | cons top o =>
        simp only [List.cons_append, openTags]
        split_ifs <;> simp [ih]

theorem runEvents_append (env : Env) (es1 es2 : List XMLEvent) :
    ∀ (r : XHTMLReader),
      runEvents env r (es1 ++ es2) = (runEvents env r es1).bind (fun r1 => runEvents env r1 es2) := by
  induction es1 with
  | nil => intro r; simp [runEvents]
  | cons e es ih =>
    intro r
    simp only [List.cons_append, runEvents]
    cases handleEvent env r e with
    | none => simp
    | some r1 => simp [ih]

/-- Open tags only grow below: a sequence that is fine from no open tags is fine
above any stack of open tags. -/
theorem openTags_lift (es : List XMLEvent) :
    ∀ (opened opened' below : List Str), openTags opened es = some opened' →
      openTags (opened ++ below) es = some (opened' ++ below) := by
  induction es with
  | nil => intro opened opened' below h; simp [openTags] at h ⊢; rw [h]
  | cons e es ih =>
    intro opened opened' below h
    cases e with
    | startElement tag attrs =>
      simp only [openTags] at h ⊢
      exact ih (tag :: opened) opened' below h
    | characterData text =>
      simp only [openTags] at h ⊢
      split_ifs at h ⊢ with ht
      exact ih opened opened' below h
    | endElement tag =>
      cases opened with
      | nil => simp [openTags] at h
      | cons top o =>
        simp only [List.cons_append, openTags] at h ⊢
        split_ifs at h ⊢ with ht
        exact ih o opened' below h

theorem char_toLower_idem (c : Char) : c.toLower.toLower = c.toLower := by
  by_cases h : c.toNat ≥ 65 ∧ c.toNat ≤ 90
  · have h2 : c.toLower = Char.ofNat (c.toNat + 32) := by
      simp only [Char.toLower]; rw [if_pos h]
    rw [h2]
    generalize c.toNat = n at h
    obtain ⟨h1, h3⟩ := h
    interval_cases n <;> rfl
  · have h2 : c.toLower = c := by
      simp only [Char.toLower]; rw [if_neg h]
    rw [h2, h2]

theorem asciiToLower_idem (t : Str) :
    stdEnv.toLower (stdEnv.toLower t) = stdEnv.toLower t := by
  simp [stdEnv, asciiToLower, char_toLower_idem]

theorem readFileReset_frame (env : Env) (r0 : XHTMLReader) (filePath referenceName : Str) :
    (readFileReset env r0 filePath referenceName).myCSSStack = [] ∧
    (readFileReset env r0 filePath referenceName).myStyleEntryStack = [] ∧
    (readFileReset env r0 filePath referenceName).myStylesToRemove = 0 := by
  simp [readFileReset]

/-- C1. In every state reached from the `readFile` reset state by a prefix `pre` of
a well-nested callback sequence `pre ++ post` (start / non-empty character data /
end), the handlers are defined and the counts on `myCSSStack` add up to the depth
of `myStyleEntryStack`, with `myStylesToRemove = 0`. The lower-casing function of
the environment is assumed idempotent. -/
theorem css_sum_eq_style_depth (env : Env)
    (hlow : ∀ t, env.toLower (env.toLower t) = env.toLower t)
    (r0 : XHTMLReader) (filePath referenceName : Str) (pre post : List XMLEvent)
    (hwn : WellNested (pre ++ post)) :
    ∃ r, runEvents env (readFileReset env r0 filePath referenceName) pre = some r ∧
      r.myCSSStack.sum = r.myStyleEntryStack.length ∧ r.myStylesToRemove = 0 := by
  obtain ⟨hc, hs, h0⟩ := readFileReset_frame env r0 filePath referenceName
  unfold WellNested at hwn
  rw [openTags_append] at hwn
  cases ho : openTags [] pre with
  | none => rw [ho] at hwn; simp at hwn
  | some opened =>
    obtain ⟨r, hr, ⟨counts, entries, h1, h2, h3, _⟩, h4, _⟩ :=
      frame_run env hlow _ pre _ [] opened (frame_refl env _ h0) ho
    refine ⟨r, hr, ?_, h4⟩
    rw [h1, h2, hc, hs]
    simpa using h3

theorem css_sum_eq_style_depth_witness :
    (∀ t, stdEnv.toLower (stdEnv.toLower t) = stdEnv.toLower t) ∧
    WellNested
      ([XMLEvent.startElement "p".toList [("style".toList, "margin:0".toList)],
        XMLEvent.characterData "Hi ".toList,
        XMLEvent.startElement "a".toList [("href".toList, "#x".toList)]] ++
       [XMLEvent.characterData "x".toList, XMLEvent.endElement "a".toList,
        XMLEvent.endElement "p".toList]) ∧
    ∃ r, runEvents stdEnv (readFileReset stdEnv freshReader "b/c.html".toList "c.html".toList)
        [XMLEvent.startElement "p".toList [("style".toList, "margin:0".toList)],
          XMLEvent.characterData "Hi ".toList,
          XMLEvent.startElement "a".toList [("href".toList, "#x".toList)]] = some r ∧
      r.myCSSStack.sum = r.myStyleEntryStack.length ∧ r.myStylesToRemove = 0 :=
  ⟨asciiToLower_idem, by decide,
    css_sum_eq_style_depth stdEnv asciiToLower_idem freshReader _ _ _
      [XMLEvent.characterData "x".toList, XMLEvent.endElement "a".toList,
        XMLEvent.endElement "p".toList] (by decide)⟩

/-- C2. For an element `start tag ... end tag` with well-nested content `body`
inside a well-nested callback sequence, at any nesting depth and for any tag: the
end handler emits exactly as many `addStyleCloseEntry` calls as the start handler
pushed entries on `myStyleEntryStack`, which is the count it recorded on
`myCSSStack`. The lower-casing function of the environment is assumed idempotent. -/
theorem close_markers_eq_pushes (env : Env)
    (hlow : ∀ t, env.toLower (env.toLower t) = env.toLower t)
    (r0 : XHTMLReader) (filePath referenceName : Str) (pre body post : List XMLEvent)
    (tag : Str) (attrs : Attributes)
    (hwn : WellNested (pre ++ XMLEvent.startElement tag attrs ::
      (body ++ XMLEvent.endElement tag :: post)))
    (hbody : WellNested body) :
    ∃ s0 s1 s2 s3 pushed out,
      runEvents env (readFileReset env r0 filePath referenceName) pre = some s0 ∧
      startElementHandler env s0 tag attrs = some s1 ∧
      runEvents env s1 body = some s2 ∧
      endElementHandler env s2 tag = some s3 ∧
      s1.myStyleEntryStack = pushed ++ s0.myStyleEntryStack ∧
      s1.myCSSStack = pushed.length :: s0.myCSSStack ∧
      s2.myCSSStack = s1.myCSSStack ∧
      s3.myModelReader = s2.myModelReader ++ out ∧
      closeCount out = pushed.length := by
  obtain ⟨_, _, h0⟩ := readFileReset_frame env r0 filePath referenceName
  unfold WellNested at hwn hbody
  rw [openTags_append] at hwn
  cases ho : openTags [] pre with
  | none => rw [ho] at hwn; simp at hwn
  | some opened =>
    obtain ⟨s0, hs0, hf0⟩ := frame_run env hlow _ pre _ [] opened (frame_refl env _ h0) ho
    obtain ⟨s1, hs1, ⟨pushed, hst, hcs⟩, hrem, ⟨b, hpb⟩, hhl⟩ :=
      startElementHandler_frame env s0 tag attrs hf0.2.1
    rw [getAction_toLower env hlow] at hhl
    obtain ⟨s2, hs2, ⟨counts, entries, h1, h2, h3, h4⟩, _, ⟨flags, h5, h6⟩, ⟨kinds, h7, h8⟩⟩ :=
      frame_run env hlow s1 body s1 [] [] (frame_refl env s1 hrem) hbody
    have hcounts : counts = [] := List.length_eq_zero.mp (by simpa using h4)
    have hflags : flags = [] := List.length_eq_zero.mp (by simpa using h6)
    have hkinds : kinds = [] := List.length_eq_zero.mp (by simpa [hyperlinkDepth] using h8)
    subst hcounts hflags hkinds
    have hentries : entries = [] := List.length_eq_zero.mp (by simpa using h3.symm)
    subst hentries
    simp only [List.nil_append] at h1 h2 h5 h7
    obtain ⟨s3, hs3, _, _, _, _, ⟨out, hout, hcnt⟩, _⟩ :=
      endElementHandler_frame env s2 tag pushed.length s0.myCSSStack (by rw [h1, hcs])
        (by rw [h2, hst]; simp) (by rw [h5, hpb]; simp)
        (by
          intro hg
          rcases hhl with ⟨hne, _⟩ | ⟨_, k, hk⟩
          · exact absurd hg hne
          · rw [h7, hk]; simp)
    exact ⟨s0, s1, s2, s3, pushed, out, hs0, hs1, hs2, hs3, hst, hcs, h1, hout, hcnt⟩

theorem close_markers_eq_pushes_witness :
    (∀ t, stdEnv.toLower (stdEnv.toLower t) = stdEnv.toLower t) ∧
    WellNested ([XMLEvent.startElement "body".toList []] ++
      XMLEvent.startElement "p".toList [("style".toList, "margin:0".toList)] ::
      ([XMLEvent.characterData "Hi ".toList, XMLEvent.startElement "b".toList [],
        XMLEvent.characterData "x".toList, XMLEvent.endElement "b".toList] ++
       XMLEvent.endElement "p".toList :: [XMLEvent.endElement "body".toList])) ∧
    WellNested [XMLEvent.characterData "Hi ".toList, XMLEvent.startElement "b".toList [],
        XMLEvent.characterData "x".toList, XMLEvent.endElement "b".toList] ∧
    ∃ s0 s1 s2 s3 pushed out,
      runEvents stdEnv (readFileReset stdEnv freshReader "b/c.html".toList "c.html".toList)
        [XMLEvent.startElement "body".toList []] = some s0 ∧
      startElementHandler stdEnv s0 "p".toList [("style".toList, "margin:0".toList)] = some s1 ∧
      runEvents stdEnv s1 [XMLEvent.characterData "Hi ".toList,
        XMLEvent.startElement "b".toList [], XMLEvent.characterData "x".toList,
        XMLEvent.endElement "b".toList] = some s2 ∧
      endElementHandler stdEnv s2 "p".toList = some s3 ∧
      s1.myStyleEntryStack = pushed ++ s0.myStyleEntryStack ∧
      s1.myCSSStack = pushed.length :: s0.myCSSStack ∧
      s2.myCSSStack = s1.myCSSStack ∧
      s3.myModelReader = s2.myModelReader ++ out ∧
      closeCount out = pushed.length :=
  ⟨asciiToLower_idem, by decide, by decide,
    close_markers_eq_pushes stdEnv asciiToLower_idem freshReader _ _
      [XMLEvent.startElement "body".toList []] _ [XMLEvent.endElement "body".toList] _ _
      (by decide) (by decide)⟩

theorem mapFind_append_single (m : List (Str × Str)) (k key v : Str) :
    mapFind (m ++ [(key, v)]) k =
      match mapFind m k with
      | some x => some x
      | none => if k = key then some v else none := by
  unfold mapFind
  rw [List.lookup_append]
  cases List.lookup k m with
  | some x => simp
  | none =>
    by_cases h : k = key
    · simp [List.lookup, h]
    · have h2 : (k == key) = false := by simpa using h
      simp [List.lookup, h, h2]

theorem mapFind_eq_none_iff (m : List (Str × Str)) (k : Str) :
    mapFind m k = none ↔ k ∉ m.map Prod.fst := by
  unfold mapFind
  induction m with
  | nil => simp
  | cons e rest ih =>
    obtain ⟨k', v'⟩ := e
    by_cases h : k = k'
    · simp [List.lookup, h]
    · have h2 : (k == k') = false := by simpa using h
      simp [List.lookup, h2, ih, h]

theorem mapFind_mem (m : List (Str × Str)) (k v : Str) (h : mapFind m k = some v) :
    (k, v) ∈ m := by
  unfold mapFind at h
  induction m with
  | nil => simp at h
  | cons e rest ih =>
    obtain ⟨k', v'⟩ := e
    by_cases hk : k = k'
    · subst hk; simp [List.lookup] at h; simp [h]
    · have h2 : (k == k') = false := by simpa using hk
      simp only [List.lookup, h2] at h
      exact List.mem_cons_of_mem _ (ih h)

/-- The three cases of `fileAlias`. -/
theorem fileAlias_hit (env : Env) (m : List (Str × Str)) (p v : Str)
    (h : mapFind m p = some v) : fileAlias env m p = (v, m) := by
  simp [fileAlias, h]

theorem fileAlias_hit_normalized (env : Env) (m : List (Str × Str)) (p v : Str)
    (h1 : mapFind m p = none)
    (h2 : mapFind m (env.normalizeUnixPath (env.decodeHtmlURL p)) = some v) :
    fileAlias env m p = (v, m) := by
  simp [fileAlias, h1, h2]

theorem fileAlias_miss (env : Env) (m : List (Str × Str)) (p : Str)
    (h1 : mapFind m p = none)
    (h2 : mapFind m (env.normalizeUnixPath (env.decodeHtmlURL p)) = none) :
    fileAlias env m p =
      (appendNumber [] m.length,
       m ++ [(env.normalizeUnixPath (env.decodeHtmlURL p), appendNumber [] m.length)]) := by
  simp [fileAlias, h1, h2, mapInsert, mapFind_append_single]

/-- After `fileAlias env m p` the normalized form of `p` is a key, bound to the
returned id, whenever `p` was absent from the keys or is its own normalized form. -/
theorem fileAlias_binds_normalized (env : Env) (m : List (Str × Str)) (p : Str)
    (h : mapFind m p = none ∨ env.normalizeUnixPath (env.decodeHtmlURL p) = p) :
    mapFind (fileAlias env m p).2 (env.normalizeUnixPath (env.decodeHtmlURL p)) =
      some (fileAlias env m p).1 := by
  cases h1 : mapFind m p with
  | some v =>
    rcases h with h | h
    · rw [h1] at h; simp at h
    · rw [fileAlias_hit env m p v h1, h]; exact h1
  | none =>
    cases h2 : mapFind m (env.normalizeUnixPath (env.decodeHtmlURL p)) with
    | some v => rw [fileAlias_hit_normalized env m p v h1 h2]; exact h2
    | none =>
      rw [fileAlias_miss env m p h1 h2]
      simp [mapFind_append_single, h2]

/-- A path whose normalized form is a key bound to `v`, and which is absent from
the keys or is its own normalized form, resolves to `v` without any insertion. -/
theorem fileAlias_of_bound (env : Env) (m : List (Str × Str)) (q v : Str)
    (hq : mapFind m q = none ∨ env.normalizeUnixPath (env.decodeHtmlURL q) = q)
    (hv : mapFind m (env.normalizeUnixPath (env.decodeHtmlURL q)) = some v) :
    fileAlias env m q = (v, m) := by
  cases h1 : mapFind m q with
  | some w =>
    rcases hq with h | h
    · rw [h1] at h; simp at h
    · rw [h, h1] at hv
      rw [fileAlias_hit env m q w h1]
      simp at hv; rw [hv]
  | none => exact fileAlias_hit_normalized env m q v h1 hv

theorem fileAlias_twice (env : Env) (m : List (Str × Str)) (p : Str) :
    fileAlias env (fileAlias env m p).2 p = ((fileAlias env m p).1, (fileAlias env m p).2) := by
  cases h1 : mapFind m p with
  | some v => rw [fileAlias_hit env m p v h1]; exact fileAlias_hit env m p v h1
  | none =>
    have hb := fileAlias_binds_normalized env m p (Or.inl h1)
    cases h2 : mapFind m (env.normalizeUnixPath (env.decodeHtmlURL p)) with
    | some v =>
      rw [fileAlias_hit_normalized env m p v h1 h2]
      exact fileAlias_hit_normalized env m p v h1 h2
    | none =>
      rw [fileAlias_miss env m p h1 h2] at hb ⊢
      simp only at hb ⊢
      by_cases hp : p = env.normalizeUnixPath (env.decodeHtmlURL p)
      · have hb2 : mapFind (m ++ [(env.normalizeUnixPath (env.decodeHtmlURL p),
            appendNumber [] m.length)]) p = some (appendNumber [] m.length) := by
          rw [← hp] at hb; rw [← hp]; exact hb
        exact fileAlias_hit env _ p _ hb2
      · have h3 : mapFind (m ++ [(env.normalizeUnixPath (env.decodeHtmlURL p),
            appendNumber [] m.length)]) p = none := by
          simp [mapFind_append_single, h1, hp]
        exact fileAlias_hit_normalized env _ p _ h3 hb

theorem digitChar_toNat (k : Nat) (h : k < 10) : (digitChar k).toNat - 48 = k := by
  interval_cases k <;> rfl

theorem decimalValue_aux (fuel : Nat) :
    ∀ (n : Nat) (acc : Str), n < fuel →
      List.foldl (fun a c => 10 * a + (c.toNat - 48)) 0 (appendNumberAux fuel n acc) =
        List.foldl (fun a c => 10 * a + (c.toNat - 48)) n acc := by
  induction fuel with
  | zero => intro n acc h; omega
  | succ fuel ih =>
    intro n acc h
    simp only [appendNumberAux]
    have hd := digitChar_toNat (n % 10) (Nat.mod_lt _ (by norm_num))
    split_ifs with h10
    · simp only [List.foldl_cons, hd]
      have : n % 10 = n := Nat.mod_eq_of_lt (by omega)
      simp [this]
    · rw [ih (n / 10) _ (by omega)]
      simp only [List.foldl_cons, hd]
      have : 10 * (n / 10) + n % 10 = n := Nat.div_add_mod n 10
      rw [this]

theorem decimalValue_appendNumber (n : Nat) : decimalValue (appendNumber [] n) = n := by
  simp only [decimalValue, appendNumber, List.nil_append]
  rw [decimalValue_aux (n + 1) n [] (by omega)]
  rfl

theorem appendNumber_injective : Function.Injective (appendNumber []) := by
  intro a b h
  have := congrArg decimalValue h
  rwa [decimalValue_appendNumber, decimalValue_appendNumber] at this

/-- Ids are the decimal strings of `0 .. n-1` in insertion order, and keys are
pairwise distinct. -/
theorem fileAlias_keeps_ids (env : Env) (m : List (Str × Str)) (p : Str)
    (hids : m.map Prod.snd = (List.range m.length).map (appendNumber []))
    (hkeys : (m.map Prod.fst).Nodup) :
    (fileAlias env m p).2.map Prod.snd =
        (List.range (fileAlias env m p).2.length).map (appendNumber []) ∧
      ((fileAlias env m p).2.map Prod.fst).Nodup := by
  cases h1 : mapFind m p with
  | some v => rw [fileAlias_hit env m p v h1]; exact ⟨hids, hkeys⟩
  | none =>
    cases h2 : mapFind m (env.normalizeUnixPath (env.decodeHtmlURL p)) with
    | some v => rw [fileAlias_hit_normalized env m p v h1 h2]; exact ⟨hids, hkeys⟩
    | none =>
      rw [fileAlias_miss env m p h1 h2]
      have hnot := (mapFind_eq_none_iff m _).mp h2
      constructor
      · simp only [List.map_append, List.map_cons, List.map_nil, List.length_append,
          List.length_singleton, List.range_succ, hids]
      · simp only [List.map_append, List.map_cons, List.map_nil]
        rw [List.nodup_append]
        exact ⟨hkeys, by simp, by simpa using hnot⟩

theorem aliasRun_keeps_ids (env : Env) (ps : List Str) :
    ∀ (m : List (Str × Str)), m.map Prod.snd = (List.range m.length).map (appendNumber []) →
      (m.map Prod.fst).Nodup →
      (aliasRun env m ps).map Prod.snd =
          (List.range (aliasRun env m ps).length).map (appendNumber []) ∧
        ((aliasRun env m ps).map Prod.fst).Nodup := by
  induction ps with
  | nil => intro m h1 h2; exact ⟨h1, h2⟩
  | cons p ps ih =>
    intro m h1 h2
    obtain ⟨h3, h4⟩ := fileAlias_keeps_ids env m p h1 h2
    exact ih _ h3 h4

theorem fileAlias_appends (env : Env) (m : List (Str × Str)) (p : Str) :
    (fileAlias env m p).2 = m ∨
      (fileAlias env m p).2 = m ++ [(normalizedPath env p, appendNumber [] m.length)] := by
  cases h1 : mapFind m p with
  | some v => rw [fileAlias_hit env m p v h1]; exact Or.inl rfl
  | none =>
    cases h2 : mapFind m (env.normalizeUnixPath (env.decodeHtmlURL p)) with
    | some v => rw [fileAlias_hit_normalized env m p v h1 h2]; exact Or.inl rfl
    | none => rw [fileAlias_miss env m p h1 h2]; exact Or.inr rfl

theorem aliasRun_append (env : Env) (ps qs : List Str) :
    ∀ (m : List (Str × Str)), aliasRun env m (ps ++ qs) = aliasRun env (aliasRun env m ps) qs := by
  induction ps with
  | nil => intro m; rfl
  | cons p ps ih => intro m; simp [aliasRun, ih]

/-- C4. Starting from the empty alias map, after any sequence `ps` of `fileAlias`
calls: the ids of the map are, in insertion order, exactly the decimal strings of
`0 .. n-1`; the keys are pairwise distinct; one more call `fileAlias p` leaves the
map unchanged or appends one entry, the normalized path with the decimal string
of the current size; and two entries with distinct keys never share an id. -/
theorem alias_ids_sequential (env : Env) (ps : List Str) :
    (aliasRun env [] ps).map Prod.snd =
        (List.range (aliasRun env [] ps).length).map (appendNumber []) ∧
      ((aliasRun env [] ps).map Prod.fst).Nodup ∧
      (∀ p, aliasRun env [] (ps ++ [p]) = aliasRun env [] ps ∨
        aliasRun env [] (ps ++ [p]) = aliasRun env [] ps ++
          [(normalizedPath env p, appendNumber [] (aliasRun env [] ps).length)]) ∧
      (∀ e1 ∈ aliasRun env [] ps, ∀ e2 ∈ aliasRun env [] ps, e1.1 ≠ e2.1 → e1.2 ≠ e2.2) := by
  obtain ⟨h1, h2⟩ := aliasRun_keeps_ids env ps [] (by simp) (by simp)
  refine ⟨h1, h2, ?_, ?_⟩
  · intro p
    rw [aliasRun_append]
    exact fileAlias_appends env _ p
  · intro e1 he1 e2 he2 hne heq
    have hnd : ((aliasRun env [] ps).map Prod.snd).Nodup := by
      rw [h1]
      exact (List.nodup_range _).map appendNumber_injective
    exact hne (congrArg Prod.fst (List.inj_on_of_nodup_map hnd he1 he2 heq))

theorem alias_ids_sequential_witness :
    (aliasRun stdEnv [] ["a/b.html".toList, "c.html".toList, "a/./b.html".toList]).map Prod.snd =
      ["0".toList, "1".toList] ∧
    (("a/b.html".toList, "0".toList) ∈
        aliasRun stdEnv [] ["a/b.html".toList, "c.html".toList, "a/./b.html".toList] ∧
      ("c.html".toList, "1".toList) ∈
        aliasRun stdEnv [] ["a/b.html".toList, "c.html".toList, "a/./b.html".toList] ∧
      "a/b.html".toList ≠ "c.html".toList ∧ "0".toList ≠ "1".toList) :=
  ⟨by decide, by decide, by decide, by decide,
    (alias_ids_sequential stdEnv
      ["a/b.html".toList, "c.html".toList, "a/./b.html".toList]).2.2.2
      ("a/b.html".toList, "0".toList) (by decide) ("c.html".toList, "1".toList) (by decide)
      (by decide)⟩

/-- C3 (amended). Two consecutive calls `fileAlias p` return the same id and the
second call leaves the map unchanged, for every map and path. When `p` is not
itself a key of the map before the first call, or `p` equals its normalized form,
then after `fileAlias p` a call on the normalized form of `p` returns that same id
and adds no entry. -/
theorem fileAlias_idempotent (env : Env) (m : List (Str × Str)) (p : Str) :
    fileAlias env (fileAlias env m p).2 p = ((fileAlias env m p).1, (fileAlias env m p).2) ∧
      (mapFind m p = none ∨ normalizedPath env p = p →
        fileAlias env (fileAlias env m p).2 (normalizedPath env p) =
          ((fileAlias env m p).1, (fileAlias env m p).2)) := by
  refine ⟨fileAlias_twice env m p, ?_⟩
  intro h
  exact fileAlias_hit env _ _ _ (fileAlias_binds_normalized env m p h)

theorem fileAlias_idempotent_witness :
    mapFind (aliasRun stdEnv [] ["c.html".toList]) "a/./b%20c.html".toList = none ∧
    fileAlias stdEnv (aliasRun stdEnv [] ["c.html".toList]) "a/./b%20c.html".toList =
      ("1".toList, [("c.html".toList, "0".toList), ("a/b c.html".toList, "1".toList)]) ∧
    fileAlias stdEnv
        (fileAlias stdEnv (aliasRun stdEnv [] ["c.html".toList]) "a/./b%20c.html".toList).2
        (normalizedPath stdEnv "a/./b%20c.html".toList) =
      ((fileAlias stdEnv (aliasRun stdEnv [] ["c.html".toList]) "a/./b%20c.html".toList).1,
       (fileAlias stdEnv (aliasRun stdEnv [] ["c.html".toList]) "a/./b%20c.html".toList).2) :=
  ⟨by decide, by decide,
    (fileAlias_idempotent stdEnv (aliasRun stdEnv [] ["c.html".toList])
      "a/./b%20c.html".toList).2 (Or.inl (by decide))⟩

/-- C3 fails as stated: in the map reached by `fileAlias "%2541"`, whose only key
is `%41`, the call `fileAlias "%41"` hits that key and returns `0`, while the call
on the normalized form `A` of `%41` returns the new id `1` and adds an entry. -/
theorem fileAlias_normalized_form_gets_new_id :
    aliasRun stdEnv [] ["%2541".toList] = [("%41".toList, "0".toList)] ∧
    normalizedPath stdEnv "%41".toList = "A".toList ∧
    fileAlias stdEnv (aliasRun stdEnv [] ["%2541".toList]) "%41".toList =
      ("0".toList, [("%41".toList, "0".toList)]) ∧
    fileAlias stdEnv (fileAlias stdEnv (aliasRun stdEnv [] ["%2541".toList]) "%41".toList).2
        (normalizedPath stdEnv "%41".toList) =
      ("1".toList, [("%41".toList, "0".toList), ("A".toList, "1".toList)]) := by
  decide

theorem fileAlias_id_eq (env : Env) (m : List (Str × Str)) (p : Str)
    (hp : mapFind m p = none ∨ normalizedPath env p = p) :
    (fileAlias env m p).1 =
      (mapFind m (normalizedPath env p)).getD (appendNumber [] m.length) := by
  unfold normalizedPath at hp ⊢
  cases h1 : mapFind m p with
  | some v =>
    rcases hp with h | h
    · rw [h1] at h; simp at h
    · rw [fileAlias_hit env m p v h1, h, h1]; rfl
  | none =>
    cases h2 : mapFind m (env.normalizeUnixPath (env.decodeHtmlURL p)) with
    | some v => rw [fileAlias_hit_normalized env m p v h1 h2]; rfl
    | none => rw [fileAlias_miss env m p h1 h2]; rfl

theorem fileAlias_then_same_normalized (env : Env) (m : List (Str × Str)) (p q : Str)
    (hpq : normalizedPath env p = normalizedPath env q)
    (hp : mapFind m p = none ∨ normalizedPath env p = p)
    (hq : mapFind m q = none ∨ normalizedPath env q = q) :
    fileAlias env (fileAlias env m p).2 q = ((fileAlias env m p).1, (fileAlias env m p).2) := by
  have hb := fileAlias_binds_normalized env m p hp
  have hq2 : mapFind (fileAlias env m p).2 q = none ∨ normalizedPath env q = q := by
    rcases hq with h | h
    · rcases fileAlias_appends env m p with e | e
      · rw [e]; exact Or.inl h
      · by_cases hk : q = normalizedPath env p
        · right; rw [← hpq, ← hk]
        · left; rw [e]; simp [mapFind_append_single, h, hk]
    · exact Or.inr h
  unfold normalizedPath at hpq hq2
  rw [hpq] at hb
  exact fileAlias_of_bound env _ q _ hq2 hb

/-- C5 (amended). In every alias map (in particular every map reached from the
empty one by `fileAlias` calls), for two paths `p` and `q` with equal normalized
forms, each of which is absent from the keys of the map or equal to its own
normalized form: `fileAlias p` followed by `fileAlias q` return the same id, so do
`fileAlias q` followed by `fileAlias p`, and the id is the same in both orders. -/
theorem same_normalized_path_same_id (env : Env) (m : List (Str × Str)) (p q : Str)
    (hpq : normalizedPath env p = normalizedPath env q)
    (hp : mapFind m p = none ∨ normalizedPath env p = p)
    (hq : mapFind m q = none ∨ normalizedPath env q = q) :
    (fileAlias env (fileAlias env m p).2 q).1 = (fileAlias env m p).1 ∧
      (fileAlias env (fileAlias env m q).2 p).1 = (fileAlias env m q).1 ∧
      (fileAlias env m p).1 = (fileAlias env m q).1 := by
  refine ⟨?_, ?_, ?_⟩
  · rw [fileAlias_then_same_normalized env m p q hpq hp hq]
  · rw [fileAlias_then_same_normalized env m q p hpq.symm hq hp]
  · rw [fileAlias_id_eq env m p hp, fileAlias_id_eq env m q hq, hpq]

theorem same_normalized_path_same_id_witness :
    normalizedPath stdEnv "a/./b.html".toList = normalizedPath stdEnv "a/b.html".toList ∧
    (mapFind (aliasRun stdEnv [] ["c.html".toList]) "a/./b.html".toList = none ∨
      normalizedPath stdEnv "a/./b.html".toList = "a/./b.html".toList) ∧
    (mapFind (aliasRun stdEnv [] ["c.html".toList]) "a/b.html".toList = none ∨
      normalizedPath stdEnv "a/b.html".toList = "a/b.html".toList) ∧
    (fileAlias stdEnv (aliasRun stdEnv [] ["c.html".toList]) "a/./b.html".toList).1 =
      "1".toList ∧
    ((fileAlias stdEnv (fileAlias stdEnv (aliasRun stdEnv [] ["c.html".toList])
          "a/./b.html".toList).2 "a/b.html".toList).1 =
        (fileAlias stdEnv (aliasRun stdEnv [] ["c.html".toList]) "a/./b.html".toList).1 ∧
      (fileAlias stdEnv (fileAlias stdEnv (aliasRun stdEnv [] ["c.html".toList])
          "a/b.html".toList).2 "a/./b.html".toList).1 =
        (fileAlias stdEnv (aliasRun stdEnv [] ["c.html".toList]) "a/b.html".toList).1 ∧
      (fileAlias stdEnv (aliasRun stdEnv [] ["c.html".toList]) "a/./b.html".toList).1 =
        (fileAlias stdEnv (aliasRun stdEnv [] ["c.html".toList]) "a/b.html".toList).1) :=
  ⟨by decide, by decide, by decide, by decide,
    same_normalized_path_same_id stdEnv (aliasRun stdEnv [] ["c.html".toList])
      "a/./b.html".toList "a/b.html".toList (by decide) (by decide) (by decide)⟩

/-- C5 fails as stated: the map reached by `fileAlias "%2541"` has the single key
`%41`; the paths `%41` and `A` have the same normalized form `A`, yet `fileAlias`
returns `0` for `%41` and `1` for `A`, in either order of the two calls. -/
theorem same_normalized_path_two_ids :
    normalizedPath stdEnv "%41".toList = normalizedPath stdEnv "A".toList ∧
    (fileAlias stdEnv (aliasRun stdEnv [] ["%2541".toList]) "%41".toList).1 = "0".toList ∧
    (fileAlias stdEnv (fileAlias stdEnv (aliasRun stdEnv [] ["%2541".toList])
        "%41".toList).2 "A".toList).1 = "1".toList ∧
    (fileAlias stdEnv (aliasRun stdEnv [] ["%2541".toList]) "A".toList).1 = "1".toList ∧
    (fileAlias stdEnv (fileAlias stdEnv (aliasRun stdEnv [] ["%2541".toList])
        "A".toList).2 "%41".toList).1 = "0".toList := by
  decide

theorem strFind_none (r : Str) (c : Char) (h : c ∉ r) : strFind r c = none := by
  induction r with
  | nil => rfl
  | cons x xs ih =>
    simp only [List.mem_cons, not_or] at h
    simp [strFind, Ne.symm h.1, ih h.2]

theorem strFind_first (path frag : Str) (c : Char) (h : c ∉ path) :
    strFind (path ++ c :: frag) c = some path.length := by
  induction path with
  | nil => simp [strFind]
  | cons x xs ih =>
    simp only [List.mem_cons, not_or] at h
    simp [strFind, Ne.symm h.1, ih h.2]

/-- C6. `normalizedReference` splits at the first `#`: on `path ++ '#' :: frag`
with no `#` in `path` the result is the alias of `path` followed by the fragment
`'#' :: frag` unchanged (and the map is the one `fileAlias path` leaves); on a
reference without `#` the result is `fileAlias` of the whole reference. -/
theorem normalizedReference_splits_at_hash (env : Env) (m : List (Str × Str)) :
    (∀ path frag : Str, '#' ∉ path →
      normalizedReference env m (path ++ '#' :: frag) =
        ((fileAlias env m path).1 ++ '#' :: frag, (fileAlias env m path).2)) ∧
    (∀ r : Str, '#' ∉ r → normalizedReference env m r = fileAlias env m r) := by
  constructor
  · intro path frag h
    simp [normalizedReference, strFind_first path frag '#' h]
  · intro r h
    simp [normalizedReference, strFind_none r '#' h]

theorem normalizedReference_splits_at_hash_witness :
    ('#' ∉ "a/b.html".toList ∧
      normalizedReference stdEnv [] ("a/b.html".toList ++ '#' :: "s#1 x".toList) =
        ((fileAlias stdEnv [] "a/b.html".toList).1 ++ '#' :: "s#1 x".toList,
          (fileAlias stdEnv [] "a/b.html".toList).2)) ∧
    ('#' ∉ "a/b.html".toList ∧
      normalizedReference stdEnv [] "a/b.html".toList = fileAlias stdEnv [] "a/b.html".toList) :=
  ⟨⟨by decide, (normalizedReference_splits_at_hash stdEnv []).1 _ _ (by decide)⟩,
    ⟨by decide, (normalizedReference_splits_at_hash stdEnv []).2 _ (by decide)⟩⟩

theorem bodyStyleStep_invariant (r : XHTMLReader) (a : BodyStyleStep)
    (h0 : r.myStylesToRemove = 0)
    (hinv : r.myReadState = ReadState.READ_BODY ↔ 0 < r.myBodyCounter) :
    ∃ r', BodyStyleStep.apply r a = some r' ∧ r'.myStylesToRemove = 0 ∧
      (r'.myReadState = ReadState.READ_BODY ↔ 0 < r'.myBodyCounter) := by
  have hle : r.myStylesToRemove ≤ r.myStyleEntryStack.length := by omega
  cases a with
  | bodyStart =>
    refine ⟨_, rfl, ?_, ?_⟩
    · simp only [bodyDoAtStart]; split_ifs <;> simp [h0]
    · simp only [bodyDoAtStart]
      split_ifs with h
      · simpa using h
      · simp only [h, iff_false]
        intro hb
        have := hinv.mp hb
        simp only [gt_iff_lt, not_lt] at h
        omega
  | bodyEnd =>
    simp only [BodyStyleStep.apply, bodyDoAtEnd]
    rw [endParagraph_eq _ hle]
    simp only [Option.map_some']
    refine ⟨_, rfl, ?_, ?_⟩
    · split_ifs <;> simp
    · split_ifs with h
      · simp only [reduceCtorEq, false_iff, not_lt]
        exact h
      · simp only [not_le] at h
        simp only [h, iff_true]
        exact hinv.mpr (by omega)
  | styleStart attrs =>
    refine ⟨_, rfl, ?_, ?_⟩
    · simp only [styleDoAtStart]
      split
      · exact h0
      · split_ifs <;> simp [h0]
    · simp only [styleDoAtStart]
      split
      · exact hinv
      · split_ifs with h1 h2
        · exact hinv
        · simp only [reduceCtorEq, false_iff]
          intro hc
          have := hinv.mpr hc
          rw [h2] at this
          simp at this
        · exact hinv
  | styleEnd =>
    refine ⟨_, rfl, ?_, ?_⟩
    · simp only [styleDoAtEnd]; split_ifs <;> simp [h0]
    · simp only [styleDoAtEnd]
      split_ifs with h
      · simp only [reduceCtorEq, false_iff]
        intro hc
        have := hinv.mpr hc
        rw [h] at this
        simp at this
      · exact hinv

theorem runSteps_invariant (steps : List BodyStyleStep) :
    ∀ (r : XHTMLReader), r.myStylesToRemove = 0 →
      (r.myReadState = ReadState.READ_BODY ↔ 0 < r.myBodyCounter) →
      ∃ r', runSteps r steps = some r' ∧
        (r'.myReadState = ReadState.READ_BODY ↔ 0 < r'.myBodyCounter) := by
  induction steps with
  | nil => intro r _ h; exact ⟨r, rfl, h⟩
  | cons a rest ih =>
    intro r h0 h
    obtain ⟨r1, h1, h2, h3⟩ := bodyStyleStep_invariant r a h0 h
    obtain ⟨r', h4, h5⟩ := ih r1 h2 h3
    exact ⟨r', by simp [runSteps, h1, h4], h5⟩

/-- C7. After any sequence of body start / body end / style start / style end
actions from the `readFile` reset state (mismatched body ends included, which
drive the counter negative) every action is defined and the read state is
`READ_BODY` exactly when `myBodyCounter > 0`. A body start increments the counter
and enters `READ_BODY` exactly when the new counter is positive, else keeps the
read state; a body end decrements the counter and returns to `READ_NOTHING`
exactly when the new counter is `<= 0`, else keeps the read state. -/
theorem body_state_iff_counter_positive (env : Env) (r0 : XHTMLReader)
    (filePath referenceName : Str) (steps : List BodyStyleStep) :
    (∃ r, runSteps (readFileReset env r0 filePath referenceName) steps = some r ∧
      (r.myReadState = ReadState.READ_BODY ↔ 0 < r.myBodyCounter)) ∧
    (∀ r : XHTMLReader, (bodyDoAtStart r).myBodyCounter = r.myBodyCounter + 1 ∧
      (bodyDoAtStart r).myReadState =
        if 0 < r.myBodyCounter + 1 then ReadState.READ_BODY else r.myReadState) ∧
    (∀ r r' : XHTMLReader, bodyDoAtEnd r = some r' →
      r'.myBodyCounter = r.myBodyCounter - 1 ∧
      r'.myReadState =
        if r.myBodyCounter - 1 ≤ 0 then ReadState.READ_NOTHING else r.myReadState) := by
  refine ⟨?_, ?_, ?_⟩
  · exact runSteps_invariant steps _ (by simp [readFileReset]) (by simp [readFileReset])
  · intro r
    simp only [bodyDoAtStart, gt_iff_lt]
    split_ifs <;> simp
  · intro r r' h
    simp only [bodyDoAtEnd, Option.map_eq_some'] at h
    obtain ⟨r1, h1, h2⟩ := h
    have hle : r.myStylesToRemove ≤ r.myStyleEntryStack.length := by
      by_contra hc
      simp [XHTMLReader.endParagraph, not_le.mp hc] at h1
    rw [endParagraph_eq _ hle] at h1
    simp only [Option.some.injEq] at h1
    subst h1
    subst h2
    simp only
    split_ifs <;> simp


theorem body_state_iff_counter_positive_witness :
    ∃ r', bodyDoAtEnd (readFileReset stdEnv freshReader "b/c.html".toList "c.html".toList) =
        some r' ∧
      r'.myBodyCounter =
        (readFileReset stdEnv freshReader "b/c.html".toList "c.html".toList).myBodyCounter - 1 ∧
      r'.myReadState =
        if (readFileReset stdEnv freshReader "b/c.html".toList
            "c.html".toList).myBodyCounter - 1 ≤ 0 then ReadState.READ_NOTHING
        else (readFileReset stdEnv freshReader "b/c.html".toList "c.html".toList).myReadState := by
  obtain ⟨⟨r, hr, _⟩, _, h3⟩ := body_state_iff_counter_positive stdEnv freshReader
    "b/c.html".toList "c.html".toList [BodyStyleStep.bodyEnd]
  have hr2 : bodyDoAtEnd (readFileReset stdEnv freshReader "b/c.html".toList "c.html".toList) =
      some r := by
    simpa [runSteps, BodyStyleStep.apply] using hr
  exact ⟨r, hr2, h3 _ _ hr2⟩

theorem no_addData_styleEntries (l : List ZLTextStyleEntry) (d : Str) :
    SinkEvent.addData d ∉ l.map SinkEvent.addStyleEntry := by
  simp

/-- The calls of `endParagraph` other than the final paragraph end. -/
theorem endCalls_split (stack : List ZLTextStyleEntry) (n : Nat) :
    ∃ ended, endCalls stack n = ended ++ [SinkEvent.endParagraph] ∧
      ∀ d, SinkEvent.addData d ∉ ended := by
  refine ⟨_, rfl, ?_⟩
  intro d h
  rw [List.mem_append] at h
  rcases h with h | h
  · split_ifs at h <;> simp at h
  · exact no_addData_styleEntries _ d h

/-- The calls of `beginParagraph` other than the initial paragraph begin. -/
theorem beginCalls_split (stack : List ZLTextStyleEntry) :
    ∃ begun, beginCalls stack = SinkEvent.beginParagraph :: begun ∧
      ∀ d, SinkEvent.addData d ∉ begun := by
  refine ⟨stack.reverse.map SinkEvent.addStyleEntry ++
    (if stack.any (fun e => e.isFeatureSupported Feature.LENGTH_SPACE_BEFORE) then
      [SinkEvent.addStyleEntry (blockingEntry Feature.LENGTH_SPACE_BEFORE)] else []), rfl, ?_⟩
  intro d h
  rw [List.mem_append] at h
  rcases h with h | h
  · exact no_addData_styleEntries _ d h
  · split_ifs at h <;> simp at h

theorem restartParagraphDoAtStart_eq (r : XHTMLReader)
    (hle : r.myStylesToRemove ≤ r.myStyleEntryStack.length) :
    restartParagraphDoAtStart r =
      some { r with
        myCurrentParagraphIsEmpty := true,
        myModelReader :=
          r.myModelReader ++
            (if r.myCurrentParagraphIsEmpty then [SinkEvent.addData [' ']] else []) ++
            endCalls r.myStyleEntryStack r.myStylesToRemove ++
            beginCalls (r.myStyleEntryStack.drop r.myStylesToRemove),
        myStyleEntryStack := r.myStyleEntryStack.drop r.myStylesToRemove,
        myStylesToRemove := 0 } := by
  unfold restartParagraphDoAtStart
  by_cases hem : r.myCurrentParagraphIsEmpty = true
  · simp only [hem, if_true]
    rw [endParagraph_eq _ (by simpa [XHTMLReader.emit] using hle)]
    simp [beginParagraph_eq, XHTMLReader.emit]
  · simp only [hem, Bool.false_eq_true, if_false]
    rw [endParagraph_eq _ hle]
    simp [beginParagraph_eq]

/-- C8. In every engine state where `endParagraph` is defined (`myStylesToRemove`
does not exceed the depth of the style stack, as in all reachable states), the
`br` action at start appends exactly one text run, a single space, to the sink
when `myCurrentParagraphIsEmpty` is set and no text at all when it is clear; in
both cases it then ends the paragraph and begins a new one (these calls carry no
text, the first batch ends with the paragraph end, the second starts with the
paragraph begin) and leaves `myCurrentParagraphIsEmpty` set. -/
theorem br_appends_one_space_iff_empty (r : XHTMLReader)
    (hle : r.myStylesToRemove ≤ r.myStyleEntryStack.length) :
    ∃ r' ended begun,
      restartParagraphDoAtStart r = some r' ∧
      r'.myModelReader =
        r.myModelReader ++
          (if r.myCurrentParagraphIsEmpty then [SinkEvent.addData [' ']] else []) ++
          (ended ++ [SinkEvent.endParagraph]) ++ (SinkEvent.beginParagraph :: begun) ∧
      (∀ d, SinkEvent.addData d ∉ ended ++ begun) ∧
      r'.myCurrentParagraphIsEmpty = true := by
  have hend := endCalls_split r.myStyleEntryStack r.myStylesToRemove
  have hbeg := beginCalls_split (r.myStyleEntryStack.drop r.myStylesToRemove)
  obtain ⟨ended, he, hne⟩ := hend
  obtain ⟨begun, hb, hnb⟩ := hbeg
  rw [restartParagraphDoAtStart_eq r hle]
  refine ⟨_, ended, begun, rfl, ?_, ?_, rfl⟩
  · simp only [he, hb, List.append_assoc]
  · intro d
    simp [hne d, hnb d]

theorem br_appends_one_space_iff_empty_witness :
    (readFileReset stdEnv freshReader "b/c.html".toList "c.html".toList).myStylesToRemove ≤
      (readFileReset stdEnv freshReader "b/c.html".toList
        "c.html".toList).myStyleEntryStack.length ∧
    ∃ r' ended begun,
      restartParagraphDoAtStart
        (readFileReset stdEnv freshReader "b/c.html".toList "c.html".toList) = some r' ∧
      r'.myModelReader =
        (readFileReset stdEnv freshReader "b/c.html".toList "c.html".toList).myModelReader ++
          (if (readFileReset stdEnv freshReader "b/c.html".toList
              "c.html".toList).myCurrentParagraphIsEmpty then [SinkEvent.addData [' ']]
            else []) ++
          (ended ++ [SinkEvent.endParagraph]) ++ (SinkEvent.beginParagraph :: begun) ∧
      (∀ d, SinkEvent.addData d ∉ ended ++ begun) ∧
      r'.myCurrentParagraphIsEmpty = true :=
  ⟨by decide, br_appends_one_space_iff_empty _ (by decide)⟩

theorem spaceCounterLoop_eq (text : Str) :
    ∀ k, spaceCounterLoop text k = k + (text.takeWhile isspace).length := by
  induction text with
  | nil => intro k; simp [spaceCounterLoop]
  | cons c rest ih =>
    intro k
    by_cases h : isspace c = true
    · simp [spaceCounterLoop, h, ih]; omega
    · simp [spaceCounterLoop, h]

theorem skipSpaceLoop_eq (text : Str) (h : text ≠ []) :
    skipSpaceLoop text = some (text.dropWhile isspace) := by
  induction text with
  | nil => exact absurd rfl h
  | cons c tl ih =>
    cases tl with
    | nil => by_cases hc : isspace c = true <;> simp [skipSpaceLoop, hc]
    | cons d tl2 =>
      by_cases hc : isspace c = true
      · simp only [skipSpaceLoop, hc, if_true]
        rw [ih (by simp)]
        simp [List.dropWhile_cons, hc]
      · simp [skipSpaceLoop, hc, List.dropWhile_cons]

theorem appendCharacterData_nil (env : Env) (r : XHTMLReader) :
    appendCharacterData env r [] = r := by
  simp [appendCharacterData]

theorem appendCharacterData_log (env : Env) (r : XHTMLReader) (text : Str) (h : text ≠ []) :
    (appendCharacterData env r text).myModelReader =
        r.myModelReader ++
          (if env.paragraphIsOpen r.myModelReader then [] else [SinkEvent.beginParagraph]) ++
          [SinkEvent.addData text] ∧
      (appendCharacterData env r text).myCurrentParagraphIsEmpty = false ∧
      (appendCharacterData env r text).myNewParagraphInProgress = false := by
  have hl : text.length > 0 := List.length_pos.mpr h
  unfold appendCharacterData
  by_cases h2 : env.paragraphIsOpen r.myModelReader = true <;>
    simp [hl, h2, XHTMLReader.emit]

/-- C9. A non-empty text `c :: rest` delivered in `READ_BODY` with `myPreformatted`
set (in a state where `endParagraph` is defined). Let `remainder` be `rest` when
`c` is a carriage return or line feed and the whole text otherwise, `k` the length
of the maximal leading whitespace run of `remainder`, and `appended` the remainder
after those `k` characters. Then the sink receives: exactly when `c` is a line
break, the calls of `endParagraph`, those of `beginParagraph` and the
`PREFORMATTED` open control; then `addFixedHSpace k`; then, only when `appended`
is non-empty, `addData appended` (after a paragraph begin if the sink has no open
paragraph). A paragraph end is sent if and only if `c` is a line break, and
consumed separator + `k` + length of `appended` is the length of the text. -/
theorem preformatted_character_data (env : Env) (r : XHTMLReader) (c : Char) (rest : Str)
    (hbody : r.myReadState = ReadState.READ_BODY) (hpre : r.myPreformatted = true)
    (hle : r.myStylesToRemove ≤ r.myStyleEntryStack.length) :
    ∃ r' split,
      characterDataHandler env r (c :: rest) = some r' ∧
      split =
        (if c = '\r' ∨ c = '\n' then
          endCalls r.myStyleEntryStack r.myStylesToRemove ++
            beginCalls (r.myStyleEntryStack.drop r.myStylesToRemove) ++
            [SinkEvent.addControl FBTextKind.PREFORMATTED true]
         else []) ∧
      r'.myModelReader =
        r.myModelReader ++ split ++
          [SinkEvent.addFixedHSpace
            (((if c = '\r' ∨ c = '\n' then rest else c :: rest).takeWhile isspace).length)] ++
          (if (if c = '\r' ∨ c = '\n' then rest else c :: rest).dropWhile isspace = [] then []
           else
            (if env.paragraphIsOpen
                (r.myModelReader ++ split ++
                  [SinkEvent.addFixedHSpace
                    (((if c = '\r' ∨ c = '\n' then rest else c :: rest).takeWhile
                      isspace).length)])
              then [] else [SinkEvent.beginParagraph]) ++
            [SinkEvent.addData
              ((if c = '\r' ∨ c = '\n' then rest else c :: rest).dropWhile isspace)]) ∧
      (SinkEvent.endParagraph ∈ split ↔ (c = '\r' ∨ c = '\n')) ∧
      (if c = '\r' ∨ c = '\n' then 1 else 0) +
          ((if c = '\r' ∨ c = '\n' then rest else c :: rest).takeWhile isspace).length +
          ((if c = '\r' ∨ c = '\n' then rest else c :: rest).dropWhile isspace).length =
        (c :: rest).length := by
  have hdrop : ∀ t : Str, t.drop (t.takeWhile isspace).length = t.dropWhile isspace := by
    intro t
    induction t with
    | nil => rfl
    | cons x xs ih => by_cases hx : isspace x = true <;> simp [List.takeWhile_cons, List.dropWhile_cons, hx, ih]
  have hlen : ∀ t : Str, (t.takeWhile isspace).length + (t.dropWhile isspace).length = t.length := by
    intro t
    have := congrArg List.length (List.takeWhile_append_dropWhile isspace t)
    rw [List.length_append] at this
    exact this
  unfold characterDataHandler
  simp only [hbody, hpre, if_true]
  by_cases hc : c = '\r' ∨ c = '\n'
  · simp only [hc, if_true]
    rw [endParagraph_eq _ hle]
    simp only [Option.map_some', spaceCounterLoop_eq, Nat.zero_add, hdrop]
    refine ⟨_, _, rfl, rfl, ?_, ?_, ?_⟩
    · by_cases hd : rest.dropWhile isspace = []
      · rw [hd, appendCharacterData_nil]
        simp [beginParagraph_eq, XHTMLReader.emit]
      · rw [(appendCharacterData_log env _ _ hd).1]
        simp [beginParagraph_eq, XHTMLReader.emit, hd]
    · simp [endCalls]
    · have := hlen rest
      simp only [List.length_cons]
      omega
  · simp only [hc, if_false]
    simp only [Option.map_some', spaceCounterLoop_eq, Nat.zero_add, hdrop]
    refine ⟨_, _, rfl, rfl, ?_, ?_, ?_⟩
    · by_cases hd : (c :: rest).dropWhile isspace = []
      · rw [hd, appendCharacterData_nil]
        simp [XHTMLReader.emit]
      · rw [(appendCharacterData_log env _ _ hd).1]
        simp [XHTMLReader.emit, hd]
    · simp
    · have := hlen (c :: rest)
      simp only [List.length_cons] at this ⊢
      omega

/-- C10. A non-empty text delivered in `READ_BODY` with `myPreformatted` clear.
Let `kept` be the whole text when a paragraph is open on the sink and no new
paragraph is in progress, and the text without its maximal leading whitespace run
(interior and trailing whitespace kept) when a new paragraph is in progress or no
paragraph is open. When `kept` is empty the state does not change at all (nothing
is appended, no paragraph is opened, the flags keep their values). Otherwise
`kept` is appended to the sink verbatim, after a paragraph begin if the sink has no
open paragraph, `myCurrentParagraphIsEmpty` is cleared and so is
`myNewParagraphInProgress`. -/
theorem plain_character_data (env : Env) (r : XHTMLReader) (text : Str) (ht : text ≠ [])
    (hbody : r.myReadState = ReadState.READ_BODY) (hpre : r.myPreformatted = false) :
    ∃ r' kept,
      characterDataHandler env r text = some r' ∧
      kept =
        (if r.myNewParagraphInProgress = true ∨ env.paragraphIsOpen r.myModelReader = false
          then text.dropWhile isspace else text) ∧
      (kept = [] → r' = r) ∧
      (kept ≠ [] →
        r'.myModelReader =
          r.myModelReader ++
            (if env.paragraphIsOpen r.myModelReader then [] else [SinkEvent.beginParagraph]) ++
            [SinkEvent.addData kept] ∧
        r'.myCurrentParagraphIsEmpty = false ∧
        r'.myNewParagraphInProgress = false) := by
  unfold characterDataHandler
  simp only [hbody, hpre, Bool.false_eq_true, if_false]
  by_cases hs : r.myNewParagraphInProgress = true ∨ env.paragraphIsOpen r.myModelReader = false
  · have hs2 : (r.myNewParagraphInProgress || !env.paragraphIsOpen r.myModelReader) = true := by
      rcases hs with h | h <;> simp [h]
    simp only [hs2, if_true, skipSpaceLoop_eq text ht, Option.map_some', hs]
    refine ⟨_, _, rfl, rfl, ?_, ?_⟩
    · intro hk; rw [hk, appendCharacterData_nil]
    · intro hk; exact appendCharacterData_log env r _ hk
  · have hs2 : (r.myNewParagraphInProgress || !env.paragraphIsOpen r.myModelReader) = false := by
      simp only [not_or, Bool.not_eq_true, Bool.not_eq_false] at hs
      simp [hs.1, hs.2]
    simp only [hs2, Bool.false_eq_true, if_false, hs]
    refine ⟨_, _, rfl, rfl, ?_, ?_⟩
    · intro hk; exact absurd hk ht
    · intro _; exact appendCharacterData_log env r _ ht

theorem preformatted_character_data_witness :
    preReader.myReadState = ReadState.READ_BODY ∧ preReader.myPreformatted = true ∧
    preReader.myStylesToRemove ≤ preReader.myStyleEntryStack.length ∧
    ∃ r', characterDataHandler stdEnv preReader "\n  x y ".toList = some r' ∧
      r'.myModelReader =
        preReader.myModelReader ++
          [SinkEvent.endParagraph, SinkEvent.beginParagraph,
            SinkEvent.addControl FBTextKind.PREFORMATTED true,
            SinkEvent.addFixedHSpace 2, SinkEvent.addData "x y ".toList] := by
  obtain ⟨r', split, h1, h2, h3, _, _⟩ :=
    preformatted_character_data stdEnv preReader '\n' "  x y ".toList (by decide) (by decide)
      (by decide)
  refine ⟨by decide, by decide, by decide, r', h1, ?_⟩
  rw [h3, h2]
  decide

theorem plain_character_data_witness :
    "  Hello  world ".toList ≠ [] ∧
    bodyReader.myReadState = ReadState.READ_BODY ∧ bodyReader.myPreformatted = false ∧
    ∃ r', characterDataHandler stdEnv bodyReader "  Hello  world ".toList = some r' ∧
      r'.myModelReader =
        bodyReader.myModelReader ++
          [SinkEvent.beginParagraph, SinkEvent.addData "Hello  world ".toList] ∧
      r'.myCurrentParagraphIsEmpty = false ∧ r'.myNewParagraphInProgress = false := by
  obtain ⟨r', kept, h1, h2, _, h4⟩ :=
    plain_character_data stdEnv bodyReader "  Hello  world ".toList (by decide) (by decide)
      (by decide)
  have hk : kept = "Hello  world ".toList := by rw [h2]; decide
  subst hk
  obtain ⟨h5, h6, h7⟩ := h4 (by decide)
  refine ⟨by decide, by decide, by decide, r', h1, ?_, h6, h7⟩
  rw [h5]
  decide

/-- C12. For every engine state and every anchor start whose `href` is present and
non-empty, is classified `INTERNAL_HYPERLINK` and whose decoded form begins with
`#`: the hyperlink kind is pushed, the hyperlink-open control sent to the sink
carries the target `myReferenceAlias ++ decoded href`, followed only by the label
of a `name` attribute if there is one, and the alias map `myFileNumbers` is left
as it was (the sink output does not depend on it). -/
theorem intra_file_hyperlink_target (env : Env) (r : XHTMLReader) (xmlattributes : Attributes)
    (c : Char) (cs : Str)
    (hhref : attributeValue xmlattributes "href".toList = some (c :: cs))
    (hkind : env.referenceType (c :: cs) = FBTextKind.INTERNAL_HYPERLINK)
    (hhash : (env.decodeHtmlURL (c :: cs)).head? = some '#') :
    (hyperlinkDoAtStart env r xmlattributes).myModelReader =
        r.myModelReader ++
          SinkEvent.addHyperlinkControl FBTextKind.INTERNAL_HYPERLINK
              (r.myReferenceAlias ++ env.decodeHtmlURL (c :: cs)) ::
            ((attributeValue xmlattributes "name".toList).map (fun name =>
              SinkEvent.addHyperlinkLabel
                (r.myReferenceAlias ++ HASH ++ env.decodeHtmlURL name))).toList ∧
      (hyperlinkDoAtStart env r xmlattributes).myFileNumbers = r.myFileNumbers ∧
      (hyperlinkDoAtStart env r xmlattributes).myHyperlinkStack =
        FBTextKind.INTERNAL_HYPERLINK :: r.myHyperlinkStack ∧
      ∀ m, (hyperlinkDoAtStart env { r with myFileNumbers := m } xmlattributes).myModelReader =
        (hyperlinkDoAtStart env r xmlattributes).myModelReader := by
  simp only [hyperlinkDoAtStart, hhref, hkind, hhash, if_true]
  cases attributeValue xmlattributes "name".toList <;> simp [XHTMLReader.emit]

theorem intra_file_hyperlink_target_witness :
    attributeValue [("href".toList, "#sec1".toList)] "href".toList = some ('#' :: "sec1".toList) ∧
    stdEnv.referenceType ('#' :: "sec1".toList) = FBTextKind.INTERNAL_HYPERLINK ∧
    (stdEnv.decodeHtmlURL ('#' :: "sec1".toList)).head? = some '#' ∧
    (hyperlinkDoAtStart stdEnv { bodyReader with myReferenceAlias := "3".toList }
        [("href".toList, "#sec1".toList)]).myModelReader =
      bodyReader.myModelReader ++
        [SinkEvent.addHyperlinkControl FBTextKind.INTERNAL_HYPERLINK "3#sec1".toList] :=
  ⟨by decide, by decide, by decide,
    (intra_file_hyperlink_target stdEnv { bodyReader with myReferenceAlias := "3".toList }
      [("href".toList, "#sec1".toList)] '#' "sec1".toList (by decide) (by decide)
      (by decide)).1⟩

/-- C13. For every engine state and every image action (`img`, `object`, svg
`image`): when the source attribute is absent, or the file it resolves to does not
exist, the action at start returns the state it was given, so nothing is sent to
the sink and no member changes, `myCurrentParagraphIsEmpty` and
`myMarkNextImageAsCover` included. -/
theorem missing_image_is_skipped (env : Env) (r : XHTMLReader) (p : ImagePredicate)
    (xmlattributes : Attributes)
    (hmissing : imageFileName env r p xmlattributes = none ∨
      ∃ fileName, imageFileName env r p xmlattributes = some fileName ∧
        env.fileExists (r.myPathPrefix ++ env.decodeHtmlURL fileName) = false) :
    imageDoAtStart env r p xmlattributes = some r ∧
      XHTMLTagAction.doAtStart env (XHTMLTagAction.Image p) r xmlattributes = some r := by
  have h : imageDoAtStart env r p xmlattributes = some r := by
    rcases hmissing with h | ⟨fileName, h1, h2⟩
    · simp [imageDoAtStart, h]
    · simp [imageDoAtStart, h1, h2]
  exact ⟨h, h⟩

theorem missing_image_is_skipped_witness :
    (imageFileName stdEnv bodyReader (ImagePredicate.simple "src".toList)
        [("src".toList, "pic.png".toList)] = none ∨
      ∃ fileName, imageFileName stdEnv bodyReader (ImagePredicate.simple "src".toList)
          [("src".toList, "pic.png".toList)] = some fileName ∧
        stdEnv.fileExists (bodyReader.myPathPrefix ++ stdEnv.decodeHtmlURL fileName) = false) ∧
    (imageDoAtStart stdEnv bodyReader (ImagePredicate.simple "src".toList)
        [("src".toList, "pic.png".toList)] = some bodyReader ∧
      XHTMLTagAction.doAtStart stdEnv (XHTMLTagAction.Image (ImagePredicate.simple "src".toList))
        bodyReader [("src".toList, "pic.png".toList)] = some bodyReader) :=
  ⟨Or.inr ⟨"pic.png".toList, by decide, by decide⟩,
    missing_image_is_skipped stdEnv bodyReader _ _
      (Or.inr ⟨"pic.png".toList, by decide, by decide⟩)⟩

/-- C19 (amended). For every engine state whose read state is `READ_NOTHING`, the
style action at start with attribute `type` equal to `text/css` sets the read
state to `READ_STYLE` and installs a style-table parser, changing nothing else;
in the read states `READ_BODY` and `READ_STYLE` it changes nothing. -/
theorem style_start_enters_style_from_nothing (r : XHTMLReader) (xmlattributes : Attributes)
    (htype : attributeValue xmlattributes "type".toList = some TYPE) :
    (r.myReadState = ReadState.READ_NOTHING →
      styleDoAtStart r xmlattributes =
        { r with myReadState := ReadState.READ_STYLE, myTableParser := some [] }) ∧
    (r.myReadState ≠ ReadState.READ_NOTHING → styleDoAtStart r xmlattributes = r) := by
  unfold styleDoAtStart
  rw [htype]
  constructor
  · intro h
    simp [h]
  · intro h
    simp [h]

theorem style_start_enters_style_from_nothing_witness :
    attributeValue [("type".toList, "text/css".toList)] "type".toList = some TYPE ∧
    freshReader.myReadState = ReadState.READ_NOTHING ∧
    (styleDoAtStart freshReader [("type".toList, "text/css".toList)]).myReadState =
      ReadState.READ_STYLE ∧
    (styleDoAtStart freshReader [("type".toList, "text/css".toList)]).myTableParser = some [] ∧
    bodyReader.myReadState ≠ ReadState.READ_NOTHING ∧
    styleDoAtStart bodyReader [("type".toList, "text/css".toList)] = bodyReader :=
  ⟨by decide, by decide,
    by rw [(style_start_enters_style_from_nothing freshReader _ (by decide)).1 (by decide)],
    by rw [(style_start_enters_style_from_nothing freshReader _ (by decide)).1 (by decide)],
    by decide,
    (style_start_enters_style_from_nothing bodyReader _ (by decide)).2 (by decide)⟩

/-- C19 fails as stated: in the read state `READ_BODY` (a reader right after the
start of `body`) the style action at start with `type="text/css"` keeps the read
state `READ_BODY` and installs no parser. -/
theorem style_start_in_body_is_ignored :
    bodyReader.myReadState = ReadState.READ_BODY ∧
    (styleDoAtStart bodyReader [("type".toList, "text/css".toList)]).myReadState =
      ReadState.READ_BODY ∧
    (styleDoAtStart bodyReader [("type".toList, "text/css".toList)]).myTableParser = none := by
  decide

theorem pushStyleEntries_eq (env : Env) (r : XHTMLReader) (sTag sClass : Str)
    (attrs : Attributes) :
    pushStyleEntries env r sTag sClass attrs =
      { r with
        myModelReader := r.myModelReader ++
          (elementDirectives env r.myStyleSheetTable sTag sClass attrs).map
            SinkEvent.addStyleEntry,
        myStyleEntryStack :=
          (elementDirectives env r.myStyleSheetTable sTag sClass attrs).reverse ++
            r.myStyleEntryStack } := by
  unfold pushStyleEntries elementDirectives addInlineStyle XHTMLReader.addStyleEntry
  cases h1 : r.myStyleSheetTable.control sTag [] <;>
    cases h2 : r.myStyleSheetTable.control [] sClass <;>
    cases h3 : r.myStyleSheetTable.control sTag sClass <;>
    cases h4 : attributeValue attrs "style".toList <;>
    simp [XHTMLReader.emit, h1, h2, h3, h4]

theorem getAction_of_lookup (env : Env) (tag : Str) (a : XHTMLTagAction)
    (h : ourTagActions.lookup (env.toLower tag) = some a) : getAction env tag = some a := by
  simp only [getAction, h]

theorem startElementOpening_eq (r : XHTMLReader) (sTag sClass : Str) (attrs : Attributes) :
    startElementOpening r sTag sClass attrs =
      { r with
        myModelReader := r.myModelReader ++
          (((attributeValue attrs "id".toList).map (fun id =>
              SinkEvent.addHyperlinkLabel (r.myReferenceAlias ++ HASH ++ id))).toList ++
            (if r.myStyleSheetTable.doBreakBefore sTag sClass then
              [SinkEvent.insertEndOfSectionParagraph] else [])),
        myDoPageBreakAfterStack :=
          r.myStyleSheetTable.doBreakAfter sTag sClass :: r.myDoPageBreakAfterStack } := by
  unfold startElementOpening
  cases attributeValue attrs "id".toList <;>
    by_cases h : r.myStyleSheetTable.doBreakBefore sTag sClass = true <;>
    simp [XHTMLReader.emit, h]

/-- The state `startElementHandler` returns, from the state `r4` its tag action
returned. -/
theorem startElementHandler_eq (env : Env) (r r4 : XHTMLReader) (tag : Str)
    (attrs : Attributes)
    (h : invokeAtStart env (getAction env (env.toLower tag))
      (startElementOpening r (env.toLower tag)
        ((attributeValue attrs "class".toList).getD []) attrs) attrs = some r4) :
    startElementHandler env r tag attrs =
      some { r4 with
        myModelReader := r4.myModelReader ++
          (elementDirectives env r4.myStyleSheetTable (env.toLower tag)
            ((attributeValue attrs "class".toList).getD []) attrs).map SinkEvent.addStyleEntry,
        myStyleEntryStack :=
          (elementDirectives env r4.myStyleSheetTable (env.toLower tag)
            ((attributeValue attrs "class".toList).getD []) attrs).reverse ++
            r4.myStyleEntryStack,
        myCSSStack :=
          (elementDirectives env r4.myStyleSheetTable (env.toLower tag)
            ((attributeValue attrs "class".toList).getD []) attrs).length :: r4.myCSSStack } := by
  unfold startElementHandler
  simp only [h, Option.map_some', pushStyleEntries_eq]
  simp

theorem lookup_p : ourTagActions.lookup "p".toList = some XHTMLTagAction.Paragraph := by decide
theorem lookup_b :
    ourTagActions.lookup "b".toList = some (XHTMLTagAction.Control FBTextKind.BOLD) := by decide

/-- C11. In every engine state reading the body, not preformatted, with no new
paragraph in progress, no active style entry, nothing slated for removal and an
empty style table, and with a sink on which a paragraph is open exactly between a
begin and the next end, the callbacks of `<p>Hello <b>world</b></p>` are all
defined and send to the sink exactly: paragraph begin, text `Hello ` (trailing
space kept), the kind push and the `BOLD` open control, text `world`, the `BOLD`
close control and the kind pop, paragraph end. Apart from the kind-stack
bookkeeping these are the six calls begin, `Hello `, `BOLD` open, `world`, `BOLD`
close, end. -/
theorem hello_world_trace (env : Env) (r : XHTMLReader)
    (htp : env.toLower "p".toList = "p".toList) (htb : env.toLower "b".toList = "b".toList)
    (hsink : env.paragraphIsOpen = sinkParagraphIsOpen)
    (hbody : r.myReadState = ReadState.READ_BODY) (hpre : r.myPreformatted = false)
    (hnew : r.myNewParagraphInProgress = false)
    (hstack : r.myStyleEntryStack = []) (hrem : r.myStylesToRemove = 0)
    (hcontrol : ∀ t c, r.myStyleSheetTable.control t c = none)
    (hbefore : ∀ t c, r.myStyleSheetTable.doBreakBefore t c = false)
    (hafter : ∀ t c, r.myStyleSheetTable.doBreakAfter t c = false) :
    ∃ r', runEvents env r helloWorldEvents = some r' ∧
      r'.myModelReader =
        r.myModelReader ++
          [SinkEvent.beginParagraph, SinkEvent.addData "Hello ".toList,
            SinkEvent.pushKind FBTextKind.BOLD, SinkEvent.addControl FBTextKind.BOLD true,
            SinkEvent.addData "world".toList,
            SinkEvent.addControl FBTextKind.BOLD false, SinkEvent.popKind,
            SinkEvent.endParagraph] ∧
      contentCalls
          [SinkEvent.beginParagraph, SinkEvent.addData "Hello ".toList,
            SinkEvent.pushKind FBTextKind.BOLD, SinkEvent.addControl FBTextKind.BOLD true,
            SinkEvent.addData "world".toList,
            SinkEvent.addControl FBTextKind.BOLD false, SinkEvent.popKind,
            SinkEvent.endParagraph] =
        [SinkEvent.beginParagraph, SinkEvent.addData "Hello ".toList,
          SinkEvent.addControl FBTextKind.BOLD true, SinkEvent.addData "world".toList,
          SinkEvent.addControl FBTextKind.BOLD false, SinkEvent.endParagraph] := by
  have gp : getAction env "p".toList = some XHTMLTagAction.Paragraph :=
    getAction_of_lookup env _ _ (by rw [htp]; exact lookup_p)
  have gb : getAction env "b".toList = some (XHTMLTagAction.Control FBTextKind.BOLD) :=
    getAction_of_lookup env _ _ (by rw [htb]; exact lookup_b)
  have hopen : ∀ log : List SinkEvent,
      sinkParagraphIsOpen (log ++ [SinkEvent.beginParagraph]) = true := by
    intro log; simp [sinkParagraphIsOpen]
  have hopen2 : ∀ (log : List SinkEvent) (d : Str),
      sinkParagraphIsOpen (log ++ [SinkEvent.beginParagraph, SinkEvent.addData d,
        SinkEvent.pushKind FBTextKind.BOLD, SinkEvent.addControl FBTextKind.BOLD true]) = true := by
    intro log d; simp [sinkParagraphIsOpen]
  have key : (runEvents env r helloWorldEvents).map XHTMLReader.myModelReader =
      some (r.myModelReader ++
          [SinkEvent.beginParagraph, SinkEvent.addData "Hello ".toList,
            SinkEvent.pushKind FBTextKind.BOLD, SinkEvent.addControl FBTextKind.BOLD true,
            SinkEvent.addData "world".toList,
            SinkEvent.addControl FBTextKind.BOLD false, SinkEvent.popKind,
            SinkEvent.endParagraph]) := by
    have e1 : attributeValue [] "id".toList = none := rfl
    have e2 : attributeValue [] "class".toList = none := rfl
    have e3 : attributeValue [] "style".toList = none := rfl
    have w1 : skipSpaceLoop "Hello ".toList = some "Hello ".toList := by decide
    have w2 : "Hello ".toList.length > 0 := by decide
    have w3 : "world".toList.length > 0 := by decide
    have hopen3 : ∀ (log : List SinkEvent) (d : Str),
        sinkParagraphIsOpen (log ++ [SinkEvent.beginParagraph, SinkEvent.addData d]) = true := by
      intro log d; simp [sinkParagraphIsOpen]
    simp only [helloWorldEvents, runEvents, handleEvent, startElementHandler, htp, htb,
      startElementOpening_eq, e1, e2, e3, gp, gb, invokeAtStart, XHTMLTagAction.doAtStart,
      paragraphDoAtStart, hnew, beginParagraph_eq, hstack, hbefore, hafter, hcontrol,
      Option.map_some', Option.some_bind, pushStyleEntries_eq, elementDirectives,
      Option.getD_none, Option.map_none', Option.toList_none, List.append_nil, beginCalls,
      characterDataHandler, hbody, hpre, hsink, hopen, hopen2, hopen3, w1, w2, w3, hrem, appendCharacterData,
      XHTMLReader.endParagraph, endParagraphPop, endParagraphScan, List.drop_nil, Nat.lt_irrefl,
      List.take_nil, Nat.not_lt_zero, List.drop_zero, List.length_nil, Bool.false_or,
      XHTMLReader.emit, controlDoAtStart, endElementHandler, closeEntriesLoop_eq,
      invokeAtEnd, XHTMLTagAction.doAtEnd, controlDoAtEnd, removeStylesLoop,
      endElementClosing, List.map_nil, List.reverse_nil, List.any_nil, List.length_nil,
      Bool.not_false, Bool.not_true, if_true, if_false, Bool.false_eq_true, List.nil_append,
      Nat.sub_self, List.replicate_zero, Bool.or_false, Bool.or_true, List.append_assoc,
      List.cons_append, List.length_cons, List.length_append]
  obtain ⟨r', h1, h2⟩ := Option.map_eq_some'.mp key
  exact ⟨r', h1, h2, by decide⟩

theorem hello_world_trace_witness :
    stdEnv.toLower "p".toList = "p".toList ∧ stdEnv.toLower "b".toList = "b".toList ∧
    stdEnv.paragraphIsOpen bodyReader.myModelReader = false ∧
    bodyReader.myReadState = ReadState.READ_BODY ∧
    ∃ r', runEvents stdEnv bodyReader helloWorldEvents = some r' ∧
      r'.myModelReader =
        bodyReader.myModelReader ++
          [SinkEvent.beginParagraph, SinkEvent.addData "Hello ".toList,
            SinkEvent.pushKind FBTextKind.BOLD, SinkEvent.addControl FBTextKind.BOLD true,
            SinkEvent.addData "world".toList,
            SinkEvent.addControl FBTextKind.BOLD false, SinkEvent.popKind,
            SinkEvent.endParagraph] := by
  obtain ⟨r', h1, h2, _⟩ := hello_world_trace stdEnv bodyReader (by decide) (by decide) rfl
    (by decide) (by decide) (by decide) (by decide) (by decide) (fun _ _ => rfl)
    (fun _ _ => rfl) (fun _ _ => rfl)
  exact ⟨by decide, by decide, by decide, by decide, r', h1, h2⟩

theorem lookup_h1 :
    ourTagActions.lookup "h1".toList =
      some (XHTMLTagAction.ParagraphWithControl FBTextKind.H1) := by decide

/-- C14 (amended). For every engine state, however many paragraphs the text model
already holds, the start of an `h1` element sends to the sink: the label of an
`id` attribute if any, a section break exactly when the style table asks for a
break before the element, then the kind push and the calls of `beginParagraph`,
then the style directives of the element. Hence without a break-before rule
neither the first nor the second `h1` of a document inserts a section break: the
section break of the heading action is guarded by the kind `TITLE`, which `h1`
does not carry. -/
theorem h1_start_section_break_iff_break_before (env : Env) (r : XHTMLReader)
    (attributes : Attributes) (hlow : env.toLower "h1".toList = "h1".toList) :
    ∃ (r' : XHTMLReader) (styles : List ZLTextStyleEntry),
      startElementHandler env r "h1".toList attributes = some r' ∧
      r'.myModelReader =
        r.myModelReader ++
          openingCalls r "h1".toList ((attributeValue attributes "class".toList).getD [])
            attributes ++
          SinkEvent.pushKind FBTextKind.H1 :: beginCalls r.myStyleEntryStack ++
          styles.map SinkEvent.addStyleEntry ∧
      (SinkEvent.insertEndOfSectionParagraph ∈
          openingCalls r "h1".toList ((attributeValue attributes "class".toList).getD [])
            attributes ++
          SinkEvent.pushKind FBTextKind.H1 :: beginCalls r.myStyleEntryStack ++
          styles.map SinkEvent.addStyleEntry ↔
        r.myStyleSheetTable.doBreakBefore "h1".toList
          ((attributeValue attributes "class".toList).getD []) = true) := by
  have g : getAction env "h1".toList =
      some (XHTMLTagAction.ParagraphWithControl FBTextKind.H1) :=
    getAction_of_lookup env _ _ (by rw [hlow]; exact lookup_h1)
  have hact : invokeAtStart env (getAction env (env.toLower "h1".toList))
      (startElementOpening r (env.toLower "h1".toList)
        ((attributeValue attributes "class".toList).getD []) attributes) attributes =
      some { r with
        myCurrentParagraphIsEmpty := true,
        myModelReader := r.myModelReader ++
          openingCalls r "h1".toList ((attributeValue attributes "class".toList).getD [])
            attributes ++
          SinkEvent.pushKind FBTextKind.H1 :: beginCalls r.myStyleEntryStack,
        myDoPageBreakAfterStack :=
          r.myStyleSheetTable.doBreakAfter "h1".toList
            ((attributeValue attributes "class".toList).getD []) ::
            r.myDoPageBreakAfterStack } := by
    rw [hlow, g]
    simp only [invokeAtStart, XHTMLTagAction.doAtStart, paragraphWithControlDoAtStart,
      startElementOpening_eq, beginParagraph_eq, XHTMLReader.emit, openingCalls]
    simp
  rw [startElementHandler_eq env r _ _ _ hact]
  refine ⟨_, elementDirectives env r.myStyleSheetTable (env.toLower "h1".toList)
    ((attributeValue attributes "class".toList).getD []) attributes, rfl, ?_, ?_⟩
  · simp only [List.append_assoc, List.cons_append]
  · have hb : SinkEvent.insertEndOfSectionParagraph ∉ beginCalls r.myStyleEntryStack := by
      unfold beginCalls; split_ifs <;> simp
    simp only [List.mem_append, List.mem_cons, List.mem_map, reduceCtorEq, false_or, hb,
      and_false, exists_false, or_false, openingCalls, Option.mem_toList]
    constructor
    · rintro (h | h)
      · cases hid : attributeValue attributes "id".toList <;> simp [hid] at h
      · split_ifs at h with hc
        · exact hc
        · simp at h
    · intro h
      right
      rw [if_pos h]
      exact List.mem_singleton.mpr rfl

theorem h1_start_section_break_iff_break_before_witness :
    stdEnv.toLower "h1".toList = "h1".toList ∧
    ∃ (r' : XHTMLReader) (styles : List ZLTextStyleEntry),
      startElementHandler stdEnv bodyReader "h1".toList [] = some r' ∧
      r'.myModelReader =
        bodyReader.myModelReader ++
          openingCalls bodyReader "h1".toList ((attributeValue [] "class".toList).getD []) [] ++
          SinkEvent.pushKind FBTextKind.H1 :: beginCalls bodyReader.myStyleEntryStack ++
          styles.map SinkEvent.addStyleEntry ∧
      (SinkEvent.insertEndOfSectionParagraph ∈
          openingCalls bodyReader "h1".toList ((attributeValue [] "class".toList).getD []) [] ++
          SinkEvent.pushKind FBTextKind.H1 :: beginCalls bodyReader.myStyleEntryStack ++
          styles.map SinkEvent.addStyleEntry ↔
        bodyReader.myStyleSheetTable.doBreakBefore "h1".toList
          ((attributeValue [] "class".toList).getD []) = true) :=
  ⟨by decide, h1_start_section_break_iff_break_before stdEnv bodyReader [] (by decide)⟩

/-- C14 fails as stated: in `<h1>A</h1><h1>B</h1>` the second `h1` starts when the
text model holds the one paragraph of the first heading, and the sink receives no
section break at all; the same holds after a leading `<p>x</p>`, when the text
model already holds two paragraphs. -/
theorem second_h1_inserts_no_section_break :
    (runEvents stdEnv bodyReader twoHeadingsEvents).map XHTMLReader.myModelReader =
      some (bodyReader.myModelReader ++
        [SinkEvent.pushKind FBTextKind.H1, SinkEvent.beginParagraph,
          SinkEvent.addData "A".toList, SinkEvent.endParagraph, SinkEvent.popKind,
          SinkEvent.pushKind FBTextKind.H1, SinkEvent.beginParagraph,
          SinkEvent.addData "B".toList, SinkEvent.endParagraph, SinkEvent.popKind]) ∧
    (runEvents stdEnv bodyReader (oneParagraphEvents ++ twoHeadingsEvents)).map
        XHTMLReader.myModelReader =
      some (bodyReader.myModelReader ++
        [SinkEvent.beginParagraph, SinkEvent.addData "x".toList, SinkEvent.endParagraph,
          SinkEvent.pushKind FBTextKind.H1, SinkEvent.beginParagraph,
          SinkEvent.addData "A".toList, SinkEvent.endParagraph, SinkEvent.popKind,
          SinkEvent.pushKind FBTextKind.H1, SinkEvent.beginParagraph,
          SinkEvent.addData "B".toList, SinkEvent.endParagraph, SinkEvent.popKind]) ∧
    (runEvents stdEnv bodyReader (oneParagraphEvents ++ twoHeadingsEvents.take 3)).map
        (fun r => stdEnv.paragraphsNumber r.myModelReader) = some 2 := by
  decide

theorem invokeAtStart_frame (env : Env) (action : Option XHTMLTagAction) (r : XHTMLReader)
    (attrs : Attributes) (h0 : r.myStylesToRemove = 0) :
    ∃ r', invokeAtStart env action r attrs = some r' ∧
      r'.myCSSStack = r.myCSSStack ∧ r'.myStyleEntryStack = r.myStyleEntryStack ∧
      r'.myStylesToRemove = 0 := by
  cases action with
  | none => exact ⟨r, rfl, rfl, rfl, h0⟩
  | some a =>
    obtain ⟨r', h1, h2, h3, h4, _⟩ := doAtStart_frame env a r attrs h0
    exact ⟨r', h1, h2, h3, h4⟩

/-- C17 (amended). In `startElementHandler`, in every state between handler calls
(`myStylesToRemove = 0`): the tag action is located and its `doAtStart` is invoked
on a state whose style stack is still the one before the element, and returns
with that stack unchanged; only then the directives for `(tag, "")`, `("", class)`,
`(tag, class)` and the inline `style` attribute are looked up, in that order, sent
to the sink and pushed on the style stack, and their number is recorded on
`myCSSStack`. -/
theorem directives_pushed_after_onStart (env : Env) (r : XHTMLReader) (tag : Str)
    (attributes : Attributes) (h0 : r.myStylesToRemove = 0) :
    ∃ r4 r',
      (startElementOpening r (env.toLower tag)
        ((attributeValue attributes "class".toList).getD []) attributes).myStyleEntryStack =
        r.myStyleEntryStack ∧
      invokeAtStart env (getAction env (env.toLower tag))
        (startElementOpening r (env.toLower tag)
          ((attributeValue attributes "class".toList).getD []) attributes) attributes =
        some r4 ∧
      r4.myStyleEntryStack = r.myStyleEntryStack ∧
      startElementHandler env r tag attributes = some r' ∧
      r'.myModelReader =
        r4.myModelReader ++
          (elementDirectives env r4.myStyleSheetTable (env.toLower tag)
            ((attributeValue attributes "class".toList).getD []) attributes).map
            SinkEvent.addStyleEntry ∧
      r'.myStyleEntryStack =
        (elementDirectives env r4.myStyleSheetTable (env.toLower tag)
          ((attributeValue attributes "class".toList).getD []) attributes).reverse ++
          r.myStyleEntryStack ∧
      r'.myCSSStack =
        (elementDirectives env r4.myStyleSheetTable (env.toLower tag)
          ((attributeValue attributes "class".toList).getD []) attributes).length ::
          r.myCSSStack := by
  obtain ⟨c3, s3, m3, _, _⟩ := startElementOpening_frame r (env.toLower tag)
    ((attributeValue attributes "class".toList).getD []) attributes
  obtain ⟨r4, h1, h2, h3, _⟩ := invokeAtStart_frame env (getAction env (env.toLower tag))
    (startElementOpening r (env.toLower tag)
      ((attributeValue attributes "class".toList).getD []) attributes) attributes
    (m3.trans h0)
  refine ⟨r4, _, s3, h1, h3.trans s3, startElementHandler_eq env r r4 tag attributes h1, rfl,
    ?_, ?_⟩
  · simp only [h3, s3]
  · simp only [h2, c3]

theorem directives_pushed_after_onStart_witness :
    bodyReader.myStylesToRemove = 0 ∧
    ∃ r4 r',
      invokeAtStart stdEnv (getAction stdEnv (stdEnv.toLower "P".toList))
        (startElementOpening bodyReader (stdEnv.toLower "P".toList)
          ((attributeValue [("style".toList, "margin:0".toList)] "class".toList).getD [])
          [("style".toList, "margin:0".toList)]) [("style".toList, "margin:0".toList)] =
        some r4 ∧
      r4.myStyleEntryStack = bodyReader.myStyleEntryStack ∧
      startElementHandler stdEnv bodyReader "P".toList [("style".toList, "margin:0".toList)] =
        some r' ∧
      r'.myStyleEntryStack =
        (elementDirectives stdEnv r4.myStyleSheetTable (stdEnv.toLower "P".toList)
          ((attributeValue [("style".toList, "margin:0".toList)] "class".toList).getD [])
          [("style".toList, "margin:0".toList)]).reverse ++ bodyReader.myStyleEntryStack := by
  obtain ⟨r4, r', _, h2, h3, h4, _, h6, _⟩ :=
    directives_pushed_after_onStart stdEnv bodyReader "P".toList
      [("style".toList, "margin:0".toList)] (by decide)
  exact ⟨by decide, r4, r', h2, h3, h4, h6⟩

/-- C17 fails as stated: for `<p style="margin:0">` in a reader right after the
start of `body`, the paragraph action runs on an empty style stack (it begins the
paragraph without replaying any entry) and the entry of the inline style reaches
the sink and the stack only afterwards. -/
theorem inline_style_pushed_after_paragraph_begin :
    (invokeAtStart stdEnv (getAction stdEnv (stdEnv.toLower "p".toList))
        (startElementOpening bodyReader (stdEnv.toLower "p".toList) []
          [("style".toList, "margin:0".toList)])
        [("style".toList, "margin:0".toList)]).map
      (fun r => (r.myModelReader, r.myStyleEntryStack)) =
      some (bodyReader.myModelReader ++ [SinkEvent.beginParagraph], []) ∧
    (startElementHandler stdEnv bodyReader "p".toList
        [("style".toList, "margin:0".toList)]).map
      (fun r => (r.myModelReader, r.myStyleEntryStack)) =
      some (bodyReader.myModelReader ++
          [SinkEvent.beginParagraph,
            SinkEvent.addStyleEntry { entryKind := 1, supported := [], payload := 8 }],
        [{ entryKind := 1, supported := [], payload := 8 }]) := by
  decide

/-- The state `endElementHandler` returns, from the state `r3` its tag action
returned. -/
theorem endElementHandler_eq (env : Env) (r r3 : XHTMLReader) (tag : Str) (n : Nat)
    (rest : List Nat) (b : Bool) (others : List Bool)
    (hcss : r.myCSSStack = n :: rest)
    (hact : invokeAtEnd (getAction env tag)
      { r with
        myModelReader := r.myModelReader ++ List.replicate n SinkEvent.addStyleCloseEntry,
        myStylesToRemove := n, myCSSStack := rest } = some r3)
    (hle : r3.myStylesToRemove ≤ r3.myStyleEntryStack.length)
    (hpb : r3.myDoPageBreakAfterStack = b :: others) :
    endElementHandler env r tag =
      some { r3 with
        myStyleEntryStack := r3.myStyleEntryStack.drop r3.myStylesToRemove,
        myStylesToRemove := 0,
        myModelReader := r3.myModelReader ++
          (if b then [SinkEvent.insertEndOfSectionParagraph] else []),
        myDoPageBreakAfterStack := others } := by
  unfold endElementHandler
  rw [hcss]
  simp only [closeEntriesLoop_eq, hact, Option.some_bind]
  rw [removeStylesLoop_eq _ _ hle]
  simp only [Option.some_bind, endElementClosing, hpb]
  by_cases hb : b = true <;> simp [hb, XHTMLReader.emit]

/-- C16. For an element whose recorded push count `n` is on top of `myCSSStack`
(with at least `n` style entries, its page-break flag `b` on top of
`myDoPageBreakAfterStack` and, for an anchor, a kind on the hyperlink stack), the
end handler is defined and works in this order: it sends `n` style close markers;
it invokes the tag action at end (nothing when the tag has no action) on a state
whose style stack still holds all entries, and the action sends `onEnd`, which
holds no close marker; it removes the `n` entries; it sends one section break as
the last call exactly when `b` is set. -/
theorem element_end_order (env : Env) (r : XHTMLReader) (tag : Str) (n : Nat)
    (rest : List Nat) (b : Bool) (others : List Bool)
    (hcss : r.myCSSStack = n :: rest)
    (hle : n ≤ r.myStyleEntryStack.length)
    (hpb : r.myDoPageBreakAfterStack = b :: others)
    (hhl : getAction env tag = some XHTMLTagAction.Hyperlink → r.myHyperlinkStack ≠ []) :
    ∃ r3 r' onEnd,
      invokeAtEnd (getAction env tag)
        { r with
          myModelReader := r.myModelReader ++ List.replicate n SinkEvent.addStyleCloseEntry,
          myStylesToRemove := n, myCSSStack := rest } = some r3 ∧
      r3.myModelReader =
        r.myModelReader ++ List.replicate n SinkEvent.addStyleCloseEntry ++ onEnd ∧
      closeCount onEnd = 0 ∧
      (getAction env tag = none → onEnd = []) ∧
      endElementHandler env r tag = some r' ∧
      r'.myModelReader =
        r.myModelReader ++ List.replicate n SinkEvent.addStyleCloseEntry ++ onEnd ++
          (if b then [SinkEvent.insertEndOfSectionParagraph] else []) ∧
      r'.myStyleEntryStack = r.myStyleEntryStack.drop n ∧
      r'.myCSSStack = rest ∧ r'.myDoPageBreakAfterStack = others := by
  obtain ⟨r3, h1, h2, h3, h4, h5, ⟨out, h6, hc⟩, _⟩ := invokeAtEnd_frame (getAction env tag)
    { r with
      myModelReader := r.myModelReader ++ List.replicate n SinkEvent.addStyleCloseEntry,
      myStylesToRemove := n, myCSSStack := rest } (by simpa using hle) (by simpa using hhl)
  simp only [] at h2 h3 h5 h6
  have hnone : getAction env tag = none → out = [] := by
    intro hg
    rw [hg] at h1
    simp only [invokeAtEnd, Option.some.injEq] at h1
    subst h1
    simpa using h6
  rw [endElementHandler_eq env r r3 tag n rest b others hcss h1 h4 (h3.trans hpb)]
  exact ⟨r3, _, out, h1, h6, hc, hnone, rfl, by simp only [h6], h5, h2, rfl⟩

theorem element_end_order_witness :
    (∃ s, runEvents stdEnv bodyReader
        [XMLEvent.startElement "p".toList [("style".toList, "margin:0".toList)],
          XMLEvent.characterData "x".toList] = some s ∧
      s.myCSSStack = 1 :: bodyReader.myCSSStack ∧ 1 ≤ s.myStyleEntryStack.length ∧
      s.myDoPageBreakAfterStack = false :: bodyReader.myDoPageBreakAfterStack ∧
      ∃ r', endElementHandler stdEnv s "p".toList = some r' ∧
        r'.myModelReader =
          s.myModelReader ++
            [SinkEvent.addStyleCloseEntry,
              SinkEvent.addStyleEntry { entryKind := 1, supported := [], payload := 8 },
              SinkEvent.endParagraph]) := by
  have hs : ∃ s, runEvents stdEnv bodyReader
      [XMLEvent.startElement "p".toList [("style".toList, "margin:0".toList)],
        XMLEvent.characterData "x".toList] = some s ∧
      s.myCSSStack = 1 :: bodyReader.myCSSStack ∧
      s.myStyleEntryStack = [{ entryKind := 1, supported := [], payload := 8 }] ∧
      s.myDoPageBreakAfterStack = false :: bodyReader.myDoPageBreakAfterStack ∧
      s.myHyperlinkStack = [] := by
    have h : (runEvents stdEnv bodyReader
        [XMLEvent.startElement "p".toList [("style".toList, "margin:0".toList)],
          XMLEvent.characterData "x".toList]).map
        (fun s => (s.myCSSStack, s.myStyleEntryStack, s.myDoPageBreakAfterStack,
          s.myHyperlinkStack)) =
        some (1 :: bodyReader.myCSSStack,
          [{ entryKind := 1, supported := [], payload := 8 }],
          false :: bodyReader.myDoPageBreakAfterStack, []) := by decide
    obtain ⟨s, h1, h2⟩ := Option.map_eq_some'.mp h
    simp only [Prod.mk.injEq] at h2
    exact ⟨s, h1, h2.1, h2.2.1, h2.2.2.1, h2.2.2.2⟩
  obtain ⟨s, h1, h2, h3, h4, h5⟩ := hs
  obtain ⟨r3, r', onEnd, e1, e2, _, _, e5, e6, _⟩ :=
    element_end_order stdEnv s "p".toList 1 bodyReader.myCSSStack false
      bodyReader.myDoPageBreakAfterStack h2 (by rw [h3]; decide) h4
      (fun h => absurd h (by decide))
  refine ⟨s, h1, h2, by rw [h3]; decide, h4, r', e5, ?_⟩
  have ga : getAction stdEnv "p".toList = some XHTMLTagAction.Paragraph := by decide
  rw [ga] at e1
  simp only [invokeAtEnd, XHTMLTagAction.doAtEnd] at e1
  rw [endParagraph_eq _ (by simp [h3])] at e1
  simp only [Option.map_some', Option.some.injEq] at e1
  subst e1
  simp only [h3] at e2
  have : onEnd = [SinkEvent.addStyleEntry { entryKind := 1, supported := [], payload := 8 },
      SinkEvent.endParagraph] := by
    have e3 := e2
    simp only [endCalls, List.append_assoc, List.append_cancel_left_eq] at e3
    rw [← e3]
    decide
  rw [e6, this]
  simp

/-- A well-nested run leaves the four stacks as they were. -/
theorem balanced_run_keeps_stacks (env : Env)
    (hlow : ∀ t, env.toLower (env.toLower t) = env.toLower t)
    (r : XHTMLReader) (body : List XMLEvent) (h0 : r.myStylesToRemove = 0)
    (hbody : openTags [] body = some []) :
    ∃ r', runEvents env r body = some r' ∧ r'.myCSSStack = r.myCSSStack ∧
      r'.myStyleEntryStack = r.myStyleEntryStack ∧
      r'.myDoPageBreakAfterStack = r.myDoPageBreakAfterStack ∧
      r'.myHyperlinkStack = r.myHyperlinkStack ∧ r'.myStylesToRemove = 0 := by
  obtain ⟨s2, hs2, ⟨counts, entries, h1, h2, h3, h4⟩, hrem, ⟨flags, h5, h6⟩, ⟨kinds, h7, h8⟩⟩ :=
    frame_run env hlow r body r [] [] (frame_refl env r h0) hbody
  have hcounts : counts = [] := List.length_eq_zero.mp (by simpa using h4)
  have hflags : flags = [] := List.length_eq_zero.mp (by simpa using h6)
  have hkinds : kinds = [] := List.length_eq_zero.mp (by simpa [hyperlinkDepth] using h8)
  subst hcounts hflags hkinds
  have hentries : entries = [] := List.length_eq_zero.mp (by simpa using h3.symm)
  subst hentries
  exact ⟨s2, hs2, by simpa using h1, by simpa using h2, by simpa using h5, by simpa using h7,
    hrem⟩

/-- An element with well-nested content, run from a state between handler calls:
all three handlers are defined and the four stacks come back to their values. -/
theorem element_roundtrip (env : Env)
    (hlow : ∀ t, env.toLower (env.toLower t) = env.toLower t)
    (r : XHTMLReader) (tag : Str) (attrs : Attributes) (body : List XMLEvent)
    (h0 : r.myStylesToRemove = 0) (hbody : openTags [] body = some []) :
    ∃ s1 s2 s3,
      startElementHandler env r tag attrs = some s1 ∧
      runEvents env s1 body = some s2 ∧
      endElementHandler env s2 tag = some s3 ∧
      s3.myStyleEntryStack = r.myStyleEntryStack ∧ s3.myCSSStack = r.myCSSStack ∧
      s3.myDoPageBreakAfterStack = r.myDoPageBreakAfterStack ∧
      s3.myHyperlinkStack = r.myHyperlinkStack ∧ s3.myStylesToRemove = 0 := by
  obtain ⟨s1, hs1, ⟨pushed, hst, hcs⟩, hrem, ⟨b, hpb⟩, hhl⟩ :=
    startElementHandler_frame env r tag attrs h0
  rw [getAction_toLower env hlow] at hhl
  obtain ⟨s2, hs2, c2, t2, p2, l2, _⟩ := balanced_run_keeps_stacks env hlow s1 body hrem hbody
  obtain ⟨s3, hs3, c3, t3, m3, ⟨b', p3⟩, _, l3⟩ :=
    endElementHandler_frame env s2 tag pushed.length r.myCSSStack (by rw [c2, hcs])
      (by rw [t2, hst]; simp) (by rw [p2, hpb]; simp)
      (by
        intro hg
        rcases hhl with ⟨hne, _⟩ | ⟨_, k, hk⟩
        · exact absurd hg hne
        · rw [l2, hk]; simp)
  refine ⟨s1, s2, s3, hs1, hs2, hs3, ?_, c3, ?_, ?_, m3⟩
  · rw [t3, t2, hst]; simp
  · rw [p2, hpb] at p3
    simp only [List.cons.injEq] at p3
    exact p3.2.symm
  · rcases hhl with ⟨hne, hk⟩ | ⟨he, k, hk⟩
    · rcases l3 with ⟨_, h⟩ | ⟨he2, _⟩
      · rw [h, l2, hk]
      · exact absurd he2 hne
    · rcases l3 with ⟨hne2, _⟩ | ⟨_, k', h⟩
      · exact absurd he hne2
      · rw [l2, hk] at h
        simp only [List.cons.injEq] at h
        exact h.2.symm

/-- C18. First part: in every state satisfying the stack invariant (the counts on
`myCSSStack` add up to the depth of the style stack) inside an open element (a
count `n` and a page-break flag on their stacks and, for an anchor, a kind on the
hyperlink stack), for every tag action, `endElementHandler` is defined, removes
exactly the top `n` entries of the style stack, leaves the entries below unchanged
and in order, and pops exactly one count and one page-break flag. Second part:
from every state between handler calls, after an element start, well-nested
content and the matching end, the style stack, the count stack and the page-break
stack equal their values before the element. The lower-casing function of the
environment is assumed idempotent. -/
theorem stacks_restored_per_element (env : Env)
    (hlow : ∀ t, env.toLower (env.toLower t) = env.toLower t) :
    (∀ (r : XHTMLReader) (tag : Str) (n : Nat) (rest : List Nat),
      r.myCSSStack = n :: rest →
      r.myCSSStack.sum = r.myStyleEntryStack.length →
      r.myDoPageBreakAfterStack ≠ [] →
      (getAction env tag = some XHTMLTagAction.Hyperlink → r.myHyperlinkStack ≠ []) →
      ∃ r', endElementHandler env r tag = some r' ∧
        r.myStyleEntryStack = r.myStyleEntryStack.take n ++ r'.myStyleEntryStack ∧
        (r.myStyleEntryStack.take n).length = n ∧
        r'.myCSSStack = rest ∧
        ∃ b, r.myDoPageBreakAfterStack = b :: r'.myDoPageBreakAfterStack) ∧
    (∀ (r : XHTMLReader) (tag : Str) (attributes : Attributes) (body : List XMLEvent),
      r.myStylesToRemove = 0 → WellNested body →
      ∃ s1 s2 s3,
        startElementHandler env r tag attributes = some s1 ∧
        runEvents env s1 body = some s2 ∧
        endElementHandler env s2 tag = some s3 ∧
        s3.myStyleEntryStack = r.myStyleEntryStack ∧ s3.myCSSStack = r.myCSSStack ∧
        s3.myDoPageBreakAfterStack = r.myDoPageBreakAfterStack) := by
  constructor
  · intro r tag n rest hcss hsum hpb hhl
    have hn : n ≤ r.myStyleEntryStack.length := by
      rw [← hsum, hcss]; simp
    obtain ⟨r', h1, h2, h3, _, h5, _, _⟩ :=
      endElementHandler_frame env r tag n rest hcss hn hpb hhl
    refine ⟨r', h1, ?_, ?_, h2, h5⟩
    · rw [h3, List.take_append_drop]
    · simp [hn]
  · intro r tag attributes body h0 hbody
    obtain ⟨s1, s2, s3, h1, h2, h3, h4, h5, h6, _, _⟩ :=
      element_roundtrip env hlow r tag attributes body h0 hbody
    exact ⟨s1, s2, s3, h1, h2, h3, h4, h5, h6⟩

theorem stacks_restored_per_element_witness :
    (∀ t, stdEnv.toLower (stdEnv.toLower t) = stdEnv.toLower t) ∧
    preReader.myStylesToRemove = 0 ∧
    WellNested [XMLEvent.characterData "Hi ".toList, XMLEvent.startElement "br".toList [],
      XMLEvent.endElement "br".toList, XMLEvent.characterData "x".toList] ∧
    ∃ s1 s2 s3,
      startElementHandler stdEnv preReader "li".toList [("style".toList, "margin:0".toList)] =
        some s1 ∧
      runEvents stdEnv s1 [XMLEvent.characterData "Hi ".toList,
        XMLEvent.startElement "br".toList [], XMLEvent.endElement "br".toList,
        XMLEvent.characterData "x".toList] = some s2 ∧
      endElementHandler stdEnv s2 "li".toList = some s3 ∧
      s3.myStyleEntryStack = preReader.myStyleEntryStack ∧
      s3.myCSSStack = preReader.myCSSStack ∧
      s3.myDoPageBreakAfterStack = preReader.myDoPageBreakAfterStack :=
  ⟨asciiToLower_idem, by decide, by decide,
    (stacks_restored_per_element stdEnv asciiToLower_idem).2 preReader "li".toList
      [("style".toList, "margin:0".toList)] _ (by decide) (by decide)⟩

theorem hyperlinkDoAtStart_facts (env : Env) (r : XHTMLReader) (attrs : Attributes) :
    ∃ target,
      (hyperlinkDoAtStart env r attrs).myHyperlinkStack =
        pushedHyperlinkKind env attrs :: r.myHyperlinkStack ∧
      (hyperlinkDoAtStart env r attrs).myModelReader =
        r.myModelReader ++
          (if hasHref attrs then
            [SinkEvent.addHyperlinkControl (pushedHyperlinkKind env attrs) target] else []) ++
          ((attributeValue attrs "name".toList).map (fun name =>
            SinkEvent.addHyperlinkLabel
              (r.myReferenceAlias ++ HASH ++ env.decodeHtmlURL name))).toList ∧
      (hyperlinkDoAtStart env r attrs).myCSSStack = r.myCSSStack ∧
      (hyperlinkDoAtStart env r attrs).myStyleEntryStack = r.myStyleEntryStack ∧
      (hyperlinkDoAtStart env r attrs).myStylesToRemove = r.myStylesToRemove ∧
      (hyperlinkDoAtStart env r attrs).myDoPageBreakAfterStack = r.myDoPageBreakAfterStack ∧
      (hyperlinkDoAtStart env r attrs).myStyleSheetTable = r.myStyleSheetTable := by
  unfold hyperlinkDoAtStart pushedHyperlinkKind hasHref
  cases hh : attributeValue attrs "href".toList with
  | none =>
    refine ⟨[], ?_⟩
    cases attributeValue attrs "name".toList <;> simp [XHTMLReader.emit]
  | some href =>
    cases href with
    | nil =>
      refine ⟨[], ?_⟩
      cases attributeValue attrs "name".toList <;> simp [XHTMLReader.emit]
    | cons c cs =>
      refine ⟨(if env.referenceType (c :: cs) = FBTextKind.INTERNAL_HYPERLINK then
          if (env.decodeHtmlURL (c :: cs)).head? = some '#' then
            (r.myReferenceAlias ++ env.decodeHtmlURL (c :: cs), r.myFileNumbers)
          else normalizedReference env r.myFileNumbers
            (r.myReferenceDirName ++ env.decodeHtmlURL (c :: cs))
        else (env.decodeHtmlURL (c :: cs), r.myFileNumbers)).1, ?_⟩
      cases attributeValue attrs "name".toList <;> simp [XHTMLReader.emit]

theorem pushedHyperlinkKind_regular_iff (env : Env)
    (hkind : ∀ s, env.referenceType s ≠ FBTextKind.REGULAR) (attrs : Attributes) :
    pushedHyperlinkKind env attrs ≠ FBTextKind.REGULAR ↔ hasHref attrs = true := by
  unfold pushedHyperlinkKind hasHref
  cases attributeValue attrs "href".toList with
  | none => simp
  | some href =>
    cases href with
    | nil => simp
    | cons c cs => simp [hkind]

theorem hyperlinkDoAtEnd_eq (r : XHTMLReader) (k : FBTextKind) (rest : List FBTextKind)
    (h : r.myHyperlinkStack = k :: rest) :
    hyperlinkDoAtEnd r =
      some { r with
        myModelReader := r.myModelReader ++
          (if k ≠ FBTextKind.REGULAR then [SinkEvent.addControl k false] else []),
        myHyperlinkStack := rest } := by
  unfold hyperlinkDoAtEnd
  rw [h]
  by_cases hk : k = FBTextKind.REGULAR <;> simp [hk, XHTMLReader.emit]

/-- C20. An anchor element (a tag that resolves to the hyperlink action) with
well-nested content, nested anchors included, run from any state between handler
calls; the lower-casing function is assumed idempotent and the reference
classifier never to answer `REGULAR`. The start pushes one kind, the reference
type of a present non-empty `href` and `REGULAR` otherwise, and sends a
hyperlink-open control of that kind exactly when the `href` is present and
non-empty. After the content that kind is again on top of the hyperlink stack. The
end pops it and sends, between the style close markers and the section break, a
close control of that same kind exactly when the `href` was present and non-empty,
and nothing otherwise; the hyperlink stack is then the one before the start. -/
theorem hyperlink_close_pairs_with_open (env : Env)
    (hlow : ∀ t, env.toLower (env.toLower t) = env.toLower t)
    (hkind : ∀ s, env.referenceType s ≠ FBTextKind.REGULAR)
    (r : XHTMLReader) (tag : Str) (attributes : Attributes) (body : List XMLEvent)
    (ha : getAction env tag = some XHTMLTagAction.Hyperlink)
    (h0 : r.myStylesToRemove = 0) (hbody : WellNested body) :
    ∃ (s1 s2 s3 : XHTMLReader) (target : Str) (styles : List ZLTextStyleEntry) (b : Bool),
      startElementHandler env r tag attributes = some s1 ∧
      s1.myHyperlinkStack = pushedHyperlinkKind env attributes :: r.myHyperlinkStack ∧
      s1.myModelReader =
        r.myModelReader ++
          openingCalls r (env.toLower tag) ((attributeValue attributes "class".toList).getD [])
            attributes ++
          (if hasHref attributes then
            [SinkEvent.addHyperlinkControl (pushedHyperlinkKind env attributes) target]
           else []) ++
          ((attributeValue attributes "name".toList).map (fun name =>
            SinkEvent.addHyperlinkLabel
              (r.myReferenceAlias ++ HASH ++ env.decodeHtmlURL name))).toList ++
          styles.map SinkEvent.addStyleEntry ∧
      runEvents env s1 body = some s2 ∧
      s2.myHyperlinkStack = pushedHyperlinkKind env attributes :: r.myHyperlinkStack ∧
      endElementHandler env s2 tag = some s3 ∧
      s3.myModelReader =
        s2.myModelReader ++ List.replicate styles.length SinkEvent.addStyleCloseEntry ++
          (if hasHref attributes then
            [SinkEvent.addControl (pushedHyperlinkKind env attributes) false] else []) ++
          (if b then [SinkEvent.insertEndOfSectionParagraph] else []) ∧
      s3.myHyperlinkStack = r.myHyperlinkStack := by
  obtain ⟨r3, hr3⟩ : ∃ r3, r3 = startElementOpening r (env.toLower tag)
      ((attributeValue attributes "class".toList).getD []) attributes := ⟨_, rfl⟩
  have hop := startElementOpening_eq r (env.toLower tag)
    ((attributeValue attributes "class".toList).getD []) attributes
  obtain ⟨c3, t3, m3, ⟨b, p3⟩, l3⟩ := startElementOpening_frame r (env.toLower tag)
    ((attributeValue attributes "class".toList).getD []) attributes
  have hlog3 : r3.myModelReader =
      r.myModelReader ++ openingCalls r (env.toLower tag)
        ((attributeValue attributes "class".toList).getD []) attributes := by
    rw [hr3, hop]; rfl
  have hal : r3.myReferenceAlias = r.myReferenceAlias := by
    rw [hr3, hop]
  rw [← hr3] at c3 t3 m3 p3 l3
  obtain ⟨target, f1, f2, f3, f4, f5, f6, f7⟩ := hyperlinkDoAtStart_facts env r3 attributes
  have hact : invokeAtStart env (getAction env (env.toLower tag)) r3 attributes =
      some (hyperlinkDoAtStart env r3 attributes) := by
    rw [getAction_toLower env hlow, ha]; rfl
  have hs1 := startElementHandler_eq env r (hyperlinkDoAtStart env r3 attributes) tag
    attributes (by rw [← hr3]; exact hact)
  obtain ⟨styles, hstyles⟩ : ∃ styles, styles =
      elementDirectives env (hyperlinkDoAtStart env r3 attributes).myStyleSheetTable
        (env.toLower tag) ((attributeValue attributes "class".toList).getD []) attributes :=
    ⟨_, rfl⟩
  rw [← hstyles] at hs1
  obtain ⟨s1, hs1def⟩ : ∃ s1 : XHTMLReader, s1 =
      { hyperlinkDoAtStart env r3 attributes with
        myModelReader := (hyperlinkDoAtStart env r3 attributes).myModelReader ++
          styles.map SinkEvent.addStyleEntry,
        myStyleEntryStack := styles.reverse ++
          (hyperlinkDoAtStart env r3 attributes).myStyleEntryStack,
        myCSSStack := styles.length :: (hyperlinkDoAtStart env r3 attributes).myCSSStack } :=
    ⟨_, rfl⟩
  rw [← hs1def] at hs1
  have s1hl : s1.myHyperlinkStack = pushedHyperlinkKind env attributes :: r.myHyperlinkStack := by
    rw [hs1def]; simp only [f1, l3]
  have s1rem : s1.myStylesToRemove = 0 := by
    rw [hs1def]; simp only [f5, m3, h0]
  have s1css : s1.myCSSStack = styles.length :: r.myCSSStack := by
    rw [hs1def]; simp only [f3, c3]
  have s1st : s1.myStyleEntryStack = styles.reverse ++ r.myStyleEntryStack := by
    rw [hs1def]; simp only [f4, t3]
  have s1pb : s1.myDoPageBreakAfterStack = b :: r.myDoPageBreakAfterStack := by
    rw [hs1def]; simp only [f6, p3]
  have s1log : s1.myModelReader =
      r.myModelReader ++
          openingCalls r (env.toLower tag) ((attributeValue attributes "class".toList).getD [])
            attributes ++
          (if hasHref attributes then
            [SinkEvent.addHyperlinkControl (pushedHyperlinkKind env attributes) target]
           else []) ++
          ((attributeValue attributes "name".toList).map (fun name =>
            SinkEvent.addHyperlinkLabel
              (r.myReferenceAlias ++ HASH ++ env.decodeHtmlURL name))).toList ++
          styles.map SinkEvent.addStyleEntry := by
    rw [hs1def]; simp only [f2, hlog3, hal, List.append_assoc]
  -- the content
  obtain ⟨s2, hs2, c2, t2, p2, l2, _⟩ := balanced_run_keeps_stacks env hlow s1 body s1rem hbody
  -- the end
  have hend : invokeAtEnd (getAction env tag)
      { s2 with
        myModelReader := s2.myModelReader ++
          List.replicate styles.length SinkEvent.addStyleCloseEntry,
        myStylesToRemove := styles.length, myCSSStack := r.myCSSStack } =
      some { s2 with
        myModelReader := s2.myModelReader ++
          List.replicate styles.length SinkEvent.addStyleCloseEntry ++
          (if pushedHyperlinkKind env attributes ≠ FBTextKind.REGULAR then
            [SinkEvent.addControl (pushedHyperlinkKind env attributes) false] else []),
        myStylesToRemove := styles.length, myCSSStack := r.myCSSStack,
        myHyperlinkStack := r.myHyperlinkStack,
        myNewParagraphInProgress := false } := by
    rw [ha]
    simp only [invokeAtEnd, XHTMLTagAction.doAtEnd]
    rw [hyperlinkDoAtEnd_eq _ (pushedHyperlinkKind env attributes) r.myHyperlinkStack
      (by simp only [l2, s1hl])]
    rfl
  have hs3 := endElementHandler_eq env s2 _ tag styles.length r.myCSSStack b
    r.myDoPageBreakAfterStack (by rw [c2, s1css]) hend
    (by simp only [t2, s1st]; simp) (by simp only [p2, s1pb])
  refine ⟨s1, s2, _, target, styles, b, hs1, s1hl, s1log, hs2, by rw [l2, s1hl], hs3, ?_, rfl⟩
  by_cases hh : hasHref attributes = true
  · have hk := (pushedHyperlinkKind_regular_iff env hkind attributes).mpr hh
    simp only [hh, if_true, hk, ne_eq, not_false_eq_true]
  · have hk : ¬ pushedHyperlinkKind env attributes ≠ FBTextKind.REGULAR := fun h =>
      hh ((pushedHyperlinkKind_regular_iff env hkind attributes).mp h)
    simp only [hh, hk, if_false, Bool.false_eq_true]

theorem coverFlags_append (a b : List SinkEvent) :
    coverFlags (a ++ b) = coverFlags a ++ coverFlags b := by
  induction a with
  | nil => rfl
  | cons e rest ih => cases e <;> simp [coverFlags, ih]

theorem coverFlags_styleEntries (l : List ZLTextStyleEntry) :
    coverFlags (l.map SinkEvent.addStyleEntry) = [] := by
  induction l with
  | nil => rfl
  | cons e rest ih => simp [coverFlags, ih]

theorem coverFlags_replicate_close (n : Nat) :
    coverFlags (List.replicate n SinkEvent.addStyleCloseEntry) = [] := by
  induction n with
  | zero => rfl
  | succ n ih => simp [List.replicate_succ, coverFlags, ih]

theorem coverFlags_cons (e : SinkEvent) (l : List SinkEvent)
    (h : ∀ a b c, e ≠ SinkEvent.addImageReference a b c) :
    coverFlags (e :: l) = coverFlags l := by
  cases e <;> first | rfl | exact absurd rfl (h _ _ _)

theorem coverFlags_single (e : SinkEvent)
    (h : ∀ a b c, e ≠ SinkEvent.addImageReference a b c) : coverFlags [e] = [] :=
  coverFlags_cons e [] h

theorem coverFlags_beginCalls (stack : List ZLTextStyleEntry) :
    coverFlags (beginCalls stack) = [] := by
  unfold beginCalls
  rw [List.cons_append, coverFlags_cons _ _ (by intros; simp), coverFlags_append,
    coverFlags_styleEntries]
  split_ifs
  · exact coverFlags_single _ (by intros; simp)
  · rfl

theorem coverFlags_endCalls (stack : List ZLTextStyleEntry) (n : Nat) :
    coverFlags (endCalls stack n) = [] := by
  unfold endCalls
  rw [coverFlags_append, coverFlags_append, coverFlags_styleEntries,
    coverFlags_single _ (by intros; simp)]
  split_ifs
  · rw [coverFlags_single _ (by intros; simp)]; rfl
  · rfl

theorem Quiet.refl (r : XHTMLReader) : Quiet r r := ⟨[], by simp, rfl, rfl⟩

theorem Quiet.trans {a b c : XHTMLReader} (h1 : Quiet a b) (h2 : Quiet b c) : Quiet a c := by
  obtain ⟨o1, l1, c1, f1⟩ := h1
  obtain ⟨o2, l2, c2, f2⟩ := h2
  exact ⟨o1 ++ o2, by rw [l2, l1, List.append_assoc], by rw [coverFlags_append, c1, c2]; rfl,
    f2.trans f1⟩

theorem Quiet.of_fields {r r' : XHTMLReader} (hl : r'.myModelReader = r.myModelReader)
    (hf : r'.myMarkNextImageAsCover = r.myMarkNextImageAsCover) : Quiet r r' :=
  ⟨[], by simp [hl], rfl, hf⟩

theorem Quiet.of_calls {r r' : XHTMLReader} (out : List SinkEvent)
    (hl : r'.myModelReader = r.myModelReader ++ out) (hc : coverFlags out = [])
    (hf : r'.myMarkNextImageAsCover = r.myMarkNextImageAsCover) : Quiet r r' :=
  ⟨out, hl, hc, hf⟩

theorem quiet_beginParagraph (r : XHTMLReader) : Quiet r r.beginParagraph := by
  rw [beginParagraph_eq]
  exact Quiet.of_calls _ rfl (coverFlags_beginCalls _) rfl

theorem quiet_endParagraph (r r' : XHTMLReader) (h : r.endParagraph = some r') : Quiet r r' := by
  by_cases hle : r.myStylesToRemove ≤ r.myStyleEntryStack.length
  · rw [endParagraph_eq r hle] at h
    simp only [Option.some.injEq] at h
    subst h
    exact Quiet.of_calls _ rfl (coverFlags_endCalls _ _) rfl
  · simp [XHTMLReader.endParagraph, not_le.mp hle] at h

theorem CoverStep.of_quiet {r r' : XHTMLReader} (h : Quiet r r') : CoverStep r r' := by
  obtain ⟨out, hl, hc, hf⟩ := h
  exact ⟨out, hl, Or.inl ⟨hc, hf⟩⟩

theorem CoverStep.chain {a b c : XHTMLReader} (h1 : CoverStep a b) (h2 : CoverStep b c) :
    CoverStep a c := by
  obtain ⟨o1, l1, k1⟩ := h1
  obtain ⟨o2, l2, k2⟩ := h2
  refine ⟨o1 ++ o2, by rw [l2, l1, List.append_assoc], ?_⟩
  rw [coverFlags_append]
  rcases k1 with ⟨c1, f1⟩ | ⟨n1, c1, f1⟩
  · rcases k2 with ⟨c2, f2⟩ | ⟨n2, c2, f2⟩
    · exact Or.inl ⟨by rw [c1, c2]; rfl, f2.trans f1⟩
    · exact Or.inr ⟨n2, by rw [c1, c2, f1]; rfl, f2⟩
  · rcases k2 with ⟨c2, f2⟩ | ⟨n2, c2, f2⟩
    · exact Or.inr ⟨n1, by rw [c1, c2]; simp, f2.trans f1⟩
    · refine Or.inr ⟨n1 + (n2 + 1), ?_, f2⟩
      rw [c1, c2, f1, List.cons_append, List.replicate_add, List.replicate_succ]

theorem quiet_emit (r : XHTMLReader) (e : SinkEvent)
    (h : ∀ a b c, e ≠ SinkEvent.addImageReference a b c) : Quiet r (r.emit e) :=
  Quiet.of_calls [e] rfl (coverFlags_single e h) rfl

theorem quiet_styleDoAtStart (r : XHTMLReader) (attrs : Attributes) :
    Quiet r (styleDoAtStart r attrs) := by
  unfold styleDoAtStart
  split
  · exact Quiet.refl r
  · split_ifs
    · exact Quiet.refl r
    · exact Quiet.of_fields rfl rfl
    · exact Quiet.refl r

theorem quiet_linkDoAtStart (env : Env) (r : XHTMLReader) (attrs : Attributes) :
    Quiet r (linkDoAtStart env r attrs) := by
  refine Quiet.of_fields ?_ ?_
  · simp only [linkDoAtStart]
    repeat' split
    all_goals rfl
  · simp only [linkDoAtStart]
    repeat' split
    all_goals rfl

theorem quiet_hyperlinkDoAtStart (env : Env) (r : XHTMLReader) (attrs : Attributes) :
    Quiet r (hyperlinkDoAtStart env r attrs) := by
  obtain ⟨target, _, h2, _⟩ := hyperlinkDoAtStart_facts env r attrs
  have hf : (hyperlinkDoAtStart env r attrs).myMarkNextImageAsCover =
      r.myMarkNextImageAsCover := by
    unfold hyperlinkDoAtStart
    repeat' split
    all_goals rfl
  refine Quiet.of_calls _ (by rw [h2, List.append_assoc]) ?_ hf
  rw [coverFlags_append]
  have h1 : coverFlags (if hasHref attrs = true then
      [SinkEvent.addHyperlinkControl (pushedHyperlinkKind env attrs) target] else []) = [] := by
    split_ifs
    · exact coverFlags_single _ (by intros; simp)
    · rfl
  rw [h1]
  cases attributeValue attrs "name".toList with
  | none => rfl
  | some name => exact coverFlags_single _ (by intros; simp)

theorem doAtStart_quiet (env : Env) (a : XHTMLTagAction) (r r' : XHTMLReader)
    (attrs : Attributes) (hne : ∀ p, a ≠ XHTMLTagAction.Image p)
    (h : a.doAtStart env r attrs = some r') : Quiet r r' := by
  cases a with
  | Style =>
    simp only [XHTMLTagAction.doAtStart, Option.some.injEq] at h
    subst h; exact quiet_styleDoAtStart r attrs
  | Link =>
    simp only [XHTMLTagAction.doAtStart, Option.some.injEq] at h
    subst h; exact quiet_linkDoAtStart env r attrs
  | Paragraph =>
    simp only [XHTMLTagAction.doAtStart, Option.some.injEq] at h
    subst h
    unfold paragraphDoAtStart
    split_ifs
    · exact (quiet_beginParagraph r).trans (Quiet.of_fields rfl rfl)
    · exact Quiet.refl r
  | Body =>
    simp only [XHTMLTagAction.doAtStart, Option.some.injEq] at h
    subst h
    unfold bodyDoAtStart
    simp only []
    split_ifs <;> exact Quiet.of_fields rfl rfl
  | RestartParagraph =>
    simp only [XHTMLTagAction.doAtStart, restartParagraphDoAtStart, Option.map_eq_some'] at h
    obtain ⟨r2, he, rfl⟩ := h
    have h1 : Quiet r (if r.myCurrentParagraphIsEmpty = true then
        r.emit (SinkEvent.addData [' ']) else r) := by
      split_ifs
      · exact quiet_emit r _ (by intros; simp)
      · exact Quiet.refl r
    exact (h1.trans (quiet_endParagraph _ _ he)).trans (quiet_beginParagraph r2)
  | Image p => exact absurd rfl (hne p)
  | Svg =>
    simp only [XHTMLTagAction.doAtStart, Option.some.injEq] at h
    subst h; exact Quiet.of_fields rfl rfl
  | Item =>
    simp only [XHTMLTagAction.doAtStart, itemDoAtStart, Option.map_eq_some'] at h
    obtain ⟨r2, he, rfl⟩ := h
    exact ((quiet_endParagraph _ _ he).trans (quiet_beginParagraph r2)).trans
      (quiet_emit _ _ (by intros; simp))
  | Hyperlink =>
    simp only [XHTMLTagAction.doAtStart, Option.some.injEq] at h
    subst h; exact quiet_hyperlinkDoAtStart env r attrs
  | Control k =>
    simp only [XHTMLTagAction.doAtStart, Option.some.injEq] at h
    subst h
    exact (quiet_emit r _ (by intros; simp)).trans (quiet_emit _ _ (by intros; simp))
  | ParagraphWithControl k =>
    simp only [XHTMLTagAction.doAtStart, Option.some.injEq] at h
    subst h
    unfold paragraphWithControlDoAtStart
    simp only []
    have h1 : Quiet r (if k = FBTextKind.TITLE ∧ env.paragraphsNumber r.myModelReader > 1 then
        r.emit SinkEvent.insertEndOfSectionParagraph else r) := by
      split_ifs
      · exact quiet_emit r _ (by intros; simp)
      · exact Quiet.refl r
    exact (h1.trans (quiet_emit _ _ (by intros; simp))).trans (quiet_beginParagraph _)
  | Pre =>
    simp only [XHTMLTagAction.doAtStart, Option.some.injEq] at h
    subst h
    unfold preDoAtStart
    have h1 : Quiet r ({ r with myPreformatted := true } : XHTMLReader) :=
      Quiet.of_fields rfl rfl
    exact (h1.trans (quiet_beginParagraph _)).trans
      (quiet_emit _ (SinkEvent.addControl FBTextKind.PREFORMATTED true) (by intros; simp))

theorem doAtEnd_quiet (a : XHTMLTagAction) (r r' : XHTMLReader)
    (h : a.doAtEnd r = some r') : Quiet r r' := by
  cases a with
  | Style =>
    simp only [XHTMLTagAction.doAtEnd, Option.some.injEq] at h
    subst h
    unfold styleDoAtEnd
    split_ifs
    · exact Quiet.of_fields rfl rfl
    · exact Quiet.refl r
  | Link =>
    simp only [XHTMLTagAction.doAtEnd, Option.some.injEq] at h
    subst h; exact Quiet.refl r
  | Paragraph => exact quiet_endParagraph r r' h
  | Body =>
    simp only [XHTMLTagAction.doAtEnd, bodyDoAtEnd, Option.map_eq_some'] at h
    obtain ⟨r2, he, rfl⟩ := h
    refine (quiet_endParagraph _ _ he).trans ?_
    split_ifs <;> exact Quiet.of_fields rfl rfl
  | RestartParagraph =>
    simp only [XHTMLTagAction.doAtEnd, Option.some.injEq] at h
    subst h; exact Quiet.refl r
  | Image p =>
    simp only [XHTMLTagAction.doAtEnd, Option.some.injEq] at h
    subst h; exact Quiet.refl r
  | Svg =>
    simp only [XHTMLTagAction.doAtEnd, Option.some.injEq] at h
    subst h; exact Quiet.of_fields rfl rfl
  | Item => exact quiet_endParagraph r r' h
  | Hyperlink =>
    simp only [XHTMLTagAction.doAtEnd] at h
    cases hs : r.myHyperlinkStack with
    | nil => simp [hyperlinkDoAtEnd, hs] at h
    | cons k rest =>
      rw [hyperlinkDoAtEnd_eq r k rest hs] at h
      simp only [Option.some.injEq] at h
      subst h
      refine Quiet.of_calls _ rfl ?_ rfl
      split_ifs
      · exact coverFlags_single _ (by intros; simp)
      · rfl
  | Control k =>
    simp only [XHTMLTagAction.doAtEnd, Option.some.injEq] at h
    subst h
    exact (quiet_emit r _ (by intros; simp)).trans (quiet_emit _ _ (by intros; simp))
  | ParagraphWithControl k =>
    simp only [XHTMLTagAction.doAtEnd, paragraphWithControlDoAtEnd, Option.map_eq_some'] at h
    obtain ⟨r2, he, rfl⟩ := h
    exact (quiet_endParagraph _ _ he).trans (quiet_emit _ _ (by intros; simp))
  | Pre =>
    simp only [XHTMLTagAction.doAtEnd, preDoAtEnd, Option.map_eq_some'] at h
    obtain ⟨r2, he, rfl⟩ := h
    exact (quiet_endParagraph _ _ he).trans (Quiet.of_fields rfl rfl)

/-- An image action that finds its file registers exactly one image, with the
cover flag it found, and clears the flag. -/
theorem imageDoAtStart_registers (env : Env) (r r' : XHTMLReader) (p : ImagePredicate)
    (attrs : Attributes) (fileName : Str)
    (hname : imageFileName env r p attrs = some fileName)
    (hex : env.fileExists (r.myPathPrefix ++ env.decodeHtmlURL fileName) = true)
    (h : imageDoAtStart env r p attrs = some r') :
    ∃ out, r'.myModelReader = r.myModelReader ++ out ∧
      coverFlags out = [r.myMarkNextImageAsCover] ∧ r'.myMarkNextImageAsCover = false := by
  unfold imageDoAtStart at h
  simp only [hname, hex, Bool.not_true, Bool.false_eq_true, if_false, Option.bind_eq_some] at h
  obtain ⟨r1, h1, h2⟩ := h
  have q1 : Quiet r r1 := by
    split_ifs at h1 with ho he
    · simp only [Option.some.injEq] at h1
      subst h1; exact quiet_emit r _ (by intros; simp)
    · exact quiet_endParagraph r r1 h1
    · simp only [Option.some.injEq] at h1
      subst h1; exact Quiet.refl r
  obtain ⟨o1, l1, c1, f1⟩ := q1
  have key : ∃ o2, r'.myModelReader =
      r1.myModelReader ++
        [SinkEvent.addImageReference
            (env.fileName (r.myPathPrefix ++ env.decodeHtmlURL fileName)) 0
            r1.myMarkNextImageAsCover,
          SinkEvent.addImage (env.fileName (r.myPathPrefix ++ env.decodeHtmlURL fileName))] ++
        o2 ∧ coverFlags o2 = [] ∧ r'.myMarkNextImageAsCover = false := by
    split_ifs at h2
    · obtain ⟨o2, l2, c2, f2⟩ := quiet_endParagraph _ _ h2
      simp only [XHTMLReader.emit] at l2 f2
      refine ⟨SinkEvent.addControl FBTextKind.IMAGE false :: o2, ?_, ?_, f2⟩
      · rw [l2]; simp
      · rw [coverFlags_cons _ _ (by intros; simp), c2]
    · simp only [Option.some.injEq] at h2
      subst h2
      exact ⟨[], by simp [XHTMLReader.emit], rfl, rfl⟩
  obtain ⟨o2, l2, c2, f2⟩ := key
  refine ⟨o1 ++ [SinkEvent.addImageReference
      (env.fileName (r.myPathPrefix ++ env.decodeHtmlURL fileName)) 0 r.myMarkNextImageAsCover,
    SinkEvent.addImage (env.fileName (r.myPathPrefix ++ env.decodeHtmlURL fileName))] ++ o2,
    ?_, ?_, f2⟩
  · rw [l2, l1, f1]
    simp
  · rw [coverFlags_append, coverFlags_append, c1, c2]
    rfl

theorem imageDoAtStart_cover (env : Env) (r r' : XHTMLReader) (p : ImagePredicate)
    (attrs : Attributes) (h : imageDoAtStart env r p attrs = some r') : CoverStep r r' := by
  cases hname : imageFileName env r p attrs with
  | none =>
    simp only [imageDoAtStart, hname, Option.some.injEq] at h
    subst h; exact CoverStep.of_quiet (Quiet.refl r)
  | some fileName =>
    by_cases hex : env.fileExists (r.myPathPrefix ++ env.decodeHtmlURL fileName) = true
    · obtain ⟨out, h1, h2, h3⟩ := imageDoAtStart_registers env r r' p attrs fileName hname hex h
      exact ⟨out, h1, Or.inr ⟨0, h2, h3⟩⟩
    · have hex2 : env.fileExists (r.myPathPrefix ++ env.decodeHtmlURL fileName) = false := by
        simpa using hex
      simp [imageDoAtStart, hname, hex2] at h
      subst h; exact CoverStep.of_quiet (Quiet.refl r)

theorem invokeAtStart_cover (env : Env) (action : Option XHTMLTagAction) (r r' : XHTMLReader)
    (attrs : Attributes) (h : invokeAtStart env action r attrs = some r') : CoverStep r r' := by
  cases action with
  | none =>
    simp only [invokeAtStart, Option.some.injEq] at h
    subst h; exact CoverStep.of_quiet (Quiet.refl r)
  | some a =>
    simp only [invokeAtStart] at h
    by_cases hi : ∃ p, a = XHTMLTagAction.Image p
    · obtain ⟨p, rfl⟩ := hi
      exact imageDoAtStart_cover env r r' p attrs h
    · exact CoverStep.of_quiet
        (doAtStart_quiet env a r r' attrs (fun p hp => hi ⟨p, hp⟩) h)

theorem startElementHandler_cover (env : Env) (r r' : XHTMLReader) (tag : Str)
    (attrs : Attributes) (h : startElementHandler env r tag attrs = some r') :
    CoverStep r r' := by
  unfold startElementHandler at h
  simp only [Option.map_eq_some'] at h
  obtain ⟨r4, h4, rfl⟩ := h
  have q1 : Quiet r (startElementOpening r (env.toLower tag)
      ((attributeValue attrs "class".toList).getD []) attrs) := by
    rw [startElementOpening_eq]
    refine Quiet.of_calls _ rfl ?_ rfl
    rw [coverFlags_append]
    have e1 : coverFlags ((attributeValue attrs "id".toList).map (fun id =>
        SinkEvent.addHyperlinkLabel (r.myReferenceAlias ++ HASH ++ id))).toList = [] := by
      cases attributeValue attrs "id".toList with
      | none => rfl
      | some id => exact coverFlags_single _ (by intros; simp)
    rw [e1]
    split_ifs
    · exact coverFlags_single _ (by intros; simp)
    · rfl
  have q2 := invokeAtStart_cover env _ _ r4 attrs h4
  have q3 : Quiet r4 (pushStyleEntries env r4 (env.toLower tag)
      ((attributeValue attrs "class".toList).getD []) attrs) := by
    rw [pushStyleEntries_eq]
    exact Quiet.of_calls _ rfl (coverFlags_styleEntries _) rfl
  exact ((CoverStep.of_quiet q1).chain q2).chain
    (CoverStep.of_quiet (q3.trans (Quiet.of_fields rfl rfl)))

theorem removeStylesLoop_quiet (n : Nat) :
    ∀ (r r' : XHTMLReader), removeStylesLoop n r = some r' → Quiet r r' := by
  induction n with
  | zero =>
    intro r r' h
    simp only [removeStylesLoop, Option.some.injEq] at h
    subst h; exact Quiet.of_fields rfl rfl
  | succ n ih =>
    intro r r' h
    cases hs : r.myStyleEntryStack with
    | nil => simp [removeStylesLoop, hs] at h
    | cons e rest =>
      simp only [removeStylesLoop, hs] at h
      have q1 : Quiet r ({ r with myStyleEntryStack := rest, myStylesToRemove := n } :
          XHTMLReader) := Quiet.of_fields rfl rfl
      exact q1.trans (ih _ r' h)

theorem endElementHandler_quiet (env : Env) (r r' : XHTMLReader) (tag : Str)
    (h : endElementHandler env r tag = some r') : Quiet r r' := by
  unfold endElementHandler at h
  cases hc : r.myCSSStack with
  | nil => simp [hc] at h
  | cons n rest =>
    simp only [hc, closeEntriesLoop_eq, Option.bind_eq_some] at h
    obtain ⟨r3, h3, r4, h4, h5⟩ := h
    have q1 : Quiet r ({ r with
        myModelReader := r.myModelReader ++ List.replicate n SinkEvent.addStyleCloseEntry,
        myStylesToRemove := n, myCSSStack := rest } : XHTMLReader) :=
      Quiet.of_calls _ rfl (coverFlags_replicate_close n) rfl
    have q2 : Quiet ({ r with
        myModelReader := r.myModelReader ++ List.replicate n SinkEvent.addStyleCloseEntry,
        myStylesToRemove := n, myCSSStack := rest } : XHTMLReader) r3 := by
      cases ha : getAction env tag with
      | none =>
        simp only [ha, invokeAtEnd, Option.some.injEq] at h3
        subst h3; exact Quiet.refl _
      | some a =>
        simp only [ha, invokeAtEnd, Option.map_eq_some'] at h3
        obtain ⟨r2, h2, rfl⟩ := h3
        exact (doAtEnd_quiet a _ r2 h2).trans (Quiet.of_fields rfl rfl)
    have q3 := removeStylesLoop_quiet _ _ _ h4
    have q4 : Quiet r4 r' := by
      unfold endElementClosing at h5
      cases hp : r4.myDoPageBreakAfterStack with
      | nil => simp [hp] at h5
      | cons b others =>
        simp only [hp, Option.some.injEq] at h5
        subst h5
        by_cases hb : b = true
        · simp only [hb, if_true]
          exact (quiet_emit r4 _ (by intros; simp)).trans (Quiet.of_fields rfl rfl)
        · simp only [hb, Bool.false_eq_true, if_false]
          exact Quiet.of_fields rfl rfl
    exact ((q1.trans q2).trans q3).trans q4

theorem appendCharacterData_quiet (env : Env) (r : XHTMLReader) (text : Str) :
    Quiet r (appendCharacterData env r text) := by
  by_cases h1 : text.length > 0
  · by_cases h2 : env.paragraphIsOpen r.myModelReader = true
    · refine Quiet.of_calls [SinkEvent.addData text] ?_
        (coverFlags_single _ (by intros; simp)) ?_ <;>
        simp [appendCharacterData, h1, h2, XHTMLReader.emit]
    · refine Quiet.of_calls [SinkEvent.beginParagraph, SinkEvent.addData text] ?_ ?_ ?_
      · simp [appendCharacterData, h1, h2, XHTMLReader.emit]
      · rw [coverFlags_cons _ _ (by intros; simp)]
        exact coverFlags_single _ (by intros; simp)
      · simp [appendCharacterData, h1, h2, XHTMLReader.emit]
  · refine Quiet.of_fields ?_ ?_ <;> simp [appendCharacterData, h1]

theorem characterDataHandler_quiet (env : Env) (r r' : XHTMLReader) (text : Str)
    (h : characterDataHandler env r text = some r') : Quiet r r' := by
  unfold characterDataHandler at h
  cases hrs : r.myReadState with
  | READ_NOTHING =>
    simp only [hrs, Option.some.injEq] at h
    subst h; exact Quiet.refl r
  | READ_STYLE =>
    simp only [hrs] at h
    cases hp : r.myTableParser with
    | none =>
      simp only [hp, Option.some.injEq] at h
      subst h; exact Quiet.refl r
    | some pending =>
      simp only [hp, Option.some.injEq] at h
      subst h; exact Quiet.of_fields rfl rfl
  | READ_BODY =>
    simp only [hrs] at h
    by_cases hpre : r.myPreformatted = true
    · simp only [hpre, if_true] at h
      cases text with
      | nil => simp at h
      | cons c rest =>
        simp only [Option.map_eq_some'] at h
        obtain ⟨p, hp, rfl⟩ := h
        have q1 : Quiet r p.1 := by
          split_ifs at hp
          · simp only [Option.map_eq_some'] at hp
            obtain ⟨r1, h1, rfl⟩ := hp
            exact ((quiet_endParagraph _ _ h1).trans (quiet_beginParagraph r1)).trans
              (quiet_emit _ _ (by intros; simp))
          · simp only [Option.some.injEq] at hp
            subst hp; exact Quiet.refl r
        exact (q1.trans (quiet_emit _ _ (by intros; simp))).trans
          (appendCharacterData_quiet env _ _)
    · simp only [hpre, Bool.false_eq_true, if_false] at h
      split_ifs at h
      · simp only [Option.map_eq_some'] at h
        obtain ⟨rest, _, rfl⟩ := h
        exact appendCharacterData_quiet env r rest
      · simp only [Option.some.injEq] at h
        subst h; exact appendCharacterData_quiet env r text

theorem runEvents_cover (env : Env) (es : List XMLEvent) :
    ∀ (r r' : XHTMLReader), runEvents env r es = some r' → CoverStep r r' := by
  induction es with
  | nil =>
    intro r r' h
    simp only [runEvents, Option.some.injEq] at h
    subst h; exact CoverStep.of_quiet (Quiet.refl r)
  | cons e es ih =>
    intro r r' h
    simp only [runEvents, Option.bind_eq_some] at h
    obtain ⟨r1, h1, h2⟩ := h
    have q1 : CoverStep r r1 := by
      cases e with
      | startElement tag attrs => exact startElementHandler_cover env r r1 tag attrs h1
      | characterData text => exact CoverStep.of_quiet (characterDataHandler_quiet env r r1 text h1)
      | endElement tag => exact CoverStep.of_quiet (endElementHandler_quiet env r r1 tag h1)
    exact q1.chain (ih r1 r' h2)

theorem schemeReferenceType_ne_regular (s : Str) :
    stdEnv.referenceType s ≠ FBTextKind.REGULAR := by
  show schemeReferenceType s ≠ FBTextKind.REGULAR
  unfold schemeReferenceType
  split_ifs <;> decide

/-- C15 (amended). The cover flag goes to the first image element whose source
attribute is present and whose file exists. Run part: over any prefix of a
well-nested callback sequence, started between handler calls, the handlers are
defined and the image registrations they make carry, in call order, the cover
flag found at the start and then only `false`; once an image is registered the
flag is clear, and until then it is unchanged. Action part: the onStart of an
image action whose source attribute is present and whose file exists registers
exactly one image, with the flag it finds as `isCover`, and clears the flag; the
onStart of an image action without source attribute or without file changes
nothing, the flag included. -/
theorem cover_flag_consumed_by_first_registered_image (env : Env)
    (hlow : ∀ t, env.toLower (env.toLower t) = env.toLower t)
    (r : XHTMLReader) (es : List XMLEvent) (opened : List Str)
    (h0 : r.myStylesToRemove = 0) (hes : openTags [] es = some opened) :
    (∃ (r' : XHTMLReader) (out : List SinkEvent), runEvents env r es = some r' ∧
      r'.myModelReader = r.myModelReader ++ out ∧
      ((coverFlags out = [] ∧ r'.myMarkNextImageAsCover = r.myMarkNextImageAsCover) ∨
       (∃ n, coverFlags out = r.myMarkNextImageAsCover :: List.replicate n false ∧
          r'.myMarkNextImageAsCover = false))) ∧
    (∀ (p : ImagePredicate) (attributes : Attributes),
      (∀ fileName, imageFileName env r p attributes = some fileName →
        env.fileExists (r.myPathPrefix ++ env.decodeHtmlURL fileName) = true →
        ∃ (r' : XHTMLReader) (out : List SinkEvent),
          imageDoAtStart env r p attributes = some r' ∧
          r'.myModelReader = r.myModelReader ++ out ∧
          coverFlags out = [r.myMarkNextImageAsCover] ∧
          r'.myMarkNextImageAsCover = false) ∧
      (imageFileName env r p attributes = none → imageDoAtStart env r p attributes = some r) ∧
      (∀ fileName, imageFileName env r p attributes = some fileName →
        env.fileExists (r.myPathPrefix ++ env.decodeHtmlURL fileName) = false →
        imageDoAtStart env r p attributes = some r)) := by
  refine ⟨?_, ?_⟩
  · obtain ⟨r', h1, _⟩ := frame_run env hlow r es r [] opened (frame_refl env r h0) hes
    obtain ⟨out, h2, h3⟩ := runEvents_cover env es r r' h1
    exact ⟨r', out, h1, h2, h3⟩
  · intro p attributes
    refine ⟨?_, ?_, ?_⟩
    · intro fileName hname hex
      obtain ⟨r', h1, _⟩ := imageDoAtStart_frame env r p attributes h0
      obtain ⟨out, h2, h3, h4⟩ :=
        imageDoAtStart_registers env r r' p attributes fileName hname hex h1
      exact ⟨r', out, h1, h2, h3, h4⟩
    · intro hname
      simp only [imageDoAtStart, hname]
    · intro fileName hname hex
      simp [imageDoAtStart, hname, hex]

theorem cover_flag_consumed_by_first_registered_image_witness :
    (∀ t, coverEnv.toLower (coverEnv.toLower t) = coverEnv.toLower t) ∧
    coverReader.myStylesToRemove = 0 ∧
    openTags [] [XMLEvent.startElement "p".toList [],
      XMLEvent.startElement "img".toList [("src".toList, "b.png".toList)],
      XMLEvent.endElement "img".toList,
      XMLEvent.startElement "img".toList [("src".toList, "b.png".toList)]] =
        some ["img".toList, "p".toList] ∧
    (∃ (r' : XHTMLReader) (out : List SinkEvent),
      runEvents coverEnv coverReader [XMLEvent.startElement "p".toList [],
        XMLEvent.startElement "img".toList [("src".toList, "b.png".toList)],
        XMLEvent.endElement "img".toList,
        XMLEvent.startElement "img".toList [("src".toList, "b.png".toList)]] = some r' ∧
      r'.myModelReader = coverReader.myModelReader ++ out ∧
      ((coverFlags out = [] ∧
          r'.myMarkNextImageAsCover = coverReader.myMarkNextImageAsCover) ∨
       (∃ n, coverFlags out = coverReader.myMarkNextImageAsCover :: List.replicate n false ∧
          r'.myMarkNextImageAsCover = false))) :=
  ⟨asciiToLower_idem, by decide, by decide,
    (cover_flag_consumed_by_first_registered_image coverEnv asciiToLower_idem coverReader _
      ["img".toList, "p".toList] (by decide) (by decide)).1⟩

/-- C15, counterexample. With the cover flag set and only `OPS/b.png` present, the
first image element, `<img src="a.png">`, registers nothing and leaves the flag
set; the second image element, `<img src="b.png">`, is the one registered with
`isCover = true`. -/
theorem first_image_element_without_file_keeps_cover_flag :
    coverReader.myMarkNextImageAsCover = true ∧
    getAction coverEnv "img".toList =
      some (XHTMLTagAction.Image (ImagePredicate.simple "src".toList)) ∧
    (runEvents coverEnv coverReader
        [XMLEvent.startElement "img".toList [("src".toList, "a.png".toList)]]).map
      (fun r => (coverFlags r.myModelReader, r.myMarkNextImageAsCover)) = some ([], true) ∧
    (runEvents coverEnv coverReader
        [XMLEvent.startElement "img".toList [("src".toList, "a.png".toList)],
         XMLEvent.endElement "img".toList,
         XMLEvent.startElement "img".toList [("src".toList, "b.png".toList)],
         XMLEvent.endElement "img".toList]).map
      (fun r => (r.myModelReader.drop coverReader.myModelReader.length,
        r.myMarkNextImageAsCover)) =
      some ([SinkEvent.addImageReference "OPS/b.png".toList 0 true,
        SinkEvent.addImage "OPS/b.png".toList], false) := by
  decide

theorem hyperlink_close_pairs_with_open_witness :
    (∀ t, stdEnv.toLower (stdEnv.toLower t) = stdEnv.toLower t) ∧
    (∀ s, stdEnv.referenceType s ≠ FBTextKind.REGULAR) ∧
    getAction stdEnv "a".toList = some XHTMLTagAction.Hyperlink ∧
    bodyReader.myStylesToRemove = 0 ∧
    WellNested [XMLEvent.characterData "see ".toList,
      XMLEvent.startElement "a".toList [("name".toList, "n1".toList)],
      XMLEvent.characterData "x".toList, XMLEvent.endElement "a".toList] ∧
    ∃ (s1 s2 s3 : XHTMLReader) (target : Str) (styles : List ZLTextStyleEntry) (b : Bool),
      startElementHandler stdEnv bodyReader "a".toList [("href".toList, "#sec1".toList)] =
        some s1 ∧
      s1.myHyperlinkStack =
        pushedHyperlinkKind stdEnv [("href".toList, "#sec1".toList)] ::
          bodyReader.myHyperlinkStack ∧
      s1.myModelReader =
        bodyReader.myModelReader ++
          openingCalls bodyReader (stdEnv.toLower "a".toList)
            ((attributeValue [("href".toList, "#sec1".toList)] "class".toList).getD [])
            [("href".toList, "#sec1".toList)] ++
          (if hasHref [("href".toList, "#sec1".toList)] then
            [SinkEvent.addHyperlinkControl
              (pushedHyperlinkKind stdEnv [("href".toList, "#sec1".toList)]) target]
           else []) ++
          ((attributeValue [("href".toList, "#sec1".toList)] "name".toList).map (fun name =>
            SinkEvent.addHyperlinkLabel
              (bodyReader.myReferenceAlias ++ HASH ++ stdEnv.decodeHtmlURL name))).toList ++
          styles.map SinkEvent.addStyleEntry ∧
      runEvents stdEnv s1 [XMLEvent.characterData "see ".toList,
        XMLEvent.startElement "a".toList [("name".toList, "n1".toList)],
        XMLEvent.characterData "x".toList, XMLEvent.endElement "a".toList] = some s2 ∧
      s2.myHyperlinkStack =
        pushedHyperlinkKind stdEnv [("href".toList, "#sec1".toList)] ::
          bodyReader.myHyperlinkStack ∧
      endElementHandler stdEnv s2 "a".toList = some s3 ∧
      s3.myModelReader =
        s2.myModelReader ++ List.replicate styles.length SinkEvent.addStyleCloseEntry ++
          (if hasHref [("href".toList, "#sec1".toList)] then
            [SinkEvent.addControl
              (pushedHyperlinkKind stdEnv [("href".toList, "#sec1".toList)]) false] else []) ++
          (if b then [SinkEvent.insertEndOfSectionParagraph] else []) ∧
      s3.myHyperlinkStack = bodyReader.myHyperlinkStack :=
  ⟨asciiToLower_idem, schemeReferenceType_ne_regular, by decide, by decide, by decide,
    hyperlink_close_pairs_with_open stdEnv asciiToLower_idem schemeReferenceType_ne_regular
      bodyReader "a".toList [("href".toList, "#sec1".toList)] _ (by decide) (by decide)
      (by decide)⟩

/-- C21. For a style stack of depth `d` (top at the head of the list) of which
`myStylesToRemove = n ≤ d` entries are slated for removal, `endParagraph` is
defined and sends to the sink: one space-after directive of length zero exactly
when one of the `d - n` entries below the slated ones supports the space-after
feature; then the `n` slated entries, top first; then the paragraph end as the
last call. Afterwards the stack holds the `d - n` lower entries, unchanged, and
`myStylesToRemove` is `0`. -/
theorem endParagraph_scans_active_then_pops_slated (r : XHTMLReader)
    (hle : r.myStylesToRemove ≤ r.myStyleEntryStack.length) :
    ∃ r', r.endParagraph = some r' ∧
      r'.myModelReader =
        r.myModelReader ++
          (if (r.myStyleEntryStack.drop r.myStylesToRemove).any
              (fun e => e.isFeatureSupported Feature.LENGTH_SPACE_AFTER) then
            [SinkEvent.addStyleEntry
              { entryKind := STYLE_OTHER_ENTRY, supported := [Feature.LENGTH_SPACE_AFTER],
                payload := 0 }]
           else []) ++
          (r.myStyleEntryStack.take r.myStylesToRemove).map SinkEvent.addStyleEntry ++
          [SinkEvent.endParagraph] ∧
      r'.myStyleEntryStack = r.myStyleEntryStack.drop r.myStylesToRemove ∧
      r'.myStyleEntryStack.length = r.myStyleEntryStack.length - r.myStylesToRemove ∧
      r'.myStylesToRemove = 0 := by
  refine ⟨_, endParagraph_eq r hle, ?_, rfl, ?_, rfl⟩
  · simp only [endCalls, blockingEntry, List.append_assoc]
  · simp only [List.length_drop]

theorem endParagraph_scans_active_then_pops_slated_witness :
    ({ bodyReader with
        myStyleEntryStack :=
          [{ entryKind := 1, supported := [Feature.LENGTH_SPACE_AFTER], payload := 7 },
           { entryKind := 1, supported := [], payload := 8 },
           { entryKind := 1, supported := [Feature.LENGTH_SPACE_AFTER], payload := 9 }],
        myStylesToRemove := 2 } : XHTMLReader).myStylesToRemove ≤
      ({ bodyReader with
        myStyleEntryStack :=
          [{ entryKind := 1, supported := [Feature.LENGTH_SPACE_AFTER], payload := 7 },
           { entryKind := 1, supported := [], payload := 8 },
           { entryKind := 1, supported := [Feature.LENGTH_SPACE_AFTER], payload := 9 }],
        myStylesToRemove := 2 } : XHTMLReader).myStyleEntryStack.length ∧
    ∃ r', ({ bodyReader with
        myStyleEntryStack :=
          [{ entryKind := 1, supported := [Feature.LENGTH_SPACE_AFTER], payload := 7 },
           { entryKind := 1, supported := [], payload := 8 },
           { entryKind := 1, supported := [Feature.LENGTH_SPACE_AFTER], payload := 9 }],
        myStylesToRemove := 2 } : XHTMLReader).endParagraph = some r' ∧
      r'.myModelReader =
        bodyReader.myModelReader ++
          [SinkEvent.addStyleEntry
            { entryKind := STYLE_OTHER_ENTRY, supported := [Feature.LENGTH_SPACE_AFTER],
              payload := 0 },
           SinkEvent.addStyleEntry
            { entryKind := 1, supported := [Feature.LENGTH_SPACE_AFTER], payload := 7 },
           SinkEvent.addStyleEntry { entryKind := 1, supported := [], payload := 8 },
           SinkEvent.endParagraph] ∧
      r'.myStyleEntryStack =
        [{ entryKind := 1, supported := [Feature.LENGTH_SPACE_AFTER], payload := 9 }] ∧
      r'.myStylesToRemove = 0 := by
  obtain ⟨r', h1, h2, h3, _, h5⟩ := endParagraph_scans_active_then_pops_slated
    ({ bodyReader with
        myStyleEntryStack :=
          [{ entryKind := 1, supported := [Feature.LENGTH_SPACE_AFTER], payload := 7 },
           { entryKind := 1, supported := [], payload := 8 },
           { entryKind := 1, supported := [Feature.LENGTH_SPACE_AFTER], payload := 9 }],
        myStylesToRemove := 2 } : XHTMLReader) (by decide)
  exact ⟨by decide, r', h1, h2, h3, h5⟩

theorem imageDoAtStart_table (env : Env) (r r' : XHTMLReader) (p : ImagePredicate)
    (attrs : Attributes) (h0 : r.myStylesToRemove = 0)
    (h : imageDoAtStart env r p attrs = some r') :
    r'.myStyleSheetTable = r.myStyleSheetTable := by
  have hle : r.myStylesToRemove ≤ r.myStyleEntryStack.length := by omega
  unfold imageDoAtStart at h
  cases hn : imageFileName env r p attrs with
  | none =>
    simp only [hn, Option.some.injEq] at h
    subst h; rfl
  | some fileName =>
    simp only [hn] at h
    by_cases hex : env.fileExists (r.myPathPrefix ++ env.decodeHtmlURL fileName) = true
    · by_cases hop : env.paragraphIsOpen r.myModelReader = true
      · by_cases hem : r.myCurrentParagraphIsEmpty = true
        · simp only [hex, hop, hem, if_true, Bool.not_true, Bool.false_eq_true, if_false,
            Option.some_bind, XHTMLReader.emit, Bool.and_self] at h
          rw [endParagraph_eq _ (by simpa using hle)] at h
          simp only [Option.some.injEq] at h
          subst h; rfl
        · simp only [hex, hop, hem, if_true, Bool.not_true, Bool.false_eq_true, if_false] at h
          rw [endParagraph_eq _ hle] at h
          simp [XHTMLReader.emit, hem] at h
          subst h; rfl
      · simp [hex, hop, XHTMLReader.emit] at h
        subst h; rfl
    · simp [hex] at h
      subst h; rfl

theorem doAtStart_table (env : Env) (a : XHTMLTagAction) (r r' : XHTMLReader)
    (attrs : Attributes) (h0 : r.myStylesToRemove = 0) (hne : a ≠ XHTMLTagAction.Link)
    (h : a.doAtStart env r attrs = some r') :
    r'.myStyleSheetTable = r.myStyleSheetTable := by
  have hle : r.myStylesToRemove ≤ r.myStyleEntryStack.length := by omega
  cases a with
  | Style =>
    simp only [XHTMLTagAction.doAtStart, styleDoAtStart, Option.some.injEq] at h
    subst h
    split <;> [skip; split_ifs] <;> rfl
  | Link => exact absurd rfl hne
  | Paragraph =>
    simp only [XHTMLTagAction.doAtStart, paragraphDoAtStart, beginParagraph_eq,
      Option.some.injEq] at h
    subst h
    split_ifs <;> rfl
  | Body =>
    simp only [XHTMLTagAction.doAtStart, bodyDoAtStart, Option.some.injEq] at h
    subst h
    split_ifs <;> rfl
  | RestartParagraph =>
    simp only [XHTMLTagAction.doAtStart, restartParagraphDoAtStart] at h
    split_ifs at h
    · rw [endParagraph_eq _ (by simpa [XHTMLReader.emit] using hle)] at h
      simp only [Option.map_some', beginParagraph_eq, Option.some.injEq] at h
      subst h; rfl
    · rw [endParagraph_eq _ hle] at h
      simp only [Option.map_some', beginParagraph_eq, Option.some.injEq] at h
      subst h; rfl
  | Image p => exact imageDoAtStart_table env r r' p attrs h0 h
  | Svg =>
    simp only [XHTMLTagAction.doAtStart, Option.some.injEq] at h
    subst h; rfl
  | Item =>
    simp only [XHTMLTagAction.doAtStart, itemDoAtStart] at h
    rw [endParagraph_eq _ hle] at h
    simp only [Option.map_some', beginParagraph_eq, Option.some.injEq] at h
    subst h; rfl
  | Hyperlink =>
    simp only [XHTMLTagAction.doAtStart, Option.some.injEq] at h
    subst h
    unfold hyperlinkDoAtStart
    repeat' split
    all_goals rfl
  | Control k =>
    simp only [XHTMLTagAction.doAtStart, Option.some.injEq] at h
    subst h; rfl
  | ParagraphWithControl k =>
    simp only [XHTMLTagAction.doAtStart, paragraphWithControlDoAtStart, beginParagraph_eq,
      Option.some.injEq] at h
    subst h
    split_ifs <;> rfl
  | Pre =>
    simp only [XHTMLTagAction.doAtStart, preDoAtStart, beginParagraph_eq,
      Option.some.injEq] at h
    subst h; rfl

/-- C22. For an element without `class` attribute, or with an empty one, started in
a state between handler calls: the start handler is defined and, after the tag
action returned, sends to the sink and pushes the results of the lookups
`(tag, "")`, `("", "")`, `(tag, "")`, in this order, and then the entry of the
inline style; the lookups are made in the style table as the tag action left it,
which is the table before the element unless the action is the link action. Hence
a directive `e` of the table for `(tag, "")` is sent twice and pushed twice, and
the count recorded on `myCSSStack` counts it twice. -/
theorem tag_directive_pushed_twice_without_class (env : Env) (r : XHTMLReader) (tag : Str)
    (attributes : Attributes) (h0 : r.myStylesToRemove = 0)
    (hclass : (attributeValue attributes "class".toList).getD [] = []) :
    ∃ (r4 r' : XHTMLReader),
      invokeAtStart env (getAction env (env.toLower tag))
        (startElementOpening r (env.toLower tag) [] attributes) attributes = some r4 ∧
      (getAction env (env.toLower tag) ≠ some XHTMLTagAction.Link →
        r4.myStyleSheetTable = r.myStyleSheetTable) ∧
      startElementHandler env r tag attributes = some r' ∧
      r'.myModelReader =
        r4.myModelReader ++
          ((r4.myStyleSheetTable.control (env.toLower tag) []).toList ++
            (r4.myStyleSheetTable.control [] []).toList ++
            (r4.myStyleSheetTable.control (env.toLower tag) []).toList ++
            ((attributeValue attributes "style".toList).map env.parseString).toList).map
            SinkEvent.addStyleEntry ∧
      (∀ e, r4.myStyleSheetTable.control (env.toLower tag) [] = some e →
        r'.myModelReader =
          r4.myModelReader ++
            (SinkEvent.addStyleEntry e ::
              (r4.myStyleSheetTable.control [] []).toList.map SinkEvent.addStyleEntry ++
            SinkEvent.addStyleEntry e ::
              ((attributeValue attributes "style".toList).map env.parseString).toList.map
                SinkEvent.addStyleEntry) ∧
        r'.myStyleEntryStack =
          ((attributeValue attributes "style".toList).map env.parseString).toList.reverse ++
            e :: (r4.myStyleSheetTable.control [] []).toList.reverse ++
            e :: r.myStyleEntryStack ∧
        r'.myCSSStack =
          (2 + (r4.myStyleSheetTable.control [] []).toList.length +
            ((attributeValue attributes "style".toList).map env.parseString).toList.length) ::
            r.myCSSStack) := by
  obtain ⟨c3, s3, m3, _, _⟩ := startElementOpening_frame r (env.toLower tag) [] attributes
  obtain ⟨r4, h1, h2, h3, _⟩ := invokeAtStart_frame env (getAction env (env.toLower tag))
    (startElementOpening r (env.toLower tag) [] attributes) attributes (m3.trans h0)
  have htable : getAction env (env.toLower tag) ≠ some XHTMLTagAction.Link →
      r4.myStyleSheetTable = r.myStyleSheetTable := by
    intro hne
    have ht3 : (startElementOpening r (env.toLower tag) [] attributes).myStyleSheetTable =
        r.myStyleSheetTable := by
      rw [startElementOpening_eq]
    cases ha : getAction env (env.toLower tag) with
    | none =>
      rw [ha] at h1
      simp only [invokeAtStart, Option.some.injEq] at h1
      rw [← h1, ht3]
    | some a =>
      rw [ha] at h1 hne
      simp only [invokeAtStart] at h1
      rw [doAtStart_table env a _ r4 attributes (m3.trans h0)
        (fun e => hne (by rw [e])) h1, ht3]
  have hs := startElementHandler_eq env r r4 tag attributes (by rw [hclass]; exact h1)
  rw [hclass] at hs
  refine ⟨r4, _, h1, htable, hs, rfl, ?_⟩
  intro e he
  refine ⟨?_, ?_, ?_⟩
  · simp only [elementDirectives, he, Option.toList, List.map_append, List.map_cons,
      List.map_nil, List.append_assoc, List.singleton_append, List.cons_append,
      List.nil_append]
  · simp only [elementDirectives, he, h3, s3]
    simp
  · simp only [elementDirectives, he, h2, c3]
    simp
    omega

theorem tag_directive_pushed_twice_without_class_witness :
    tagRuleReader.myStylesToRemove = 0 ∧
    (attributeValue [] "class".toList).getD [] = [] ∧
    tagRuleReader.myStyleSheetTable.control "p".toList [] =
      some { entryKind := 1, supported := [], payload := 5 } ∧
    ∃ r', startElementHandler stdEnv tagRuleReader "p".toList [] = some r' ∧
      r'.myStyleEntryStack =
        [{ entryKind := 1, supported := [], payload := 5 },
         { entryKind := 1, supported := [], payload := 5 }] ∧
      r'.myCSSStack = [2] := by
  obtain ⟨r4, r', _, ht, hs, _, hall⟩ :=
    tag_directive_pushed_twice_without_class stdEnv tagRuleReader "p".toList [] (by decide)
      (by decide)
  have htab : r4.myStyleSheetTable = tagRuleReader.myStyleSheetTable := ht (by decide)
  obtain ⟨_, hst, hcss⟩ := hall { entryKind := 1, supported := [], payload := 5 }
    (by rw [htab]; decide)
  rw [htab] at hst hcss
  exact ⟨by decide, by decide, by decide, r', hs, hst.trans (by decide), hcss.trans (by decide)⟩

theorem lastIndexOf_none (s : Str) (c : Char) (h : c ∉ s) : lastIndexOf s c = none := by
  induction s with
  | nil => rfl
  | cons x xs ih =>
    have hx : ¬ x = c := fun e => h (by simp [e])
    have hxs : c ∉ xs := fun m => h (List.mem_cons_of_mem x m)
    simp [lastIndexOf, ih hxs, hx]

theorem lastIndexOf_last (s : Str) (c : Char) :
    ∀ i, s.get? i = some c → c ∉ s.drop (i + 1) → lastIndexOf s c = some i := by
  induction s with
  | nil => intro i h; simp at h
  | cons x xs ih =>
    intro i h hn
    cases i with
    | zero =>
      simp only [List.get?_cons_zero, Option.some.injEq] at h
      have hxs : c ∉ xs := by simpa using hn
      simp [lastIndexOf, lastIndexOf_none xs c hxs, h]
    | succ j =>
      simp only [List.get?_cons_succ] at h
      have hxs : c ∉ xs.drop (j + 1) := by simpa using hn
      simp [lastIndexOf, ih j h hxs]

theorem rfind_position (s : Str) (h : s.length < 2 ^ 64) :
    s.take ((s.length + 2 ^ 64 - 1) % 2 ^ 64 + 1) = s := by
  cases s with
  | nil => rfl
  | cons x xs =>
    apply List.take_of_length_le
    have h1 : (x :: xs).length = xs.length + 1 := rfl
    rw [h1] at h ⊢
    have h2 : (xs.length + 1 + 2 ^ 64 - 1) % 2 ^ 64 = xs.length := by
      have h3 : xs.length + 1 + 2 ^ 64 - 1 = xs.length + 2 ^ 64 := by omega
      rw [h3, Nat.add_mod_right, Nat.mod_eq_of_lt (by omega)]
    omega

theorem toInt32_npos : toSizeT (toInt32 npos + 1) = 0 := by decide

theorem toInt32_small (i : Nat) (h : i + 1 < 2 ^ 31) : toSizeT (toInt32 i + 1) = i + 1 := by
  have h1 : i % 2 ^ 32 = i := Nat.mod_eq_of_lt (by omega)
  have h2 : i < 2 ^ 31 := by omega
  unfold toInt32 toSizeT
  rw [h1, if_pos h2]
  have h3 : ((i : Int) + 1) % 2 ^ 64 = (i : Int) + 1 := by
    apply Int.emod_eq_of_lt <;> omega
  rw [h3]
  omega

theorem referenceDirName_no_slash (s : Str) (h : '/' ∉ s) : referenceDirName s = [] := by
  have h1 : lastIndexOf (s.take ((s.length + 2 ^ 64 - 1) % 2 ^ 64 + 1)) '/' = none :=
    lastIndexOf_none _ _ (fun m => h (List.mem_of_mem_take m))
  unfold referenceDirName strRfind
  simp only [h1, toInt32_npos, List.take_zero]

theorem referenceDirName_of_last (s : Str) (i : Nat) (hlen : s.length < 2 ^ 64)
    (hi : s.get? i = some '/') (hlast : '/' ∉ s.drop (i + 1)) :
    referenceDirName s = s.take (toSizeT (toInt32 i + 1)) := by
  unfold referenceDirName strRfind
  simp only [rfind_position s hlen, lastIndexOf_last s '/' i hi hlast]

theorem readFileReset_dirName (env : Env) (r : XHTMLReader) (filePath s : Str) :
    (readFileReset env r filePath s).myReferenceDirName = referenceDirName s := rfl

theorem referenceDirName_long (n : Nat) (hn : n + 2 < 2 ^ 64)
    (hbig : n + 2 ≤ toSizeT (toInt32 n + 1)) :
    referenceDirName (List.replicate n 'a' ++ ['/', 'b']) =
      List.replicate n 'a' ++ ['/', 'b'] := by
  have hlen : (List.replicate n 'a' ++ ['/', 'b']).length = n + 2 := by
    rw [List.length_append, List.length_replicate]; rfl
  have hi : (List.replicate n 'a' ++ ['/', 'b']).get? n = some '/' := by
    rw [List.get?_eq_getElem?, List.getElem?_append_right (by rw [List.length_replicate]),
      List.length_replicate, Nat.sub_self]
    rfl
  have hlast : '/' ∉ (List.replicate n 'a' ++ ['/', 'b']).drop (n + 1) := by
    rw [List.drop_append_eq_append_drop, List.length_replicate,
      List.drop_of_length_le (by rw [List.length_replicate]; omega)]
    have h1 : n + 1 - n = 1 := by omega
    rw [h1]
    decide
  rw [referenceDirName_of_last _ n (by rw [hlen]; exact hn) hi hlast]
  exact List.take_of_length_le (by rw [hlen]; exact hbig)

/-- C23 (amended). For every reference name `s`, `readFile` sets
`myReferenceDirName` to the empty string when `s` holds no `/` (the empty name
included): `rfind` answers `npos`, which becomes `-1` as an `int`, and `-1 + 1` is
the length `0`. When the last `/` of `s` is at an index `i` with `i + 1 < 2^31`,
`myReferenceDirName` is the prefix of `s` of length `i + 1`, which ends with that
`/`. The name is taken shorter than `2^64`, as every `std::string` is. -/
theorem reference_dir_name_through_last_slash (env : Env) (r : XHTMLReader)
    (filePath s : Str) :
    ('/' ∉ s →
      strRfind s '/' ((s.length + 2 ^ 64 - 1) % 2 ^ 64) = npos ∧ toInt32 npos = -1 ∧
      toSizeT (toInt32 npos + 1) = 0 ∧
      (readFileReset env r filePath s).myReferenceDirName = []) ∧
    (∀ i, s.length < 2 ^ 64 → s.get? i = some '/' → '/' ∉ s.drop (i + 1) →
      i + 1 < 2 ^ 31 →
      (readFileReset env r filePath s).myReferenceDirName = s.take (i + 1)) := by
  refine ⟨fun h => ⟨?_, by decide, by decide, referenceDirName_no_slash s h⟩, ?_⟩
  · unfold strRfind
    rw [lastIndexOf_none _ _ (fun m => h (List.mem_of_mem_take m))]
  · intro i hlen hi hlast hsmall
    show referenceDirName s = s.take (i + 1)
    rw [referenceDirName_of_last s i hlen hi hlast, toInt32_small i hsmall]

theorem reference_dir_name_through_last_slash_witness :
    ('/' ∉ "ch1.html".toList ∧
      (readFileReset stdEnv freshReader "ch1.html".toList "ch1.html".toList).myReferenceDirName =
        []) ∧
    ("OPS/text/ch1.html".toList.length < 2 ^ 64 ∧
      "OPS/text/ch1.html".toList.get? 8 = some '/' ∧
      '/' ∉ "OPS/text/ch1.html".toList.drop (8 + 1) ∧ 8 + 1 < 2 ^ 31 ∧
      (readFileReset stdEnv freshReader "OPS/text/ch1.html".toList
          "OPS/text/ch1.html".toList).myReferenceDirName = "OPS/text/".toList) :=
  ⟨⟨by decide,
    ((reference_dir_name_through_last_slash stdEnv freshReader "ch1.html".toList
      "ch1.html".toList).1 (by decide)).2.2.2⟩,
   by decide, by decide, by decide, by decide,
   (reference_dir_name_through_last_slash stdEnv freshReader "OPS/text/ch1.html".toList
      "OPS/text/ch1.html".toList).2 8 (by decide) (by decide) (by decide) (by decide)⟩

/-- C23 fails as stated: for the reference name of `2^31` letters `a` followed by
`/b`, `rfind` answers the index `2^31`, which becomes `-2^31` as an `int`;
`-2^31 + 1` converted to the length argument of `substr` is `2^64 - 2^31 + 1`, more
than the length of the name, so `myReferenceDirName` is the whole name, not its
prefix through the last `/`. -/
theorem reference_dir_name_of_long_name_is_whole_name :
    toSizeT (toInt32 (2 ^ 31) + 1) = 2 ^ 64 - 2 ^ 31 + 1 ∧
    (readFileReset stdEnv freshReader [] (List.replicate (2 ^ 31) 'a' ++ ['/', 'b'])).myReferenceDirName =
      List.replicate (2 ^ 31) 'a' ++ ['/', 'b'] ∧
    (readFileReset stdEnv freshReader [] (List.replicate (2 ^ 31) 'a' ++ ['/', 'b'])).myReferenceDirName ≠
      List.replicate (2 ^ 31) 'a' ++ ['/'] := by
  have h1 : referenceDirName (List.replicate (2 ^ 31) 'a' ++ ['/', 'b']) =
      List.replicate (2 ^ 31) 'a' ++ ['/', 'b'] :=
    referenceDirName_long (2 ^ 31) (by decide) (by decide)
  rw [readFileReset_dirName, h1]
  refine ⟨by decide, rfl, ?_⟩
  intro h
  have h2 : ['/', 'b'] = ['/'] := List.append_cancel_left h
  exact absurd h2 (by decide)


end XHTML
